import Mathlib

/-!
md2doc: escape substitution engine, byte buffer, UTF-8 helpers and the
replacement backend.

A shallow embedding of `src/md2doc/octetbuf.c`, `src/md2doc/ucs_fc32.c`,
`src/md2doc/ucs_tc32.c`, `src/md2doc/escape.c` and of the element stack, the
replacement definitions, their parser and the output callbacks of
`src/md2doc/md2doc.c`, followed by theorems about them.

Conventions of the embedding.

* An octet is a `Nat` below 256; a C string is the list of its octets
  without the terminating NUL.
* The data model is LP64: `size_t` and `unsigned long` have 64 bits,
  `unsigned` and `int` have 32 bits, `char` is signed.  `xchar_t` is
  `U8_CHAR_32`, which `xchar.h` makes a *signed* `int` (the test
  `(wchar_t)-1 < 0` is evaluated by the preprocessor, where `wchar_t`
  is the constant 0).
* A function whose C body can run into undefined behaviour, a failed
  `assert` (the sources are compiled without `NDEBUG`) or a crash
  returns `Option`; `none` stands for that outcome.
* Allocation never fails.
* Sizes and capacities of buffers are `Nat`.  Where a function of
  octetbuf.c computes a capacity from the size of octets in memory
  (`octetbuf_push_back`, `octetbuf_push_c`), the sum is not reduced modulo
  2 ^ 64: no buffer comes near that size.  A capacity or size that the
  caller passes as a number (`octetbuf_reserve`, `octetbuf_resize`) can be
  any `size_t`; for these the definitions `ROUND_size_t`, `grow_size_t`,
  `octetbuf_reserve_size_t` and `octetbuf_resize_size_t` compute as C does,
  modulo 2 ^ 64, and agree with the others where the sum does not wrap.
  The lock counter `k` of a buffer, which only assertions read, is left
  out: buffers are unlocked.
-/

namespace Md2doc

/-! ## octetbuf.c -/

/-- The macro `CHUNK` of octetbuf.c. -/
def CHUNK : Nat := 1024

/-- The macro `OCTETBUF_ASIZE` of octetbuf.h, the size of the inline array `a`:
`512 - offsetof(struct octetbuf_dummy_, a)`, with the fields `p`, `n`, `c`
(8 bytes each) and the lock counter `k` (4 bytes) in front. -/
def OCTETBUF_ASIZE : Nat := 512 - 28

/-- The struct `octetbuf_`: `p` holds the `n` octets in use (so `n` is
`p.length`), `c` is the capacity.  Whether the storage is the inline array
or a heap block is a function of `c` and is not stored. -/
structure octetbuf where
  p : List Nat
  c : Nat
deriving DecidableEq, Repr

/-- A zero-initialised buffer, as in `static octetbuf dst = {0}`. -/
def octetbuf_zero : octetbuf := ⟨[], 0⟩

/-- The macro `ROUND(N, O)` where `N + (CHUNK - 1)` does not exceed `SIZE_MAX`,
as for every `N` that is the size of octets in memory; `ROUND_size_t` is the
macro for every `size_t`. -/
def ROUND (N : Nat) : Nat :=
  if N > OCTETBUF_ASIZE then CHUNK * ((N + (CHUNK - 1)) / CHUNK) else OCTETBUF_ASIZE

/-- The tail of `grow` after the new capacity `c` is fixed: keep the first
`min n c` octets, in the inline array when `c` fits there. -/
def grow_to (o : octetbuf) (c : Nat) : octetbuf :=
  let nn := if o.p.length > c then c else o.p.length
  if c ≤ OCTETBUF_ASIZE then ⟨o.p.take nn, OCTETBUF_ASIZE⟩
  else ⟨o.p.take nn, c⟩

/-- The function `grow`: make the capacity `c` (rounded up when it grows). -/
def grow (o : octetbuf) (c : Nat) : octetbuf :=
  if c > o.c then grow_to o (ROUND c)
  else if c = o.c then o
  else grow_to o c

/-- The function `octetbuf_reserve`. -/
def octetbuf_reserve (o : octetbuf) (c : Nat) : octetbuf :=
  if c > o.c then grow o c else o

/-- The function `octetbuf_resize`: new size `n`, new octets set to `value`. -/
def octetbuf_resize (o : octetbuf) (n : Nat) (value : Nat) : octetbuf :=
  let m := o.p.length
  let o1 := if n > o.c then grow o n else o
  ⟨o1.p.take n ++ List.replicate (n - m) (value % 256), o1.c⟩

/-- The function `octetbuf_shift`: drop `k` leading octets; the result is the
buffer and the returned value, which is the new size `o->n`. -/
def octetbuf_shift (o : octetbuf) (k : Nat) : octetbuf × Nat :=
  let k1 := if k > o.p.length then o.p.length else k
  let n := o.p.length - k1
  (⟨o.p.drop k1, o.c⟩, n)

/-- The function `octetbuf_push_back` for an explicit length (`n` is the length
of `bs`); the result is the buffer and the returned index, the old size. -/
def octetbuf_push_back (o : octetbuf) (bs : List Nat) : octetbuf × Nat :=
  let i := o.p.length
  if bs.length = 0 then (o, i)
  else
    let nn := o.p.length + bs.length
    let o1 := if nn > o.c then grow o nn else o
    (⟨o1.p ++ bs, o1.c⟩, i)

/-- The C function `strlen` on memory that holds the octets `s` followed by a
NUL: the octets before the first NUL. -/
def cstr (s : List Nat) : List Nat := s.takeWhile (fun b => b != 0)

/-- The macro `octetbuf_push_s`: `octetbuf_push_back` with `n == NTS`, which
takes the length from `strlen`. -/
def octetbuf_push_s (o : octetbuf) (s : List Nat) : octetbuf × Nat :=
  octetbuf_push_back o (cstr s)

/-- The function `octetbuf_push_c`. -/
def octetbuf_push_c (o : octetbuf) (c : Nat) : octetbuf × Nat :=
  let o1 := if o.p.length ≥ o.c then octetbuf_reserve o (o.p.length + 1) else o
  (⟨o1.p ++ [c % 256], o1.c⟩, o1.p.length)

/-- The function `octetbuf_extend` with an `int` argument `d`; the returned
pointer is `p + m` for `d >= 0`, its offset is the second component. -/
def octetbuf_extend (o : octetbuf) (d : Int) : octetbuf × Nat :=
  let m := o.p.length
  let nn := if d < 0 ∧ (-d).toNat > m then 0 else ((m : Int) + d).toNat
  let o1 := octetbuf_resize o nn 0
  (o1, if d ≥ 0 then m else o1.p.length)

/-- The function `octetbuf_release`: hand out the octets, reset the buffer to
the empty inline array. -/
def octetbuf_release (o : octetbuf) : List Nat × octetbuf :=
  (o.p, ⟨[], OCTETBUF_ASIZE⟩)

/-- A store of the octets `bs` through a pointer to offset `i` of the storage
of a buffer whose size already covers them (as `xctomb(op, ucs)` does after
`octetbuf_extend`). -/
def octetbuf_store (o : octetbuf) (i : Nat) (bs : List Nat) : octetbuf :=
  ⟨o.p.take i ++ bs ++ o.p.drop (i + bs.length), o.c⟩

/-- The function `octetbuf_shrink_to_fit`. -/
def octetbuf_shrink_to_fit (o : octetbuf) : octetbuf :=
  let n := o.p.length
  if n < o.c then grow o n else o

/-- The function `octetbuf_pop_back`: `none` is the failed assertion
`n <= o->n`; the result is the buffer and the offset of the returned pointer,
the new size. -/
def octetbuf_pop_back (o : octetbuf) (n : Nat) : Option (octetbuf × Nat) :=
  if n ≤ o.p.length then some (⟨o.p.take (o.p.length - n), o.c⟩, o.p.length - n) else none

/-- The macro `ROUND(N, O)` as C computes it for a `size_t` `N`: the sum
`N + (CHUNK - 1U)` and the product are reduced modulo 2 ^ 64, so for `N`
above `SIZE_MAX - 1023` the sum wraps and the result is 0. -/
def ROUND_size_t (N : Nat) : Nat :=
  if N > OCTETBUF_ASIZE then (CHUNK * (((N + (CHUNK - 1)) % 2 ^ 64) / CHUNK)) % 2 ^ 64
  else OCTETBUF_ASIZE

/-- The function `grow` for a capacity `c` that is any `size_t`. -/
def grow_size_t (o : octetbuf) (c : Nat) : octetbuf :=
  if c > o.c then grow_to o (ROUND_size_t c)
  else if c = o.c then o
  else grow_to o c

/-- The function `octetbuf_reserve` for a capacity `c` that is any `size_t`. -/
def octetbuf_reserve_size_t (o : octetbuf) (c : Nat) : octetbuf :=
  if c > o.c then grow_size_t o c else o

/-- The function `octetbuf_resize` for a size `n` that is any `size_t`.  The
loop stores `p[k]` for `k` from the old size up to `n - 1`; `none` is such a
store behind the storage, whose capacity `grow` has made less than `n`. -/
def octetbuf_resize_size_t (o : octetbuf) (n : Nat) (value : Nat) : Option octetbuf :=
  let m := o.p.length
  let o1 := if n > o.c then grow_size_t o n else o
  if m < n ∧ o1.c < n then none
  else some ⟨o1.p.take n ++ List.replicate (n - m) (value % 256), o1.c⟩

/-! ## ucs_fc32.c and ucs_tc32.c -/

/-- The value `(size_t)-1`. -/
def SIZE_M1 : Nat := 2 ^ 64 - 1

/-- The value `(size_t)-2`. -/
def SIZE_M2 : Nat := 2 ^ 64 - 2

/-- The macro `U8_LEN_MAX`. -/
def U8_LEN_MAX : Nat := 4

/-- Conversion of an integer to the 32-bit signed `U8_CHAR_32`. -/
def toInt32 (x : Int) : Int := (x + 2 ^ 31) % 2 ^ 32 - 2 ^ 31

/-- The function `u8fc32`: the octets written to `s`, or `none` when it returns
`(size_t)-1` with `errno = EILSEQ`.  The argument is a signed 32-bit value;
a negative one takes the first branch and is stored as one `char`. -/
def u8fc32 (c32 : Int) : Option (List Nat) :=
  if 0xD800 ≤ c32 ∧ c32 < 0xE000 then none
  else if 0x10FFFF < c32 then none
  else if c32 ≤ 0x007F then some [(c32 % 256).toNat]
  else
    let c := c32.toNat
    if c ≤ 0x07FF then
      some [((c >>> 6) &&& 0x1F) ||| 0xC0, ((c >>> 0) &&& 0x3F) ||| 0x80]
    else if c < 0xFFFF then
      some [((c >>> 12) &&& 0x0F) ||| 0xE0, ((c >>> 6) &&& 0x3F) ||| 0x80,
            ((c >>> 0) &&& 0x3F) ||| 0x80]
    else if c < 0x110000 then
      some [((c >>> 18) &&& 0x07) ||| 0xF0, ((c >>> 12) &&& 0x3F) ||| 0x80,
            ((c >>> 6) &&& 0x3F) ||| 0x80, ((c >>> 0) &&& 0x3F) ||| 0x80]
    else none

/-- The struct `u8_state`, the type of the static variable `st` of `u8tc32`. -/
structure u8_state where
  ucs : Nat
  acc : Nat
  req : Nat
deriving DecidableEq, Repr

/-- The initial value of the static `st` (static storage is zeroed). -/
def u8_state_zero : u8_state := ⟨0, 0, 0⟩

/-- The table `u8_tab`. -/
def u8_tab : List Nat :=
  [1, 1, 1, 1, 1, 1, 1, 1,   1, 1, 1, 1, 1, 1, 1, 1,
   0, 0, 0, 0, 0, 0, 0, 0,   2, 2, 2, 2, 3, 3, 4, 5]

/-- The macro `U8_TAIL(B)`. -/
def U8_TAIL (B : Nat) : Bool := (B &&& 0xC0) == 0x80

/-- The macro `U8_HEAD(B, L)`. -/
def U8_HEAD (B L : Nat) : Nat := B &&& (0xFF >>> L)

/-- The macro `U8_LEN(B)`. -/
def U8_LEN (B : Nat) : Nat := u8_tab.getD (((B &&& 0xFF) >>> 3) &&& 0x1F) 0

/-- The fall-through `switch (u8_use)` of `u8tc32`, entered where `k` tail
octets are still to be read from `p`: `none` is a read past the octets given,
`some none` is the jump to `ilseq`, `some (some c)` the accumulated value. -/
def u8_tails : Nat → Nat → List Nat → Option (Option Nat)
  | 0, c32, _ => some (some c32)
  | _ + 1, _, [] => none
  | k + 1, c32, b :: p =>
    if !U8_TAIL b then some none
    else u8_tails k ((c32 <<< 6) ||| (b &&& 0x3F)) p

/-- The function `u8tc32` for `s != NULL`.  `st` is the value of its static
state on entry, `s` the octets of the memory `s` points to.  The result is
the new static state, the returned `size_t` and the value stored to `*pc32`
if one is stored; `none` is a read outside `s`.  The number of tail octets the
`switch` reads is `u8_use - 1` for 1 to 5 and none above 5, where no case
matches; its case 0 is not reached, `u8_use == 0` having returned before.
Shifts are not reduced modulo the width of `int`: from a zero state at most
four octets are read, so the value stays below 2 ^ 21. -/
def u8tc32 (st : u8_state) (s : List Nat) (n : Nat) :
    Option (u8_state × Nat × Option Nat) :=
  match s with
  | [] => none
  | b :: p =>
    let u8_req0 := U8_LEN b
    if (u8_req0 == 0) != (decide (st.req > 0)) then some (st, SIZE_M1, none)
    else
      let u8_req := u8_req0 + st.req
      let u8_use := if u8_req > n then n else u8_req
      if u8_use == 0 then some (st, n, none)
      else
        let c0 :=
          if st.acc == 0 then U8_HEAD b (if u8_req > 1 then u8_req + 1 else u8_req)
          else (st.ucs <<< 6) ||| (if U8_TAIL b then 1 else 0)
        let ntail := if u8_use ≤ 5 then u8_use - 1 else 0
        match u8_tails ntail c0 p with
        | none => none
        | some none => some (st, SIZE_M1, none)
        | some (some c32) =>
          if u8_use < u8_req then
            some (⟨c32, st.acc + u8_use, u8_req - u8_use⟩, SIZE_M2, none)
          else if c32 == 0 then some (u8_state_zero, 0, some 0)
          else if (0xD800 ≤ c32 ∧ c32 < 0xE000) ∨ 0x10FFFF < c32 then
            some (u8_state_zero, SIZE_M1, none)
          else some (u8_state_zero, u8_use, some c32)

/-- The function `u8len`: `u8tc32(NULL, s, n)`, that is `pc32 == NULL`. -/
def u8len (st : u8_state) (s : List Nat) (n : Nat) : Option (u8_state × Nat) :=
  (u8tc32 st s n).map (fun r => (r.1, r.2.1))

/-! ## escape.c: character classes and the digraph table -/

/-- The macro `SEQMAX`, the size of the token buffer `seq`. -/
def SEQMAX : Nat := 64

/-- The octet of the default escape character, a backslash. -/
def ESCAPE : Nat := 92

/-- The octet of the default substitution character, a dollar sign. -/
def SUBST : Nat := 36

/-- The macro `ESC_BMP`, the letter u. -/
def ESC_BMP : Nat := 117

/-- The macro `ESC_UCS`, the letter U. -/
def ESC_UCS : Nat := 85

/-- The macro `ESC_DGR`, a circumflex. -/
def ESC_DGR : Nat := 94

/-- The macro `ESC_GRPO`, an opening brace. -/
def ESC_GRPO : Nat := 123

/-- The macro `ESC_GRPC`, a closing brace. -/
def ESC_GRPC : Nat := 125

/-- The macro `ESC_PARO`, an opening parenthesis. -/
def ESC_PARO : Nat := 40

/-- The macro `ESC_PARC`, a closing parenthesis. -/
def ESC_PARC : Nat := 41

/-- The macro `SP`. -/
def SP : Nat := 32

/-- The macro `NUL`. -/
def NUL : Nat := 0

/-- The string `INVC`: space ! " % & quote ( ) * + , - . / : ; < = > ? ^ _ -/
def INVC : List Nat :=
  [32, 33, 34, 37, 38, 39, 40, 41, 42, 43, 44, 45, 46, 47, 58, 59, 60, 61, 62, 63, 94, 95]

/-- The string `CMARKC`, which is empty. -/
def CMARKC : List Nat := []

/-- The string `NMSTRT`, colon and underscore. -/
def NMSTRT : List Nat := [58, 95]

/-- The string `NMCHAR`, colon and underscore. -/
def NMCHAR : List Nat := [58, 95]

/-- The C function `isalpha` in the C locale. -/
def isalpha (c : Nat) : Bool := (65 ≤ c && c ≤ 90) || (97 ≤ c && c ≤ 122)

/-- The C function `isdigit`. -/
def isdigit (c : Nat) : Bool := 48 ≤ c && c ≤ 57

/-- The C function `isxdigit`. -/
def isxdigit (c : Nat) : Bool :=
  isdigit c || (65 ≤ c && c ≤ 70) || (97 ≤ c && c ≤ 102)

/-- The test `strchr(s, c) != NULL`: `strchr` also finds the terminating NUL. -/
def strchr_found (s : List Nat) (c : Nat) : Bool := s.contains c || c == 0

/-- The macro `ISNMSTRT(ES, C)`, with `ES->nmstart` passed as `nmstart`. -/
def ISNMSTRT (nmstart : List Nat) (C : Nat) : Bool :=
  decide (32 < C) && decide (C < 128) && (isalpha C || isdigit C || strchr_found nmstart C)

/-- The macro `ISNMCHAR(ES, C)`, with `ES->nmchar` passed as `nmchar`. -/
def ISNMCHAR (nmchar : List Nat) (C : Nat) : Bool :=
  decide (32 < C) && decide (C < 128) && (isalpha C || isdigit C || strchr_found nmchar C)

/-- The macro `IS646INV(C)`. -/
def IS646INV (C : Nat) : Bool :=
  decide (32 < C) && decide (C < 128) && (isalpha C || isdigit C || strchr_found INVC C)

/-- The macro `ISCMARK(C)`. -/
def ISCMARK (C : Nat) : Bool := strchr_found CMARKC C

/-- The macro `IDXMAX`, thirteen one bits. -/
def IDXMAX : Nat := 2 ^ 13 - 1

/-- The macro `IDX(OI)`. -/
def IDX (OI : Nat) : Nat := OI &&& IDXMAX

/-- The macro `LEN(OI)`. -/
def LEN (OI : Nat) : Nat := OI >>> 13

/-- The macro `MKOI(I, L)`. -/
def MKOI (I L : Nat) : Nat := (L <<< 13) ||| (I &&& IDXMAX)

/-- The struct `dgr_`: the two key octets `ch[0]`, `ch[1]` and the packed
offset and count `oi`. -/
structure dgr_ where
  ch0 : Nat
  ch1 : Nat
  oi : Nat
deriving DecidableEq, Repr

/-- The value of an octet read through the signed type `char`. -/
def schar (b : Nat) : Int := if b % 256 < 128 then (b % 256 : Nat) else (b % 256 : Nat) - 256

/-- The function `cmpdgr`. -/
def cmpdgr (ldgr rdgr : dgr_) : Int :=
  let d := schar ldgr.ch0 - schar rdgr.ch0
  if d ≠ 0 then d else schar ldgr.ch1 - schar rdgr.ch1

/-- The struct `esc_state_`.  `ndgr` is `dgrs.length`.  The resolver `cb` gets
the C string it is called with and returns a C string or NULL; `dgrs_buf` is
kept as the list of the records pushed to it. -/
structure esc_state_ where
  dgrs : List dgr_
  defs : List Nat
  escape : Nat
  subst : Nat
  cb : Option (List Nat → Option (List Nat))
  nmstart : List Nat
  nmchar : List Nat
  dgrs_buf : List dgr_
  octs_buf : octetbuf

/-- The function `esc_define`, given the static state `g` of `u8tc32`.  `none`
is one of: the error path, which calls `xctomb(NULL, ...)` and so stores
through a null pointer; a failed assertion of the round trip through `mbtoxc`;
a failed assertion `IDX(dgr.oi) == oi`.  Otherwise the call returns 0. -/
def esc_define (g : u8_state) (esp : esc_state_) (ch0 ch1 : Nat) (ucsdef0 : Int) :
    Option (u8_state × esc_state_) :=
  match u8fc32 (toInt32 ucsdef0) with
  | none => none
  | some u8seq =>
    match u8tc32 g u8seq u8seq.length with
    | none => none
    | some (g1, s32, u32) =>
      if ¬ s32 < 5 then none
      else if u32.map (fun (v : Nat) => (v : Int)) ≠ some ucsdef0 then none
      else
        let r := octetbuf_push_back esp.octs_buf u8seq
        let oi := r.2
        let d : dgr_ := ⟨ch0, if ch1 = SP then NUL else ch1, MKOI oi 1 % 2 ^ 16⟩
        if LEN d.oi ≠ 1 then none
        else if IDX d.oi ≠ oi then none
        else some (g1, { esp with octs_buf := r.1, dgrs_buf := esp.dgrs_buf ++ [d] })

/-- The C library function `qsort` with `cmpdgr`, as a stable insertion sort. -/
def qsort (l : List dgr_) : List dgr_ :=
  l.insertionSort (fun a b => cmpdgr a b ≤ 0)

/-- The loop of the C library function `bsearch` with `cmpdgr` over the
elements `base[l .. u)`; `fuel` bounds the number of probes. -/
def bsearch_loop (key : dgr_) (base : List dgr_) : Nat → Nat → Nat → Option dgr_
  | 0, _, _ => none
  | fuel + 1, l, u =>
    if l < u then
      let idx := (l + u) / 2
      match base.get? idx with
      | none => none
      | some e =>
        let comparison := cmpdgr key e
        if comparison < 0 then bsearch_loop key base fuel l idx
        else if comparison > 0 then bsearch_loop key base fuel (idx + 1) u
        else some e
    else none

/-- The C library function `bsearch` with `cmpdgr`: a binary search that needs
at most `nmemb` probes. -/
def bsearch (key : dgr_) (base : List dgr_) : Option dgr_ :=
  bsearch_loop key base (base.length + 1) 0 base.length

/-- The state that `esc_create` starts from: all zero but for the defaults. -/
def esc_state_init : esc_state_ :=
  { dgrs := [], defs := [], escape := ESCAPE, subst := SUBST, cb := none,
    nmstart := NMSTRT, nmchar := NMCHAR, dgrs_buf := [], octs_buf := octetbuf_zero }

/-- The loop of `esc_create` over the lines that `readline` delivers, each a
key `ch[0]`, `ch[1]` and a scalar. -/
def esc_create_loop (g : u8_state) (es : esc_state_) :
    List (Nat × Nat × Int) → Option (u8_state × esc_state_)
  | [] => some (g, es)
  | (ch0, ch1, cp) :: rest =>
    match esc_define g es ch0 ch1 cp with
    | none => none
    | some (g1, es1) => esc_create_loop g1 es1 rest

/-- The function `esc_create` for a digraph file whose lines `readline` parses
to `lines` (reading the file is not modelled): define every digraph, release
the two buffers into `dgrs` and `defs`, sort `dgrs`. -/
def esc_create (g : u8_state) (lines : List (Nat × Nat × Int)) :
    Option (u8_state × esc_state_) :=
  match esc_create_loop g esc_state_init lines with
  | none => none
  | some (g1, es) =>
    let rd := es.dgrs_buf
    let ro := octetbuf_release es.octs_buf
    some (g1, { es with dgrs := qsort rd, defs := ro.1, dgrs_buf := [], octs_buf := ro.2 })

/-- The function `esc_expand`, given the static state `g` of `u8tc32` and the
previous content `buf` of the output array.  The result is the new static
state, the new content of `buf` and the returned `size_t`.  `none` is a
failed `assert(nuc == 1U)`, a read outside `defs`, or a `memcpy` of more
octets than `buf` holds (`u8len` returned `(size_t)-1` or `(size_t)-2`). -/
def esc_expand (g : u8_state) (esp : esc_state_) (buf : List Nat) (ch0 ch1 : Nat) :
    Option (u8_state × List Nat × Nat) :=
  match bsearch ⟨ch0, ch1, 0⟩ esp.dgrs with
  | none => some (g, buf, SIZE_M1)
  | some pdgr =>
    let u8seq := esp.defs.drop (IDX pdgr.oi)
    let nuc := LEN pdgr.oi
    if nuc ≠ 1 then none
    else
      match u8len g u8seq U8_LEN_MAX with
      | none => none
      | some (g1, u8nseq) =>
        if u8nseq > 0 then
          if u8nseq > U8_LEN_MAX ∨ u8seq.length < u8nseq then none
          else some (g1, u8seq.take u8nseq ++ buf.drop u8nseq, u8nseq)
        else some (g1, buf, u8nseq)

/-! ## escape.c: esc_bsubst -/

/-- The states of the scanner, the anonymous `enum` of `esc_bsubst`. -/
inductive st_t where
  | ST_OUTSIDE | ST_ESCAPE | ST_BMP | ST_UCS | ST_SUBST
  | ST_SUB_GRP | ST_SUB_PAR
  | ST_UNI | ST_DGR0 | ST_DGR | ST_CODE | ST_CALLBACK
  | ST_INVALID
deriving DecidableEq, Repr

open st_t

/-- The local variables of `esc_bsubst` that live across the loop, with the
destination buffer and the static state `g` of `u8tc32`.  `seq` holds the
octets `seq[0 .. nseq)`, so `nseq` is `seq.length`; `u8seq1` and `u8seq2`
hold the octets stored so far in the arrays of that name; `ch` is the octet
under the cursor, which the body may reset to NUL. -/
structure bsubst_vars where
  st : st_t
  seq : List Nat
  u8seq1 : List Nat
  u8seq2 : List Nat
  u8nseq1 : Nat
  u8nseq2 : Nat
  ch : Nat
  dst : octetbuf
  g : u8_state

/-- The value `-1` converted to `unsigned`. -/
def UINT_M1 : Nat := 2 ^ 32 - 1

/-- Comparison of the `unsigned char ch` with a `char` such as `esp->escape`. -/
def ch_eq (ch c : Nat) : Bool := (ch : Int) == schar c

/-- The statement `seq[nseq++] = ch`; `none` is a store past the array. -/
def seq_put (v : bsubst_vars) : Option bsubst_vars :=
  if v.seq.length < SEQMAX then some { v with seq := v.seq ++ [v.ch] } else none

/-- Value of a hexadecimal digit. -/
def hexdigit_val (c : Nat) : Nat :=
  if isdigit c then c - 48 else if 65 ≤ c ∧ c ≤ 70 then c - 55 else c - 87

/-- Value of a string of hexadecimal digits. -/
def hexval (ds : List Nat) : Nat := ds.foldl (fun acc d => acc * 16 + hexdigit_val d) 0

/-- The call `sscanf(s, "%lx", &ucs)` for a C string `s` that starts with a
hexadecimal digit and holds no letter x (all that `seq + 2` can hold): the
digits up to the first other octet are converted as by `strtoul`, which
yields `ULONG_MAX` on overflow, and the low 32 bits land in the `xchar_t`.
`none` stands for a return value other than 1. -/
def sscanf_lx (s : List Nat) : Option Int :=
  let ds := s.takeWhile isxdigit
  if ds.length = 0 then none
  else some (toInt32 (min (hexval ds) (2 ^ 64 - 1) : Nat))

/-- The `case ST_DGR` of the switch. -/
def esc_case_dgr (esp : esc_state_) (v : bsubst_vars) : Option bsubst_vars :=
  let nseq := v.seq.length
  let seq1 := v.seq.getD 1 0
  if ¬ ((nseq > 2 ∧ seq1 = ESC_DGR) ∨ (nseq > 1 ∧ seq1 ≠ ESC_DGR)) then none
  else if ¬ nseq < SEQMAX then none
  else
    let dgr0 := v.seq.getD (nseq - 1) 0
    if ¬ (IS646INV dgr0 || dgr0 == SP) then none
    else
      match esc_expand v.g esp v.u8seq1 dgr0 NUL with
      | none => none
      | some (g1, buf1, r1) =>
        let v1 := { v with g := g1, u8seq1 := buf1, u8nseq1 := r1 % 2 ^ 32 }
        let v2o : Option bsubst_vars :=
          if IS646INV v1.ch then
            match esc_expand v1.g esp v1.u8seq2 dgr0 v1.ch with
            | none => none
            | some (g2, buf2, r2) =>
              some { v1 with seq := v1.seq ++ [v1.ch], g := g2, u8seq2 := buf2,
                             u8nseq2 := r2 % 2 ^ 32,
                             ch := if v1.u8nseq1 = UINT_M1 then NUL else v1.ch }
          else some v1
        match v2o with
        | none => none
        | some v2 =>
          if v2.u8nseq2 ≠ UINT_M1 then
            if v2.u8seq2.length < v2.u8nseq2 then none
            else
              let bs := v2.u8seq2.take v2.u8nseq2
              some { v2 with st := ST_OUTSIDE, ch := NUL, dst := (octetbuf_push_back v2.dst bs).1 }
          else if v2.u8nseq1 ≠ UINT_M1 then
            if v2.u8seq1.length < v2.u8nseq1 then none
            else
              let bs := v2.u8seq1.take v2.u8nseq1
              some { v2 with st := ST_OUTSIDE, dst := (octetbuf_push_back v2.dst bs).1 }
          else some { v2 with st := ST_INVALID }

/-- The `switch (st)` at the top of the loop body. -/
def esc_switch (esp : esc_state_) (v : bsubst_vars) : Option bsubst_vars :=
  let ch := v.ch
  let nseq := v.seq.length
  match v.st with
  | ST_OUTSIDE =>
    if ch_eq ch esp.escape then seq_put { v with st := ST_ESCAPE }
    else if ch_eq ch esp.subst then seq_put { v with st := ST_SUBST }
    else some v
  | ST_ESCAPE =>
    let st1 :=
      if ch = ESC_BMP then ST_BMP
      else if ch = ESC_UCS then ST_UCS
      else if ch = ESC_GRPO then ST_UNI
      else if ch = ESC_DGR then ST_DGR0
      else if ch_eq ch esp.escape then ST_OUTSIDE
      else if (IS646INV ch || ch == SP) && !ISCMARK ch then ST_DGR
      else ST_ESCAPE
    if st1 = ST_ESCAPE then some { v with st := ST_INVALID }
    else seq_put { v with st := st1 }
  | ST_BMP =>
    match (if isxdigit ch then seq_put v else some { v with st := ST_INVALID }) with
    | none => none
    | some v1 => if v1.seq.length = 6 then some { v1 with st := ST_CODE } else some v1
  | ST_UCS =>
    match (if isxdigit ch then seq_put v else some { v with st := ST_INVALID }) with
    | none => none
    | some v1 => if v1.seq.length = 8 then some { v1 with st := ST_CODE } else some v1
  | ST_UNI =>
    if isxdigit ch then seq_put v
    else if ch = ESC_GRPC then some { v with st := ST_CODE }
    else if nseq = 10 then some { v with st := ST_INVALID }
    else some v
  | ST_SUBST =>
    if (nseq = 1 ∧ ISNMSTRT esp.nmstart ch) ∨ (nseq > 1 ∧ ISNMCHAR esp.nmchar ch) then seq_put v
    else if nseq = 1 ∧ ch_eq ch esp.subst then some { v with st := ST_OUTSIDE }
    else if nseq = 2 ∧ ch = ESC_GRPO then some { v with st := ST_SUB_GRP }
    else if nseq > 2 ∧ ch = ESC_PARO then seq_put { v with st := ST_SUB_PAR }
    else if nseq > 2 ∧ esp.cb.isSome then some { v with st := ST_CALLBACK }
    else some { v with st := ST_INVALID }
  | ST_SUB_GRP =>
    if ch = ESC_GRPC then some { v with st := ST_CALLBACK }
    else if nseq + 1 ≥ SEQMAX then some { v with st := ST_INVALID }
    else seq_put v
  | ST_SUB_PAR =>
    if ch = ESC_PARC ∧ nseq < SEQMAX then seq_put { v with st := ST_CALLBACK }
    else if nseq + 1 ≥ SEQMAX then some { v with st := ST_INVALID }
    else seq_put v
  | ST_DGR0 =>
    if IS646INV ch || ch == SP then seq_put { v with st := ST_DGR }
    else some { v with st := ST_INVALID }
  | ST_DGR => esc_case_dgr esp v
  | _ => none

/-- The block `if (st == ST_CODE) ...`: decode the digits in `seq + 2`, encode
the value into four octets added to `dst`, give back the unused ones. -/
def esc_code (v : bsubst_vars) : Option bsubst_vars :=
  if ¬ v.seq.length < SEQMAX then none
  else if ¬ isxdigit (v.seq.getD 2 0) then none
  else
    match sscanf_lx (cstr (v.seq.drop 2)) with
    | none => none
    | some ucs =>
      let r := octetbuf_extend v.dst (U8_LEN_MAX : Nat)
      match u8fc32 ucs with
      | some bs =>
        let dst1 := octetbuf_store r.1 r.2 bs
        let d : Int := (U8_LEN_MAX : Nat) - (bs.length : Nat)
        some { v with ch := NUL, dst := (octetbuf_extend dst1 (-d)).1 }
      | none =>
        let d : Int := (U8_LEN_MAX : Nat)
        some { v with st := ST_INVALID, dst := (octetbuf_extend r.1 (-d)).1 }

/-- The block `else if (st == ST_CALLBACK) ...`: ask the resolver about the C
string at `seq + 1`. -/
def esc_callback_block (esp : esc_state_) (v : bsubst_vars) : Option bsubst_vars :=
  if ¬ v.seq.length < SEQMAX then none
  else if ¬ v.seq.length ≥ 2 then none
  else
    let sub : Option (List Nat) :=
      match esp.cb with
      | some cb => if v.seq.getD 1 0 ≠ NUL then cb (cstr (v.seq.drop 1)) else none
      | none => none
    let v1 :=
      match sub with
      | some s => { v with dst := (octetbuf_push_s v.dst s).1 }
      | none => { v with st := ST_INVALID }
    some (if v1.ch = ESC_GRPC ∨ v1.ch = ESC_PARC then { v1 with ch := NUL } else v1)

/-- The end of the loop body: an invalid token is copied to `dst`; in the
states INVALID, CODE, CALLBACK and OUTSIDE the token buffer is emptied, the
state becomes OUTSIDE and `ch` is copied to `dst` unless it is NUL. -/
def esc_flush (v : bsubst_vars) : bsubst_vars :=
  let v1 := if v.st = ST_INVALID then { v with dst := (octetbuf_push_back v.dst v.seq).1 } else v
  if v1.st = ST_INVALID ∨ v1.st = ST_CODE ∨ v1.st = ST_CALLBACK ∨ v1.st = ST_OUTSIDE then
    { v1 with seq := [], st := ST_OUTSIDE,
              dst := if v1.ch ≠ NUL then (octetbuf_push_c v1.dst v1.ch).1 else v1.dst }
  else v1

/-- One pass through the body of the `for` loop, `ch` already set. -/
def esc_body (esp : esc_state_) (v : bsubst_vars) : Option bsubst_vars :=
  match esc_switch esp v with
  | none => none
  | some v1 =>
    let v2o :=
      if v1.st = ST_CODE then esc_code v1
      else if v1.st = ST_CALLBACK then esc_callback_block esp v1
      else some v1
    v2o.map esc_flush

/-- The `for` loop of `esc_bsubst` over the octets from `p` to `end`; the
second component counts the octets passed, so it ends as `p - begin`. -/
def esc_loop (esp : esc_state_) : List Nat → bsubst_vars → Nat → Option (bsubst_vars × Nat)
  | [], v, k => some (v, k)
  | ch :: rest, v, k =>
    match esc_body esp { v with ch := ch } with
    | none => none
    | some v1 => esc_loop esp rest v1 (k + 1)

/-- The values of the locals of `esc_bsubst` before the loop. -/
def bsubst_vars_init (g : u8_state) (dst : octetbuf) : bsubst_vars :=
  { st := ST_OUTSIDE, seq := [], u8seq1 := [], u8seq2 := [], u8nseq1 := 0, u8nseq2 := 0,
    ch := 0, dst := dst, g := g }

/-- What a call of `esc_bsubst` leaves behind: the static state of `u8tc32`,
the two buffers and the returned value. -/
structure bsubst_result where
  g : u8_state
  dst : octetbuf
  src : octetbuf
  ret : Nat
deriving DecidableEq, Repr

/-- The function `esc_bsubst`. -/
def esc_bsubst (g : u8_state) (esp : esc_state_) (dst src : octetbuf) : Option bsubst_result :=
  match esc_loop esp src.p (bsubst_vars_init g dst) 0 with
  | none => none
  | some (v, k) =>
    let r := octetbuf_shift src k
    some { g := v.g, dst := v.dst, src := r.1, ret := r.2 }

/-- One round of the loop of `esc_fsubst` after `fread` has stored the octets
`chunk` behind what `src` still holds: the call `esc_bsubst(esp, &dst, &src)`
on the lengthened `src`. -/
def esc_feed (g : u8_state) (esp : esc_state_) (dst src : octetbuf) (chunk : List Nat) :
    Option bsubst_result :=
  esc_bsubst g esp dst (octetbuf_push_back src chunk).1

/-! ## md2doc.c: the attribute stack -/

/-- The function `octetbuf_init` of octetbuf.c: a buffer of capacity `c`
(rounded) without octets. -/
def octetbuf_init (c : Nat) : octetbuf := grow octetbuf_zero c

/-- The function `octetbuf_clear` of octetbuf.c. -/
def octetbuf_clear (o : octetbuf) : octetbuf := ⟨[], o.c⟩

/-- The C string at offset `i` of the octets `p` of a buffer, as `strcmp` or
`strlen` reads it through `octetbuf_at`: the octets from `i` up to the next
NUL; `none` when no NUL follows among the octets in use. -/
def cstr_at (p : List Nat) (i : Nat) : Option (List Nat) :=
  if (p.drop i).contains 0 then some (cstr (p.drop i)) else none

/-- The constant `NULLIDX`. -/
def NULLIDX : Nat := 0

/-- The macro `ATTCNT`. -/
def ATTCNT : Nat := 40

/-- The macro `ATTSPLEN`. -/
def ATTSPLEN : Nat := 960

/-- The three static buffers of the element stack: the attribute text
`attr_buf` and the arrays of name and value offsets.  The two arrays are kept
as lists of their `size_t` elements, so `NATTR` is the length of the first.
The value slot of a sentinel holds the `size_t` that `close_atts` stored
there, which `current_nt` reads as the node type. -/
structure att_stack where
  attr_buf : octetbuf
  nameidx_buf : List Nat
  validx_buf : List Nat
deriving DecidableEq, Repr

/-- The macro `NATTR`. -/
def NATTR (s : att_stack) : Nat := s.nameidx_buf.length

/-- The element stack as `load_repl_defs` sets it up: offset 0 of the text is
taken by a NUL, the arrays are empty. -/
def att_stack_init : att_stack :=
  { attr_buf := (octetbuf_push_c (octetbuf_init ATTSPLEN) NUL).1, nameidx_buf := [],
    validx_buf := [] }

/-- The function `discard_atts`. -/
def discard_atts (s : att_stack) : att_stack :=
  { attr_buf := (octetbuf_push_c (octetbuf_clear s.attr_buf) NUL).1, nameidx_buf := [],
    validx_buf := [] }

/-- The function `push_att`; `val` stands for the `len` octets at `val`
(those before the NUL when `len == NTS`). -/
def push_att (s : att_stack) (name val : List Nat) : att_stack :=
  let nameidx := s.attr_buf.p.length
  let b1 := (octetbuf_push_s s.attr_buf name).1
  let b2 := (octetbuf_push_c b1 NUL).1
  let validx := b2.p.length
  let b3 := (octetbuf_push_back b2 val).1
  let b4 := (octetbuf_push_c b3 NUL).1
  { attr_buf := b4, nameidx_buf := s.nameidx_buf ++ [nameidx],
    validx_buf := s.validx_buf ++ [validx] }

/-- The macro `close_atts(NT)`; `NT` is the value that the macro stores in the
value slot of the sentinel: that of the `sizeof(validx_t)` = 8 octets at the
address of its argument.  Its one caller `repl_Start` passes its parameter
`nt`, an enum of 4 octets, so there the value is the node type plus 2 ^ 32
times the number in the 4 octets that follow the parameter in memory. -/
def close_atts (s : att_stack) (NT : Nat) : att_stack :=
  { s with nameidx_buf := s.nameidx_buf ++ [NULLIDX], validx_buf := s.validx_buf ++ [NT] }

/-- The macro `current_nt()`; `none` is a read in front of the array. -/
def current_nt (s : att_stack) : Option Nat :=
  if NATTR s = 0 then none else s.validx_buf.get? (NATTR s - 1)

/-- The `do ... while` loop of `pop_atts`, entered with `top` decremented and
`nameidx` read: one element is taken from both arrays, the text is cut at
`nameidx` unless that is the sentinel, and the loop goes on while the next
element down is no sentinel.  `fuel` bounds the number of rounds by the
number of elements.  `none` is a failed assertion or a size set beyond the
octets in use. -/
def pop_atts_loop : Nat → att_stack → Nat → Nat → Option att_stack
  | 0, _, _, _ => none
  | fuel + 1, s, top, nameidx =>
    if s.nameidx_buf.length = 0 ∨ s.validx_buf.length = 0 then none
    else
      let s1 : att_stack :=
        { s with nameidx_buf := s.nameidx_buf.dropLast, validx_buf := s.validx_buf.dropLast }
      if top ≠ NATTR s1 then none
      else if nameidx ≠ NULLIDX ∧ s1.attr_buf.p.length < nameidx then none
      else
        let s2 : att_stack :=
          if nameidx ≠ NULLIDX then
            { s1 with attr_buf := ⟨s1.attr_buf.p.take nameidx, s1.attr_buf.c⟩ }
          else s1
        if top > 0 then
          match s2.nameidx_buf.get? (top - 1) with
          | none => none
          | some nameidx1 =>
            if nameidx1 ≠ NULLIDX then pop_atts_loop fuel s2 (top - 1) nameidx1
            else some s2
        else some s2

/-- The function `pop_atts`. -/
def pop_atts (s : att_stack) : Option att_stack :=
  let top := NATTR s
  if top > 0 then
    match s.nameidx_buf.get? (top - 1) with
    | none => none
    | some nameidx =>
      if nameidx ≠ NULLIDX then none
      else pop_atts_loop (NATTR s) s (top - 1) nameidx
  else some s

/-- The `for` loop of `att_val`, entered with `k` elements still to visit and
the current value of `depth`.  The outer `none` is a failed assertion or a
string without its NUL; `some none` is the return of NULL. -/
def att_val_loop (s : att_stack) (name : List Nat) : Nat → Nat → Option (Option (List Nat))
  | 0, _ => some none
  | idx + 1, depth =>
    match s.nameidx_buf.get? idx with
    | none => none
    | some nameidx =>
      if ¬ nameidx < s.attr_buf.p.length then none
      else if nameidx = NULLIDX ∧ depth = 0 then some none
      else
        let depth1 := if nameidx = NULLIDX then depth - 1 else depth
        match s.validx_buf.get? idx with
        | none => none
        | some validx =>
          if ¬ validx < s.attr_buf.p.length then none
          else
            match cstr_at s.attr_buf.p nameidx with
            | none => none
            | some nm =>
              if nm = cstr name then (cstr_at s.attr_buf.p validx).map some
              else att_val_loop s name idx depth1

/-- The function `att_val`; `name` is the C string `name` points to. -/
def att_val (s : att_stack) (name : List Nat) (depth : Nat) : Option (Option (List Nat)) :=
  if ¬ NATTR s > 0 then none
  else if s.nameidx_buf.get? (NATTR s - 1) ≠ some NULLIDX then none
  else if ¬ depth > 0 then none
  else att_val_loop s name (NATTR s) depth

/-! ## md2doc.c: replacement definitions -/

/-- The constant `CMARK_NODE_LAST_INLINE` of cmark.h.  The header is not among
the sources; the value is the one that the table `nodename` of md2doc.c
fixes, which has the names of the node types 1 to 20 and then MARKUP, the
name of node type `CMARK_NODE_LAST_INLINE + 1`, at index 21. -/
def CMARK_NODE_LAST_INLINE : Nat := 20

/-- The macro `NODE_NUM`. -/
def NODE_NUM : Nat := CMARK_NODE_LAST_INLINE + 2

/-- The macro `NODE_MARKUP`. -/
def NODE_MARKUP : Nat := CMARK_NODE_LAST_INLINE + 1

/-- The macro `ISDIGIT(C)` of md2doc.c. -/
def ISDIGIT (C : Nat) : Bool := decide (48 ≤ C) && decide (C ≤ 57)

/-- The macro `ISUCNMSTRT(C)`. -/
def ISUCNMSTRT (C : Nat) : Bool := decide (65 ≤ C) && decide (C ≤ 90)

/-- The macro `ISLCNMSTRT(C)`. -/
def ISLCNMSTRT (C : Nat) : Bool := decide (97 ≤ C) && decide (C ≤ 122)

/-- The macro `ISNMSTART(C)`. -/
def ISNMSTART (C : Nat) : Bool := ISDIGIT C || ISUCNMSTRT C || ISLCNMSTRT C

/-- The macro `ISNMCHAR(C)` of md2doc.c (escape.c has a macro of the same name
with two arguments). -/
def md2doc_ISNMCHAR (C : Nat) : Bool := ISNMSTART C || C == 45 || C == 46

/-- The struct `taginfo_`: the node type and the array `atts` of offsets into
`text_buf`, name and value in turn, ended by `NULLIDX` in a name place. -/
structure taginfo_ where
  nt : Nat
  atts : List Nat
deriving DecidableEq, Repr

/-- The struct `repl_` without `next`: the records of one node type are kept
as a list, the head first.  `repl0` and `repl1` are `repl[0]` and `repl[1]`,
each NULL or the octets of the replacement text in front of its final NUL
(an encoded attribute substitution has a NUL of its own inside). -/
structure repl_ where
  taginfo : taginfo_
  repl0 : Option (List Nat)
  repl1 : Option (List Nat)
  is_cdata : Bool
deriving DecidableEq, Repr

/-- The statics of the replacement definitions: `repl_tab`, given for every
node type as the list of its records from the head along `next`; `text_buf`;
and the list `notations` of the registered names, the head first. -/
structure repl_state where
  repl_tab : Nat → List repl_
  text_buf : octetbuf
  notations : List (List Nat)

/-- The test `strncmp(a, b, n) == 0` for the octets `a`, `b` at the two
pointers: the first `n` characters agree, a NUL ending the comparison. -/
def strncmp_eq (a b : List Nat) (n : Nat) : Bool := (cstr a).take n == (cstr b).take n

/-- The function `is_notation` for `nmtoken != NULL`; `len` is `none` for NTS.
The outer `none` is the failed `assert(len > 0U)`. -/
def is_notation (notations : List (List Nat)) (nmtoken : List Nat) (len : Option Nat) :
    Option Bool :=
  if len = some 0 then some false
  else
    let len1 := match len with
      | none => (cstr nmtoken).length
      | some n => n
    if ¬ len1 > 0 then none
    else some (notations.any (fun name => strncmp_eq name nmtoken len1))

/-- The function `register_notation`; `nmtoken` stands for the octets at the
pointer, `len` is `none` for NTS.  `none` is a failed assertion, a read behind
the octets given, the call of `error`, which ends the process, or the copy of
the name into a block that is too small: `malloc(len + 1)` is called before
NTS is replaced by the length, so for NTS the block has `SIZE_MAX + 1`, that
is 0, octets. -/
def register_notation (notations : List (List Nat)) (nmtoken : List Nat) (len : Option Nat) :
    Option (List (List Nat)) :=
  let size := match len with
    | none => 0
    | some n => (n + 1) % 2 ^ 64
  let len1 := match len with
    | none => (cstr nmtoken).length
    | some n => n
  if ¬ len1 > 0 then none
  else
    match is_notation notations nmtoken (some len1) with
    | none => none
    | some true => some notations
    | some false =>
      if ¬ len1 ≤ nmtoken.length then none
      else if ¬ (nmtoken.take len1).all md2doc_ISNMCHAR then none
      else if ¬ len1 + 1 ≤ size then none
      else some (nmtoken.take len1 :: notations)

/-- The octets of the C string "notation". -/
def s_notation : List Nat := [110, 111, 116, 97, 116, 105, 111, 110]

/-- The loop of `set_repl` for the node type MARKUP over `atts[i]`,
`atts[i+1]` from the list given; `none` is a read behind the array or text,
or a `register_notation` that does not return. -/
def set_repl_loop (text : List Nat) (notations : List (List Nat)) :
    List Nat → Option (List (List Nat))
  | [] => none
  | [ai] => if ai = 0 then some notations else none
  | ai :: vi :: rest =>
    if ai = 0 then some notations
    else
      match cstr_at text ai with
      | none => none
      | some nm =>
        if nm = s_notation ∧ vi ≠ 0 then
          match cstr_at text vi with
          | none => none
          | some s =>
            match register_notation notations s none with
            | none => none
            | some ns1 => set_repl_loop text ns1 rest
        else set_repl_loop text notations rest

/-- The function `set_repl`; `none` is a failed assertion or a call that does
not return. -/
def set_repl (rs : repl_state) (pti : taginfo_) (repl_text0 repl_text1 : Option (List Nat))
    (is_cdata : Bool) : Option repl_state :=
  let nt := pti.nt
  if ¬ nt < NODE_NUM then none
  else
    let rp : repl_ := ⟨pti, repl_text0, repl_text1, is_cdata⟩
    let tab := fun n => if n = nt then rp :: rs.repl_tab nt else rs.repl_tab n
    if nt = NODE_MARKUP then
      match set_repl_loop rs.text_buf.p rs.notations pti.atts with
      | none => none
      | some ns1 => some { rs with repl_tab := tab, notations := ns1 }
    else some { rs with repl_tab := tab }

/-- The inner loop of `select_rule` over the selectors `atts[2*i]`,
`atts[2*i+1]` from the list given: `some true` when the loop ends at
`NULLIDX`, so that the rule is returned, `some false` when it ends by a
`break`.  `none` is a read behind the array or text, or an `att_val` that
does not return. -/
def select_rule_atts (text : List Nat) (s : att_stack) : List Nat → Option Bool
  | [] => none
  | [ai] => if ai = NULLIDX then some true else none
  | ai :: vi :: rest =>
    if ai = NULLIDX then some true
    else
      match cstr_at text ai with
      | none => none
      | some name =>
        match att_val s name 1 with
        | none => none
        | some cur_val =>
          let sel_val : Option (Option (List Nat)) :=
            if vi ≠ NULLIDX then (cstr_at text vi).map some else some none
          match sel_val with
          | none => none
          | some none => if cur_val = none then some false else select_rule_atts text s rest
          | some (some sv) =>
            if cur_val = none ∨ cur_val ≠ some sv then some false
            else select_rule_atts text s rest

/-- The outer loop of `select_rule` along `next`. -/
def select_rule_loop (text : List Nat) (s : att_stack) : List repl_ → Option (Option repl_)
  | [] => some none
  | rp :: next =>
    match select_rule_atts text s rp.taginfo.atts with
    | none => none
    | some true => some (some rp)
    | some false => select_rule_loop text s next

/-- The function `select_rule`: the record returned, or NULL. -/
def select_rule (rs : repl_state) (s : att_stack) (nt : Nat) : Option (Option repl_) :=
  select_rule_loop rs.text_buf.p s (rs.repl_tab nt)

/-- The state of the replacement definitions as `load_repl_defs` sets it up
before it parses: no rule, offset 0 of `text_buf` taken by a NUL. -/
def repl_state_init : repl_state :=
  { repl_tab := fun _ => [], text_buf := (octetbuf_push_c (octetbuf_init 2048) NUL).1,
    notations := [] }

/-! ## md2doc.c: output of the replacement backend -/

/-- The macro `VT`, which encodes the begin-of-line mark of a replacement
text. -/
def VT : Nat := 11

/-- The macro `SO`, which opens an encoded attribute substitution. -/
def SO : Nat := 14

/-- The macro `SI`, which closes an encoded attribute substitution. -/
def SI : Nat := 15

/-- The macro `EOL`, that is `LF`. -/
def EOL : Nat := 10

/-- The constant `CMARK_NODE_NONE` of cmark.h (the header is not among the
sources): the table `nodename` calls the enum constant 0 the "none" type. -/
def CMARK_NODE_NONE : Nat := 0

/-- The constant `CMARK_NODE_HTML_BLOCK` of cmark.h (the header is not among
the sources): the index of CM.HTM-B in the table `nodename`. -/
def CMARK_NODE_HTML_BLOCK : Nat := 6

/-- The constant `CMARK_NODE_HTML_INLINE` of cmark.h (the header is not among
the sources): the index of CM.HTM in the table `nodename`. -/
def CMARK_NODE_HTML_INLINE : Nat := 15

/-- The output stream `outfp`, as the octets written to it so far, and the
flag `outbol`. -/
structure out_state where
  out : List Nat
  outbol : Bool
deriving DecidableEq, Repr

/-- The state of the output when `repl_CB` is set up: nothing written,
`outbol` true. -/
def out_state_init : out_state := ⟨[], true⟩

/-- The macro `PUTC(ch)`. -/
def PUTC (o : out_state) (ch : Nat) : out_state := ⟨o.out ++ [ch], ch == EOL⟩

/-- The function `put_subst`; `p` stands for the octets at the pointer `p`,
which the caller has set behind the `SO`.  The outer `none` is a failed
assertion or a read behind the octets given, `some none` is the call of
`error`, which ends the process; otherwise the result is the output and the
octets at the pointer returned. -/
def put_subst (s : att_stack) (o : out_state) (p : List Nat) :
    Option (Option (out_state × List Nat)) :=
  match p with
  | [] => none
  | d :: name =>
    let depth := d &&& 0xFF
    if ¬ name.contains 0 then none
    else
      match name.drop ((cstr name).length + 1) with
      | [] => none
      | si :: p1 =>
        if si ≠ SI then none
        else
          match att_val s name depth with
          | none => none
          | some none => some none
          | some (some val) => some (some (val.foldl PUTC o, p1))

/-- The loop of `put_repl` with the octets at `p`.  Every round takes at least
one octet, so `fuel` above their number is never used up; `none` then is a
failed assertion or a read behind the octets given, `some none` the call of
`error` in `put_subst`. -/
def put_repl_loop (s : att_stack) : Nat → out_state → List Nat → Option (Option out_state)
  | 0, _, _ => none
  | fuel + 1, o, p =>
    match p with
    | [] => none
    | ch :: p1 =>
      if ch = NUL then some (some o)
      else if ch = VT then put_repl_loop s fuel (if !o.outbol then PUTC o EOL else o) p1
      else if ch = SO then
        match put_subst s o p1 with
        | none => none
        | some none => some none
        | some (some r) => put_repl_loop s fuel r.1 r.2
      else put_repl_loop s fuel (PUTC o ch) p1

/-- The function `put_repl`; `repl` stands for the octets at the pointer. -/
def put_repl (s : att_stack) (o : out_state) (repl : List Nat) : Option (Option out_state) :=
  put_repl_loop s (repl.length + 1) o repl

/-- The statics that the callbacks of `repl_CB` work on: the element stack, the
output and the flag `is_cdata`. -/
structure repl_run where
  atts : att_stack
  o : out_state
  is_cdata : Bool
deriving DecidableEq, Repr

/-- The callbacks' statics at the start of a run. -/
def repl_run_init : repl_run := ⟨att_stack_init, out_state_init, false⟩

/-- The function `repl_Attr`. -/
def repl_Attr (st : repl_run) (name val : List Nat) : repl_run :=
  { st with atts := push_att st.atts name val }

/-- The function `repl_Start`.  `none` means that the call does not return: a
failed assertion, a read outside an array, or the call of `error`.  The value
stored in the slot of the sentinel is taken to be `nt`, as it is when the 4
octets that follow the parameter in memory are zero (see `close_atts`); the
slot is read by `current_nt`, whose value `repl_Cdata` does not use, and by
the assertion of `att_val`. -/
def repl_Start (rs : repl_state) (st : repl_run) (nt : Nat) : Option repl_run :=
  let s1 := close_atts st.atts nt
  if nt ≠ CMARK_NODE_NONE then
    if ¬ nt < NODE_NUM then none
    else
      match select_rule rs s1 nt with
      | none => none
      | some none =>
        some ⟨s1, st.o, decide (nt = CMARK_NODE_HTML_BLOCK) || decide (nt = CMARK_NODE_HTML_INLINE)⟩
      | some (some rp) =>
        let cd := rp.is_cdata || decide (nt = CMARK_NODE_HTML_BLOCK)
          || decide (nt = CMARK_NODE_HTML_INLINE)
        match rp.repl0 with
        | none => some ⟨s1, st.o, cd⟩
        | some repl =>
          match put_repl s1 st.o (repl ++ [NUL]) with
          | some (some o1) => some ⟨s1, o1, cd⟩
          | _ => none
  else
    some ⟨s1, st.o, decide (nt = CMARK_NODE_HTML_BLOCK) || decide (nt = CMARK_NODE_HTML_INLINE)⟩

/-- The function `repl_Cdata`; `cdata` stands for the `len` octets of the text
and `esc` for the function `houdini_escape_html0` of the cmark library, which
is not among the sources.  `none` is the read of `current_nt()` in front of
the array when no element is open. -/
def repl_Cdata (esc : List Nat → List Nat) (st : repl_run) (cdata : List Nat) :
    Option repl_run :=
  match current_nt st.atts with
  | none => none
  | some _ =>
    let p := if !st.is_cdata then esc cdata else cdata
    some { st with o := p.foldl PUTC st.o }

/-- The function `repl_End`.  `none` means that the call does not return. -/
def repl_End (rs : repl_state) (st : repl_run) (nt : Nat) : Option repl_run :=
  if ¬ nt < NODE_NUM then none
  else
    let o1 : Option out_state :=
      if nt ≠ CMARK_NODE_NONE then
        match select_rule rs st.atts nt with
        | none => none
        | some none => some st.o
        | some (some rp) =>
          match rp.repl1 with
          | none => some st.o
          | some repl =>
            match put_repl st.atts st.o (repl ++ [NUL]) with
            | some (some o2) => some o2
            | _ => none
      else some st.o
    match o1 with
    | none => none
    | some o2 =>
      match pop_atts st.atts with
      | none => none
      | some s2 => some ⟨s2, o2, false⟩

/-- One event of the stream that the tree walk sends through `repl_CB`. -/
inductive esis_event where
  | attr (name val : List Nat)
  | start (nt : Nat)
  | cdata (text : List Nat)
  | end_ (nt : Nat)

/-- The callback of `repl_CB` for one event. -/
def repl_event (rs : repl_state) (esc : List Nat → List Nat) (st : repl_run) :
    esis_event → Option repl_run
  | esis_event.attr name val => some (repl_Attr st name val)
  | esis_event.start nt => repl_Start rs st nt
  | esis_event.cdata text => repl_Cdata esc st text
  | esis_event.end_ nt => repl_End rs st nt

/-- The callbacks for a sequence of events, in order. -/
def repl_events (rs : repl_state) (esc : List Nat → List Nat) :
    repl_run → List esis_event → Option repl_run
  | st, [] => some st
  | st, e :: es =>
    match repl_event rs esc st e with
    | none => none
    | some st1 => repl_events rs esc st1 es

/-! ## md2doc.c: the parser of the replacement definitions -/

/-- The value `EOF`. -/
def EOF : Int := -1

/-- The macro `MSSCHAR`, the backslash. -/
def MSSCHAR : Int := 92

/-- The macro `LIT`, the double quote. -/
def LIT : Int := 34

/-- The macro `LITA`, the apostrophe. -/
def LITA : Int := 39

/-- The macro `ISSPACE(C)`: RS, RE, SPACE or the SEPCHAR HT. -/
def ISSPACE (C : Nat) : Bool := C == 13 || C == 10 || C == 32 || C == 9

/-- The input of the parser: the octets of the file `replfp` not yet read, and
the characters in `la_buf`, the one to be taken next in front.  The counters
`lineno` and `colno`, which only the diagnostics read, are left out. -/
structure p_input where
  rest : List Nat
  la_buf : List Int
deriving DecidableEq, Repr

/-- The macro `GETC(CH)`: the value assigned to `CH` and the input left.  At
the end of the file `getc` returns `EOF` again and again. -/
def GETC (inp : p_input) : Int × p_input :=
  match inp.la_buf with
  | c :: la => (c, { inp with la_buf := la })
  | [] =>
    match inp.rest with
    | [] => (EOF, inp)
    | b :: r => ((b : Int), { inp with rest := r })

/-- How a call of a parser function with a loop ends: it returns, it does not
return because an assertion fails, or its loop is still running when `fuel`
rounds are done. -/
inductive outcome (α : Type) where
  | ret (a : α)
  | abort
  | more
deriving DecidableEq, Repr

/-- The call `octetbuf_push_c(pbuf, c)` for an `int` argument: the octet
stored is `c` converted to `unsigned char`. -/
def push_ch (o : octetbuf) (c : Int) : octetbuf := (octetbuf_push_c o (c % 256).toNat).1

/-- The array `in_` of `P_attr_subst`: the characters of ":0123456789". -/
def in_ : List Int := [58, 48, 49, 50, 51, 52, 53, 54, 55, 56, 57]

/-- The array `out_` of `P_attr_subst` as the compiler reads its literal: the
escape `\xFF` gives the `char` -1; each `\0` is the octal escape for NUL,
and the `x`, the `0` and the digit after it are three characters of their
own. -/
def out_ : List Int :=
  [-1, 0, 120, 48, 49, 0, 120, 48, 50, 0, 120, 48, 51, 0, 120, 48, 52, 0, 120, 48, 53,
   0, 120, 48, 54, 0, 120, 48, 55, 0, 120, 48, 56, 0, 120, 48, 57, 0, 120, 48, 65, 0]

/-- The `while` loop of `P_attr_subst`; the result is `ch`, the buffer and the
input when the loop is left. -/
def P_attr_subst_loop (lit : Int) (brace : Bool) :
    Nat → Int → octetbuf → p_input → outcome (Int × octetbuf × p_input)
  | 0, _, _, _ => outcome.more
  | fuel + 1, ch, buf, inp =>
    if ch = EOF then outcome.ret (ch, buf, inp)
    else if md2doc_ISNMCHAR ch.toNat then
      P_attr_subst_loop lit brace fuel (GETC inp).1 (push_ch buf ch) (GETC inp).2
    else if ch = lit then outcome.ret (ch, buf, inp)
    else if ISSPACE ch.toNat then
      if brace then P_attr_subst_loop lit brace fuel (GETC inp).1 buf (GETC inp).2
      else outcome.ret (ch, buf, inp)
    else if ch = MSSCHAR then
      if brace then P_attr_subst_loop lit brace fuel (GETC inp).1 buf (GETC inp).2
      else outcome.ret (ch, buf, inp)
    else outcome.ret (ch, buf, inp)

/-- The end of `P_attr_subst` behind its loop. -/
def P_attr_subst_end (brace : Bool) (r : Int × octetbuf × p_input) :
    Int × octetbuf × p_input :=
  let r1 := if brace ∧ r.1 = 125 then GETC r.2.2 else (r.1, r.2.2)
  (r1.1, push_ch (push_ch r.2.1 NUL) SI, r1.2)

/-- The function `P_attr_subst`; the result is the value returned, the buffer
`pbuf` and the input. -/
def P_attr_subst (fuel : Nat) (ch : Int) (pbuf : octetbuf) (lit : Int) (inp : p_input) :
    outcome (Int × octetbuf × p_input) :=
  if ch ≠ 36 then outcome.abort
  else
    let r1 := GETC inp
    let brace := decide (r1.1 = 123)
    let r2 := if brace then GETC r1.2 else r1
    if ISNMSTART r2.1.toNat then
      let buf := push_ch (push_ch (push_ch pbuf SO) SP) r2.1
      match P_attr_subst_loop lit brace fuel (GETC r2.2).1 buf (GETC r2.2).2 with
      | outcome.ret r => outcome.ret (P_attr_subst_end brace r)
      | outcome.abort => outcome.abort
      | outcome.more => outcome.more
    else if ISDIGIT r2.1.toNat ∨ r2.1 = 58 then
      let code := out_.getD (in_.indexOf r2.1) 0
      let buf := push_ch (push_ch pbuf SO) code
      match P_attr_subst_loop lit brace fuel (GETC r2.2).1 buf (GETC r2.2).2 with
      | outcome.ret r => outcome.ret (P_attr_subst_end brace r)
      | outcome.abort => outcome.abort
      | outcome.more => outcome.more
    else outcome.ret (r2.1, pbuf, r2.2)

/-- The `switch` of `P_string` behind a backslash, on the character read: the
character to store, and whether the default case stores a backslash first. -/
def P_string_escape (ch : Int) : Int × Bool :=
  if ch = MSSCHAR then (MSSCHAR, false)
  else if ch = 110 then (10, false)
  else if ch = 114 then (13, false)
  else if ch = 115 then (32, false)
  else if ch = 116 then (9, false)
  else if ch = 36 ∨ ch = 123 ∨ ch = 125 ∨ ch = LIT ∨ ch = LITA then (ch, false)
  else (ch, true)

/-- The `while` loop of `P_string`.  Its condition stores `ch` to the `char`
variable `last` and tests that for NUL, so it sees `ch` modulo 256. -/
def P_string_loop (delim : Int) (is_repl : Bool) :
    Nat → Int → octetbuf → p_input → outcome (Int × octetbuf × p_input)
  | 0, _, _, _ => outcome.more
  | fuel + 1, ch, buf, inp =>
    if ¬ (ch ≠ delim ∧ ch % 256 ≠ 0) then outcome.ret (ch, buf, inp)
    else if ch = MSSCHAR then
      let e := P_string_escape (GETC inp).1
      let buf1 := if e.2 then push_ch buf MSSCHAR else buf
      let buf2 := if e.1 ≠ EOF then push_ch buf1 e.1 else buf1
      P_string_loop delim is_repl fuel (GETC (GETC inp).2).1 buf2 (GETC (GETC inp).2).2
    else if ch = 36 ∧ is_repl then
      match P_attr_subst fuel ch buf delim inp with
      | outcome.ret r => P_string_loop delim is_repl fuel r.1 r.2.1 r.2.2
      | outcome.abort => outcome.abort
      | outcome.more => outcome.more
    else P_string_loop delim is_repl fuel (GETC inp).1 (push_ch buf ch) (GETC inp).2

/-- The function `P_string`; the result is the value returned, the buffer
`pbuf` and the input. -/
def P_string (fuel : Nat) (ch : Int) (pbuf : octetbuf) (delim : Int) (is_repl : Bool)
    (inp : p_input) : outcome (Int × octetbuf × p_input) :=
  if (ch = LIT ∨ ch = LITA) ∧ delim ≠ ch then outcome.abort
  else if ¬ (ch = LIT ∨ ch = LITA) ∧ ¬ (ch = 123 ∧ delim = 125) then outcome.abort
  else
    match P_string_loop delim is_repl fuel (GETC inp).1 pbuf (GETC inp).2 with
    | outcome.ret r =>
      let buf := if !is_repl then push_ch r.2.1 NUL else r.2.1
      if r.1 ≠ delim then outcome.abort
      else outcome.ret ((GETC r.2.2).1, buf, (GETC r.2.2).2)
    | outcome.abort => outcome.abort
    | outcome.more => outcome.more

/-- The constant `NAMELEN`. -/
def NAMELEN : Nat := 8

/-- The C library function `toupper` in the C locale. -/
def toupper (c : Int) : Int := if 97 ≤ c ∧ c ≤ 122 then c - 32 else c

/-- The array `nodename`, of `NODE_NUM + 1` pointers: NULL, the names CM.DOC,
CM.QUO-B, CM.LIST, CM.LI, CM.COD-B, CM.HTM-B, CM.CUS-B, CM.PAR, CM.HDR, CM.HR,
CM.TXT, CM.SF-BR, CM.LN-BR, CM.COD, CM.HTM, CM.CUS, CM.EMPH, CM.STRN, CM.LNK,
CM.IMG and MARKUP, and the NULL of the element without an initialiser. -/
def nodename : List (Option (List Nat)) :=
  [none,
   some [67, 77, 46, 68, 79, 67],
   some [67, 77, 46, 81, 85, 79, 45, 66],
   some [67, 77, 46, 76, 73, 83, 84],
   some [67, 77, 46, 76, 73],
   some [67, 77, 46, 67, 79, 68, 45, 66],
   some [67, 77, 46, 72, 84, 77, 45, 66],
   some [67, 77, 46, 67, 85, 83, 45, 66],
   some [67, 77, 46, 80, 65, 82],
   some [67, 77, 46, 72, 68, 82],
   some [67, 77, 46, 72, 82],
   some [67, 77, 46, 84, 88, 84],
   some [67, 77, 46, 83, 70, 45, 66, 82],
   some [67, 77, 46, 76, 78, 45, 66, 82],
   some [67, 77, 46, 67, 79, 68],
   some [67, 77, 46, 72, 84, 77],
   some [67, 77, 46, 67, 85, 83],
   some [67, 77, 46, 69, 77, 80, 72],
   some [67, 77, 46, 83, 84, 82, 78],
   some [67, 77, 46, 76, 78, 75],
   some [67, 77, 46, 73, 77, 71],
   some [77, 65, 82, 75, 85, 80],
   none]

/-- The `do` loop of `P_name`: `name` is what has been stored to the array so
far, so `p` is `name + name.length`; the result is `ch`, the characters stored
and the input. -/
def P_name_do (fold : Bool) :
    Nat → Int → List Nat → p_input → outcome (Int × List Nat × p_input)
  | 0, _, _, _ => outcome.more
  | fuel + 1, ch, name, inp =>
    let name1 := name ++ [((if fold then toupper ch else ch) % 256).toNat]
    let r := GETC inp
    if name1.length < NAMELEN + 1 ∧ md2doc_ISNMCHAR r.1.toNat then
      P_name_do fold fuel r.1 name1 r.2
    else outcome.ret (r.1, name1, r.2)

/-- The `while` loop of `P_name` that passes over the rest of a name. -/
def P_name_skip : Nat → Int → p_input → outcome (Int × p_input)
  | 0, _, _ => outcome.more
  | fuel + 1, ch, inp =>
    if md2doc_ISNMCHAR ch.toNat then P_name_skip fuel (GETC inp).1 (GETC inp).2
    else outcome.ret (ch, inp)

/-- The `for` loop of `P_name` over `nodename` from `nt` on: the index of the
first name equal to the C string in `name`, or 0. -/
def P_name_find (name : List Nat) : Nat → Nat → Nat
  | 0, _ => 0
  | fuel + 1, nt =>
    match nodename.getD nt none with
    | none => 0
    | some s => if s = cstr name then nt else P_name_find name fuel (nt + 1)

/-- The function `P_name` with an array `name` of `NAMELEN + 1` elements, as
all its callers pass.  The result is the value returned, the C string in
`name`, the value stored to `*pnt` (`none` when `pnt` is NULL), whether the
error of an unknown node type is reported, and the input.  `abort` is the
failed assertion, or the store `*p = NUL` behind the array, which happens when
`p` is `name + NAMELEN + 1`; the report of a truncated name has the same
condition, so no call reaches it without that store. -/
def P_name (fuel : Nat) (ch : Int) (pnt : Bool) (fold : Bool) (inp : p_input) :
    outcome (Int × List Nat × Option Nat × Bool × p_input) :=
  if ¬ ISNMSTART ch.toNat then outcome.abort
  else
    match P_name_do fold fuel ch [] inp with
    | outcome.more => outcome.more
    | outcome.abort => outcome.abort
    | outcome.ret (ch1, name, inp1) =>
      if ¬ name.length < NAMELEN + 1 then outcome.abort
      else
        match P_name_skip fuel ch1 inp1 with
        | outcome.more => outcome.more
        | outcome.abort => outcome.abort
        | outcome.ret (ch2, inp2) =>
          if !pnt then outcome.ret (ch2, name, none, false, inp2)
          else
            let nt := P_name_find name (NODE_NUM + 1) 1
            outcome.ret (ch2, name, some nt, nt == 0, inp2)

/-! ## The UTF-8 encoding, as the standard defines it -/

/-- A Unicode scalar value: a code point up to 10FFFF outside the surrogate
range D800..DFFF. -/
def is_scalar (v : Nat) : Prop := v < 0xD800 ∨ (0xE000 ≤ v ∧ v ≤ 0x10FFFF)

instance (v : Nat) : Decidable (is_scalar v) := by unfold is_scalar; infer_instance

/-- The UTF-8 encoding of a code point, by the table of the standard: one
octet up to 7F, two up to 7FF, three up to FFFF, four up to 10FFFF. -/
def utf8 (v : Nat) : List Nat :=
  if v ≤ 0x7F then [v]
  else if v ≤ 0x7FF then [0xC0 + v / 64, 0x80 + v % 64]
  else if v ≤ 0xFFFF then [0xE0 + v / 4096, 0x80 + v / 64 % 64, 0x80 + v % 64]
  else [0xF0 + v / 262144, 0x80 + v / 4096 % 64, 0x80 + v / 64 % 64, 0x80 + v % 64]

/-! ## Predicates used in the statements -/

/-- The invariant of a buffer: the size does not exceed the capacity.  It holds
for a zeroed buffer and every function of octetbuf.c keeps it. -/
def octetbuf_ok (o : octetbuf) : Prop := o.p.length ≤ o.c

instance (o : octetbuf) : Decidable (octetbuf_ok o) := by unfold octetbuf_ok; infer_instance

/-- The loop of `esc_bsubst` without the count of octets passed. -/
def esc_run (esp : esc_state_) : List Nat → bsubst_vars → Option bsubst_vars
  | [], v => some v
  | ch :: rest, v =>
    match esc_body esp { v with ch := ch } with
    | none => none
    | some v1 => esc_run esp rest v1

/-- The scanner is in state `st` with the token octets `seq` collected, the
destination holds the octets `out` and is a sound buffer. -/
def at_state (v : bsubst_vars) (st : st_t) (seq out : List Nat) : Prop :=
  v.st = st ∧ v.seq = seq ∧ v.dst.p = out ∧ octetbuf_ok v.dst

/-- The key of a line of the digraph file as `esc_define` stores it and
`cmpdgr` compares it: two `char`, a space in the second place replaced by
NUL. -/
def dgr_key (l : Nat × Nat × Int) : Nat × Nat :=
  (l.1 % 256, (if l.2.1 = SP then NUL else l.2.1) % 256)

/-- The record `d` of the table stands for the line `l` of the digraph file:
it has the key of the line, the count 1, and at its offset `defs` holds what
`u8fc32` wrote for the scalar of the line, which is a scalar value. -/
def dgr_for (defs : List Nat) (l : Nat × Nat × Int) (d : dgr_) : Prop :=
  d.ch0 = l.1 ∧ d.ch1 = (if l.2.1 = SP then NUL else l.2.1) ∧ LEN d.oi = 1
  ∧ 0 ≤ l.2.2 ∧ is_scalar l.2.2.toNat
  ∧ ∃ bs rest, u8fc32 l.2.2 = some bs ∧ defs.drop (IDX d.oi) = bs ++ rest

/-- The calls of `push_att` for the attributes `attrs` of one element, each a
name and a value, in their order. -/
def push_atts (s : att_stack) (attrs : List (List Nat × List Nat)) : att_stack :=
  attrs.foldl (fun s1 a => push_att s1 a.1 a.2) s

/-- A resolver that returns the text it is called with. -/
def cb_echo : List Nat → Option (List Nat) := fun s => some s

/-- A resolver that returns NULL for every text. -/
def cb_null : List Nat → Option (List Nat) := fun _ => none

/-- An element stack between two elements: the text has the NUL at offset 0
and fits its buffer, the two arrays have the same number of elements, and
the element on top, if any, is a sentinel. -/
def att_stack_closed (s : att_stack) : Prop :=
  octetbuf_ok s.attr_buf ∧ s.attr_buf.p.head? = some NUL
    ∧ s.nameidx_buf.length = s.validx_buf.length
    ∧ (s.nameidx_buf = [] ∨ s.nameidx_buf.getLast? = some NULLIDX)

instance (s : att_stack) : Decidable (att_stack_closed s) := by
  unfold att_stack_closed; infer_instance

/-- The stack `t` is `s` with more text and more elements on top. -/
def att_ext (s t : att_stack) : Prop :=
  (∃ C, t.attr_buf.p = s.attr_buf.p ++ C) ∧ (∃ X, t.nameidx_buf = s.nameidx_buf ++ X)
    ∧ (∃ Y, t.validx_buf = s.validx_buf ++ Y)

/-- The value that a frame with the attributes `attrs`, in the order of their
`push_att` calls, has for `name`: the value of the attribute of that name
pushed last, as a C string; `none` when no attribute has the name. -/
def frame_val (attrs : List (List Nat × List Nat)) (name : List Nat) : Option (List Nat) :=
  (attrs.reverse.find? (fun a => cstr a.1 == cstr name)).map (fun a => cstr a.2)

/-- The octets of the C string "title". -/
def s_title : List Nat := [116, 105, 116, 108, 101]

/-- The octets of the C string "Hello". -/
def s_Hello : List Nat := [72, 101, 108, 108, 111]

/-- The octets of the C string "Parent". -/
def s_Parent : List Nat := [80, 97, 114, 101, 110, 116]

/-- The octets of the C string "Child". -/
def s_Child : List Nat := [67, 104, 105, 108, 100]

/-- The selector of a rule as a list of predicates, read from `atts` as
`select_rule` reads it: an attribute name and the required value, `none` for
a name alone, up to the `NULLIDX` in a name place; the outer `none` when the
list or a string has no end. -/
def sel_preds (text : List Nat) : List Nat → Option (List (List Nat × Option (List Nat)))
  | [] => none
  | [ai] => if ai = NULLIDX then some [] else none
  | ai :: vi :: rest =>
    if ai = NULLIDX then some []
    else
      match cstr_at text ai with
      | none => none
      | some name =>
        match (if vi ≠ NULLIDX then (cstr_at text vi).map some else some none) with
        | none => none
        | some val =>
          match sel_preds text rest with
          | none => none
          | some ps => some ((name, val) :: ps)

/-- A predicate matches a frame: a name alone when the frame has an attribute
of that name, a name with a value when the frame's value for the name exists
and is the same string. -/
def pred_matches (attrs : List (List Nat × List Nat)) (p : List Nat × Option (List Nat)) : Bool :=
  match p.2 with
  | none => (frame_val attrs p.1).isSome
  | some v => frame_val attrs p.1 == some v

/-- A rule matches a frame: every predicate of its selector does. -/
def rule_matches (text : List Nat) (attrs : List (List Nat × List Nat)) (r : repl_) : Bool :=
  match sel_preds text r.taginfo.atts with
  | none => false
  | some ps => ps.all (pred_matches attrs)

/-- The selector of a rule can be read to its end and names no attribute with
the empty name. -/
def rule_wf (text : List Nat) (r : repl_) : Bool :=
  match sel_preds text r.taginfo.atts with
  | none => false
  | some ps => ps.all (fun p => p.1 != [])

/-- The octets of the C string "type". -/
def s_type : List Nat := [116, 121, 112, 101]

/-- The octets of the C string "ordered". -/
def s_ordered : List Nat := [111, 114, 100, 101, 114, 101, 100]

/-- The octets of the C string "bullet". -/
def s_bullet : List Nat := [98, 117, 108, 108, 101, 116]

/-- A text buffer with the strings "type" at offset 1 and "ordered" at
offset 6. -/
def text_type_ordered : octetbuf := ⟨0 :: (s_type ++ 0 :: (s_ordered ++ [0])), 2048⟩

/-- A rule for node type 3 without predicates. -/
def rule_plain : repl_ := ⟨⟨3, [0]⟩, some [60, 117, 108, 62], none, false⟩

/-- A rule for node type 3 with the predicate type=ordered. -/
def rule_ordered : repl_ := ⟨⟨3, [1, 6, 0]⟩, some [60, 111, 108, 62], none, false⟩

/-- The statics after the two rules have been set, `rule_ordered` last. -/
def rs_lists : repl_state :=
  { repl_tab := fun n => if n = 3 then [rule_ordered, rule_plain] else [],
    text_buf := text_type_ordered, notations := [] }

/-- One call of `octetbuf_push_back`, `octetbuf_push_c` or `octetbuf_reserve`
with its argument. -/
inductive octetbuf_op where
  | push_back (bs : List Nat)
  | push_c (c : Nat)
  | reserve (c : Nat)

/-- The buffer after one such call. -/
def octetbuf_apply (o : octetbuf) : octetbuf_op → octetbuf
  | octetbuf_op.push_back bs => (octetbuf_push_back o bs).1
  | octetbuf_op.push_c c => (octetbuf_push_c o c).1
  | octetbuf_op.reserve c => octetbuf_reserve o c

/-- The buffer after a sequence of such calls. -/
def octetbuf_calls (o : octetbuf) (ops : List octetbuf_op) : octetbuf :=
  ops.foldl octetbuf_apply o

/-- The output stands at the start of a line: nothing has been written, or
the octet written last is a line break. -/
def at_line_start (out : List Nat) : Bool :=
  match out.getLast? with
  | none => true
  | some b => b == EOL

/-- What a replacement text without attribute substitutions adds to the
output `out`, told from the octets written alone: every octet but the
begin-of-line mark is written, and the mark gives one line break unless the
output stands at the start of a line. -/
def put_repl_spec (out : List Nat) : List Nat → List Nat
  | [] => out
  | b :: t =>
    if b = VT then put_repl_spec (if at_line_start out then out else out ++ [EOL]) t
    else put_repl_spec (out ++ [b]) t

/-- Replacement definitions with one rule: for node type 8 (CM.PAR), without
predicates and texts, with the flag CDATA. -/
def rs_cdata : repl_state :=
  { repl_tab := fun n => if n = 8 then [⟨⟨8, [0]⟩, none, none, true⟩] else [],
    text_buf := ⟨[0], 2048⟩, notations := [] }

/-- A stand-in for `houdini_escape_html0` in examples: it writes the four
characters of the entity lt for a less-than sign and every other octet as it
is. -/
def esc_sample (text : List Nat) : List Nat :=
  text.flatMap (fun b => if b = 60 then [38, 108, 116, 59] else [b])

/-- The octets that `u8fc32` writes for the scalars of the lines, one behind
the other: the content of `octs_buf` after the calls of `esc_define`. -/
def dgr_blob (lines : List (Nat × Nat × Int)) : List Nat :=
  (lines.map (fun l => (u8fc32 l.2.2).getD [])).flatten

/-- The records of the lines: the key as it is stored, the count 1 and the
offset in the blob at which the encoding of the line starts, the first line
at offset `off`. -/
def dgr_entries (off : Nat) : List (Nat × Nat × Int) → List (Nat × Nat × Nat × Nat)
  | [] => []
  | l :: rest =>
    (l.1, (if l.2.1 = SP then NUL else l.2.1), 1, off)
      :: dgr_entries (off + ((u8fc32 l.2.2).getD []).length) rest

/-- What a record of the table decodes to: key, count and offset. -/
def dgr_decoded (d : dgr_) : Nat × Nat × Nat × Nat := (d.ch0, d.ch1, LEN d.oi, IDX d.oi)

/-- The calls for the elements `frames` entered one inside the other, the
outermost first, each with its attributes and its node type: the `push_att`
calls and `close_atts`. -/
def push_frames (s : att_stack) (frames : List (List (List Nat × List Nat) × Nat)) :
    att_stack :=
  frames.foldl (fun s1 f => close_atts (push_atts s1 f.1) f.2) s

/-- The value that the open frames `frames`, the outermost first, have for
`name`: that of the innermost frame that has an attribute of the name. -/
def frames_val (frames : List (List (List Nat × List Nat) × Nat)) (name : List Nat) :
    Option (List Nat) :=
  frames.reverse.findSome? (fun f => frame_val f.1 name)

/-- The events of the attributes `attrs` of one element, in their order. -/
def attr_events (attrs : List (List Nat × List Nat)) : List esis_event :=
  attrs.map (fun a => esis_event.attr a.1 a.2)

/-- A well-nested sequence of events: text events and complete groups of
elements, each group the attribute events of the element, its enter event,
the well-nested events of its content and its leave event. -/
inductive well_nested : List esis_event → Prop where
  | nil : well_nested []
  | cdata (text : List Nat) (rest : List esis_event) :
      well_nested rest → well_nested (esis_event.cdata text :: rest)
  | elem (attrs : List (List Nat × List Nat)) (nt : Nat) (body rest : List esis_event) :
      well_nested body → well_nested rest →
      well_nested (attr_events attrs ++ esis_event.start nt :: (body ++ esis_event.end_ nt :: rest))

/-- The stack `t` has the text and the elements of `s`; the capacity of the
text buffer may differ. -/
def att_same (s t : att_stack) : Prop :=
  t.attr_buf.p = s.attr_buf.p ∧ t.nameidx_buf = s.nameidx_buf ∧ t.validx_buf = s.validx_buf

/-- One call of a function of octetbuf.c that changes the buffer, with its
arguments. -/
inductive octetbuf_call where
  | init (c : Nat)
  | reserve (c : Nat)
  | resize (n : Nat) (value : Nat)
  | shrink_to_fit
  | clear
  | shift (k : Nat)
  | push_back (bs : List Nat)
  | push_c (c : Nat)
  | pop_back (n : Nat)
  | extend (d : Int)
  | release

/-- The buffer after one call; `none` is the failed assertion of
`octetbuf_pop_back`. -/
def octetbuf_after (o : octetbuf) : octetbuf_call → Option octetbuf
  | octetbuf_call.init c => some (octetbuf_init c)
  | octetbuf_call.reserve c => some (octetbuf_reserve o c)
  | octetbuf_call.resize n value => some (octetbuf_resize o n value)
  | octetbuf_call.shrink_to_fit => some (octetbuf_shrink_to_fit o)
  | octetbuf_call.clear => some (octetbuf_clear o)
  | octetbuf_call.shift k => some (octetbuf_shift o k).1
  | octetbuf_call.push_back bs => some (octetbuf_push_back o bs).1
  | octetbuf_call.push_c c => some (octetbuf_push_c o c).1
  | octetbuf_call.pop_back n => (octetbuf_pop_back o n).map (fun r => r.1)
  | octetbuf_call.extend d => some (octetbuf_extend o d).1
  | octetbuf_call.release => some (octetbuf_release o).2

/-! ## Lemmas on octetbuf.c -/

theorem ROUND_ge (n : Nat) : n ≤ ROUND n := by
  unfold ROUND CHUNK OCTETBUF_ASIZE
  split <;> omega

theorem grow_p (o : octetbuf) (c : Nat) (h : o.p.length ≤ c) : (grow o c).p = o.p := by
  have hr := ROUND_ge c
  unfold grow grow_to
  split
  · split <;> split <;> simp <;> omega
  · split
    · rfl
    · split <;> split <;> simp <;> omega

theorem grow_ok (o : octetbuf) (c : Nat) (hc : o.c < c) :
    c ≤ (grow o c).c := by
  have hr := ROUND_ge c
  unfold grow grow_to
  rw [if_pos hc]
  dsimp only
  split <;> simp <;> omega

theorem octetbuf_push_back_p (o : octetbuf) (bs : List Nat) (h : octetbuf_ok o) :
    (octetbuf_push_back o bs).1.p = o.p ++ bs ∧ octetbuf_ok (octetbuf_push_back o bs).1 := by
  unfold octetbuf_ok at *
  unfold octetbuf_push_back
  by_cases hb : bs.length = 0
  · have : bs = [] := List.length_eq_zero.mp hb
    subst this
    simp [h]
  · rw [if_neg hb]
    by_cases hg : o.p.length + bs.length > o.c
    · have h1 := grow_p o (o.p.length + bs.length) (by omega)
      have h2 := grow_ok o (o.p.length + bs.length) hg
      simp only [if_pos hg, h1, List.length_append]
      exact ⟨trivial, h2⟩
    · simp only [if_neg hg, List.length_append]
      exact ⟨trivial, by omega⟩

theorem octetbuf_push_c_p (o : octetbuf) (c : Nat) (h : octetbuf_ok o) (hc : c < 256) :
    (octetbuf_push_c o c).1.p = o.p ++ [c] ∧ octetbuf_ok (octetbuf_push_c o c).1 := by
  unfold octetbuf_ok at *
  unfold octetbuf_push_c octetbuf_reserve
  have hm : c % 256 = c := Nat.mod_eq_of_lt hc
  by_cases hg : o.p.length ≥ o.c
  · have hgt : o.p.length + 1 > o.c := by omega
    have h1 := grow_p o (o.p.length + 1) (by omega)
    have h2 := grow_ok o (o.p.length + 1) hgt
    simp only [if_pos hg, if_pos hgt, h1, hm, List.length_append, List.length_singleton]
    exact ⟨trivial, h2⟩
  · simp only [if_neg hg, hm, List.length_append, List.length_singleton]
    exact ⟨trivial, by omega⟩

theorem octetbuf_resize_grow (o : octetbuf) (n : Nat) (hn : o.p.length ≤ n) :
    (octetbuf_resize o n 0).p = o.p ++ List.replicate (n - o.p.length) 0
      ∧ octetbuf_ok (octetbuf_resize o n 0) := by
  unfold octetbuf_ok at *
  unfold octetbuf_resize
  by_cases hg : n > o.c
  · have h1 := grow_p o n hn
    have h2 := grow_ok o n hg
    simp only [if_pos hg, h1, List.length_append, List.length_replicate,
      List.take_of_length_le hn]
    exact ⟨trivial, by omega⟩
  · simp only [if_neg hg, List.length_append, List.length_replicate, List.take_of_length_le hn]
    exact ⟨trivial, by omega⟩

theorem octetbuf_resize_shrink (o : octetbuf) (n : Nat) (h : octetbuf_ok o)
    (hn : n ≤ o.p.length) :
    (octetbuf_resize o n 0).p = o.p.take n ∧ octetbuf_ok (octetbuf_resize o n 0) := by
  unfold octetbuf_ok at *
  unfold octetbuf_resize
  have hg : ¬ n > o.c := by omega
  have h0 : n - o.p.length = 0 := by omega
  simp only [if_neg hg, h0, List.replicate_zero, List.append_nil, List.length_take]
  exact ⟨trivial, by omega⟩

/-- The three calls around `xctomb` in the code block: four octets are added to
`dst`, the encoding `bs` is stored into them, the unused ones are given back. -/
theorem octetbuf_extend_store (o : octetbuf) (bs : List Nat) (hb : bs.length ≤ 4) :
    let r := octetbuf_extend o (U8_LEN_MAX : Nat)
    let d : Int := (U8_LEN_MAX : Nat) - (bs.length : Nat)
    (octetbuf_extend (octetbuf_store r.1 r.2 bs) (-d)).1.p = o.p ++ bs
      ∧ octetbuf_ok (octetbuf_extend (octetbuf_store r.1 r.2 bs) (-d)).1 := by
  intro r d
  have hr1 : r.1 = octetbuf_resize o (o.p.length + 4) 0 := by
    simp only [r, octetbuf_extend, U8_LEN_MAX]
    have : ¬ (((4 : Nat) : Int) < 0 ∧ (-((4 : Nat) : Int)).toNat > o.p.length) := by omega
    rw [if_neg this]
    have : (((o.p.length : Nat) : Int) + ((4 : Nat) : Int)).toNat = o.p.length + 4 := by omega
    rw [this]
  have hr2 : r.2 = o.p.length := by
    simp only [r, octetbuf_extend, U8_LEN_MAX]
    have : (((4 : Nat) : Int) ≥ 0) := by omega
    rw [if_pos this]
  obtain ⟨hp, hok⟩ := octetbuf_resize_grow o (o.p.length + 4) (by omega)
  rw [← hr1] at hp hok
  have hsp : (octetbuf_store r.1 r.2 bs).p = o.p ++ bs ++ List.replicate (4 - bs.length) 0 := by
    unfold octetbuf_store
    simp only [hp, hr2]
    have e1 : o.p.length + 4 - o.p.length = 4 := by omega
    rw [e1, List.take_left', List.drop_append, List.drop_replicate]
    rfl
  have hsok : octetbuf_ok (octetbuf_store r.1 r.2 bs) := by
    unfold octetbuf_ok at *
    rw [hsp]
    have : (octetbuf_store r.1 r.2 bs).c = r.1.c := rfl
    rw [this]
    rw [hp] at hok
    simp at hok ⊢
    omega
  have hlen : (octetbuf_store r.1 r.2 bs).p.length = o.p.length + 4 := by
    rw [hsp]; simp; omega
  have hd : d = ((4 - bs.length : Nat) : Int) := by
    simp only [d, U8_LEN_MAX]; omega
  have hext : (octetbuf_extend (octetbuf_store r.1 r.2 bs) (-d)).1
      = octetbuf_resize (octetbuf_store r.1 r.2 bs) (o.p.length + bs.length) 0 := by
    simp only [octetbuf_extend, hlen, hd]
    have : ¬ (-((4 - bs.length : Nat) : Int) < 0
        ∧ (- -((4 - bs.length : Nat) : Int)).toNat > o.p.length + 4) := by omega
    rw [if_neg this]
    have : (((o.p.length + 4 : Nat) : Int) + -((4 - bs.length : Nat) : Int)).toNat
        = o.p.length + bs.length := by omega
    rw [this]
  rw [hext]
  obtain ⟨hq, hqok⟩ := octetbuf_resize_shrink (octetbuf_store r.1 r.2 bs)
    (o.p.length + bs.length) hsok (by omega)
  refine ⟨?_, hqok⟩
  rw [hq, hsp]
  have : o.p.length + bs.length = (o.p ++ bs).length := by simp
  rw [this, List.take_left']
  rfl

/-- The two calls of the code block when `xctomb` fails: the four octets added
to `dst` are all given back. -/
theorem octetbuf_extend_undo (o : octetbuf) :
    let r := octetbuf_extend o (U8_LEN_MAX : Nat)
    let d : Int := (U8_LEN_MAX : Nat)
    (octetbuf_extend r.1 (-d)).1.p = o.p ∧ octetbuf_ok (octetbuf_extend r.1 (-d)).1 := by
  have := octetbuf_extend_store o [] (by simp)
  simpa [octetbuf_store] using this

/-! ## Lemmas on ucs_fc32.c: the encoder against the standard -/

theorem and_1F (x : Nat) : x &&& 0x1F = x % 32 := Nat.and_pow_two_sub_one_eq_mod x 5

theorem and_3F (x : Nat) : x &&& 0x3F = x % 64 := Nat.and_pow_two_sub_one_eq_mod x 6

theorem and_0F (x : Nat) : x &&& 0x0F = x % 16 := Nat.and_pow_two_sub_one_eq_mod x 4

theorem and_07 (x : Nat) : x &&& 0x07 = x % 8 := Nat.and_pow_two_sub_one_eq_mod x 3

theorem or_C0 : ∀ x < 32, x ||| 0xC0 = 0xC0 + x := by decide

theorem or_80 : ∀ y < 64, y ||| 0x80 = 0x80 + y := by decide

theorem or_E0 : ∀ x < 16, x ||| 0xE0 = 0xE0 + x := by decide

theorem or_F0 : ∀ x < 8, x ||| 0xF0 = 0xF0 + x := by decide

/-- The octets `u8fc32` writes for a code point from 80 up, in arithmetic form:
the same as the standard encoding, except that the three-octet branch tests
`c32 < 0xFFFF`, so FFFF falls through to the four-octet branch. -/
theorem u8fc32_arith (v : Nat) (h0 : 0x7F < v) (hs : is_scalar v) :
    u8fc32 (v : Int) = some
      (if v ≤ 0x7FF then [0xC0 + v / 64, 0x80 + v % 64]
       else if v < 0xFFFF then [0xE0 + v / 4096, 0x80 + v / 64 % 64, 0x80 + v % 64]
       else [0xF0 + v / 262144, 0x80 + v / 4096 % 64, 0x80 + v / 64 % 64, 0x80 + v % 64]) := by
  unfold is_scalar at hs
  unfold u8fc32
  have c1 : ¬ ((0xD800 : Int) ≤ (v : Int) ∧ (v : Int) < 0xE000) := by omega
  have c2 : ¬ ((0x10FFFF : Int) < (v : Int)) := by omega
  have c3 : ¬ ((v : Int) ≤ 0x007F) := by omega
  rw [if_neg c1, if_neg c2, if_neg c3]
  simp only [Int.toNat_ofNat, Nat.shiftRight_eq_div_pow, and_1F, and_3F, and_0F, and_07]
  by_cases h1 : v ≤ 0x7FF
  · rw [if_pos h1, if_pos h1, or_C0 _ (by omega), or_80 _ (by omega)]
    simp only [Nat.pow_zero, Nat.div_one]
    have : v / 2 ^ 6 % 32 = v / 64 := by omega
    rw [this]
  · rw [if_neg h1, if_neg h1]
    by_cases h2 : v < 0xFFFF
    · rw [if_pos h2, if_pos h2, or_E0 _ (by omega), or_80 _ (by omega), or_80 _ (by omega)]
      simp only [Nat.pow_zero, Nat.div_one]
      have e1 : v / 2 ^ 12 % 16 = v / 4096 := by omega
      have e2 : v / 2 ^ 6 % 64 = v / 64 % 64 := by omega
      rw [e1, e2]
    · have h3 : v < 0x110000 := by omega
      rw [if_neg h2, if_neg h2, if_pos h3, or_F0 _ (by omega), or_80 _ (by omega),
        or_80 _ (by omega), or_80 _ (by omega)]
      simp only [Nat.pow_zero, Nat.div_one]
      have e1 : v / 2 ^ 18 % 8 = v / 262144 := by omega
      have e2 : v / 2 ^ 12 % 64 = v / 4096 % 64 := by omega
      have e3 : v / 2 ^ 6 % 64 = v / 64 % 64 := by omega
      rw [e1, e2, e3]

/-- The encoder agrees with the standard on every scalar value but FFFF. -/
theorem u8fc32_eq_utf8 (v : Nat) (hs : is_scalar v) (hv : v ≠ 0xFFFF) :
    u8fc32 (v : Int) = some (utf8 v) := by
  by_cases h0 : v ≤ 0x7F
  · unfold u8fc32 utf8
    have c1 : ¬ ((0xD800 : Int) ≤ (v : Int) ∧ (v : Int) < 0xE000) := by omega
    have c2 : ¬ ((0x10FFFF : Int) < (v : Int)) := by omega
    have c3 : (v : Int) ≤ 0x007F := by omega
    rw [if_neg c1, if_neg c2, if_pos c3, if_pos h0]
    have : ((v : Int) % 256).toNat = v := by omega
    rw [this]
  · rw [u8fc32_arith v (by omega) hs]
    unfold utf8
    rw [if_neg h0]
    by_cases h1 : v ≤ 0x7FF
    · rw [if_pos h1, if_pos h1]
    · rw [if_neg h1, if_neg h1]
      by_cases h2 : v < 0xFFFF
      · rw [if_pos h2, if_pos (by omega)]
      · rw [if_neg h2, if_neg (by omega)]

/-- The encoder writes at most four octets, and at least one. -/
theorem u8fc32_length (c : Int) (bs : List Nat) (h : u8fc32 c = some bs) :
    1 ≤ bs.length ∧ bs.length ≤ 4 := by
  unfold u8fc32 at h
  split at h
  · cases h
  · split at h
    · cases h
    · split at h
      · cases h; simp
      · dsimp only at h
        split at h
        · cases h; simp
        · split at h
          · cases h; simp
          · split at h
            · cases h; simp
            · cases h

/-! ## Lemmas on the scanner -/

theorem esc_loop_eq_run (esp : esc_state_) (cs : List Nat) :
    ∀ (v : bsubst_vars) (k : Nat),
      esc_loop esp cs v k = (esc_run esp cs v).map (fun v1 => (v1, k + cs.length)) := by
  induction cs with
  | nil => intro v k; simp [esc_loop, esc_run]
  | cons c cs ih =>
    intro v k
    simp only [esc_loop, esc_run]
    cases h : esc_body esp { v with ch := c } with
    | none => simp
    | some v1 =>
      simp only [ih v1 (k + 1), List.length_cons]
      cases esc_run esp cs v1 with
      | none => simp
      | some v2 => simp; omega

theorem esc_run_append (esp : esc_state_) (as bs : List Nat) :
    ∀ (v : bsubst_vars),
      esc_run esp (as ++ bs) v = (esc_run esp as v).bind (esc_run esp bs) := by
  induction as with
  | nil => intro v; simp [esc_run]
  | cons c cs ih =>
    intro v
    simp only [List.cons_append, esc_run]
    cases h : esc_body esp { v with ch := c } with
    | none => simp
    | some v1 => simp [ih v1]

theorem body_outside_escape (esp : esc_state_) (v : bsubst_vars) (out : List Nat)
    (hesc : esp.escape = ESCAPE) (h : at_state v ST_OUTSIDE [] out) :
    ∃ v1, esc_body esp { v with ch := ESCAPE } = some v1 ∧ at_state v1 ST_ESCAPE [ESCAPE] out := by
  obtain ⟨st, seq, b1, b2, n1, n2, ch, dst, g⟩ := v
  obtain ⟨h1, h2, h3, h4⟩ := h
  simp only at h1 h2 h3 h4
  subst h1 h2 h3
  simp [esc_body, esc_switch, hesc, ch_eq, schar, ESCAPE, seq_put, SEQMAX, esc_flush, at_state, h4]

theorem isxdigit_bounds (d : Nat) (h : isxdigit d = true) : 48 ≤ d ∧ d ≤ 102 := by
  simp only [isxdigit, isdigit, Bool.or_eq_true, Bool.and_eq_true, decide_eq_true_eq] at h
  omega

theorem cstr_xdigits (ds : List Nat) (hx : ∀ d ∈ ds, isxdigit d = true) : cstr ds = ds := by
  unfold cstr
  rw [List.takeWhile_eq_self_iff]
  intro d hd
  have := isxdigit_bounds d (hx d hd)
  simp only [bne_iff_ne, ne_eq]
  omega

theorem takeWhile_xdigits (ds : List Nat) (hx : ∀ d ∈ ds, isxdigit d = true) :
    ds.takeWhile isxdigit = ds := by
  rw [List.takeWhile_eq_self_iff]
  exact hx

theorem toInt32_small (n : Nat) (h : n < 2 ^ 31) : toInt32 (n : Int) = (n : Int) := by
  unfold toInt32
  omega

/-- The code block on a token buffer that holds two introducing octets and
then the hexadecimal digits `ds` of a value that `u8fc32` encodes as `bs`. -/
theorem esc_code_some (v : bsubst_vars) (e t : Nat) (ds bs : List Nat)
    (hseq : v.seq = e :: t :: ds) (hne : ds ≠ []) (hx : ∀ d ∈ ds, isxdigit d = true)
    (hlen : v.seq.length < SEQMAX) (hval : hexval ds < 2 ^ 31)
    (henc : u8fc32 (hexval ds : Int) = some bs) :
    ∃ v1, esc_code v = some v1 ∧ v1.st = v.st ∧ v1.seq = v.seq ∧ v1.ch = NUL
      ∧ v1.dst.p = v.dst.p ++ bs ∧ octetbuf_ok v1.dst := by
  obtain ⟨st, seq, b1, b2, n1, n2, ch, dst, g⟩ := v
  simp only at hseq hlen
  subst hseq
  obtain ⟨d, ds1, rfl⟩ := List.exists_cons_of_ne_nil hne
  have hd : isxdigit d = true := hx d (by simp)
  have hb := u8fc32_length _ _ henc
  have hmin : min (hexval (d :: ds1)) (2 ^ 64 - 1) = hexval (d :: ds1) := by omega
  have hst := octetbuf_extend_store dst bs hb.2
  simp only at hst
  unfold esc_code
  simp only [List.length_cons] at hlen
  simp only [List.getD_cons_succ, List.getD_cons_zero, hd,
    List.drop_succ_cons, List.drop_zero, cstr_xdigits _ hx, sscanf_lx, takeWhile_xdigits _ hx,
    List.length_cons, Nat.add_one_ne_zero, hmin, toInt32_small _ hval, henc, hlen,
    not_true_eq_false, if_false]
  exact ⟨_, rfl, rfl, rfl, rfl, hst.1, hst.2⟩

/-- From state ESCAPE, the octets u, U, opening brace and circumflex lead to
the states BMP, UCS, UNI and DGR0. -/
theorem body_escape_intro (esp : esc_state_) (v : bsubst_vars) (out : List Nat) (c : Nat)
    (st1 : st_t)
    (hc : (c = ESC_BMP ∧ st1 = ST_BMP) ∨ (c = ESC_UCS ∧ st1 = ST_UCS)
      ∨ (c = ESC_GRPO ∧ st1 = ST_UNI) ∨ (c = ESC_DGR ∧ st1 = ST_DGR0))
    (h : at_state v ST_ESCAPE [ESCAPE] out) :
    ∃ v1, esc_body esp { v with ch := c } = some v1 ∧ at_state v1 st1 [ESCAPE, c] out := by
  obtain ⟨st, seq, b1, b2, n1, n2, ch, dst, g⟩ := v
  obtain ⟨h1, h2, h3, h4⟩ := h
  simp only at h1 h2 h3 h4
  subst h1 h2 h3
  rcases hc with ⟨rfl, rfl⟩ | ⟨rfl, rfl⟩ | ⟨rfl, rfl⟩ | ⟨rfl, rfl⟩ <;>
    simp [esc_body, esc_switch, ESC_BMP, ESC_UCS, ESC_GRPO, ESC_DGR, ESCAPE, seq_put, SEQMAX,
      esc_flush, at_state, h4]

/-- A hexadecimal digit met in one of the states BMP, UCS, UNI below the length
at which the state is left is added to the token buffer. -/
theorem body_xdigit (esp : esc_state_) (v : bsubst_vars) (st : st_t) (lim : Nat)
    (hst : (st = ST_BMP ∧ lim = 6) ∨ (st = ST_UCS ∧ lim = 8) ∨ (st = ST_UNI ∧ lim = SEQMAX))
    (seq out : List Nat) (d : Nat) (hd : isxdigit d = true) (hlim : seq.length + 1 < lim)
    (h : at_state v st seq out) :
    ∃ v1, esc_body esp { v with ch := d } = some v1 ∧ at_state v1 st (seq ++ [d]) out := by
  obtain ⟨st0, seq0, b1, b2, n1, n2, ch, dst, g⟩ := v
  obtain ⟨h1, h2, h3, h4⟩ := h
  simp only at h1 h2 h3 h4
  subst h1 h2 h3
  rcases hst with ⟨rfl, rfl⟩ | ⟨rfl, rfl⟩ | ⟨rfl, rfl⟩
  · have h64 : seq0.length < 64 := by omega
    have h6 : ¬ seq0.length + 1 = 6 := by omega
    simp [esc_body, esc_switch, hd, seq_put, SEQMAX, esc_flush, at_state, h4, h64, h6]
  · have h64 : seq0.length < 64 := by omega
    have h6 : ¬ seq0.length + 1 = 8 := by omega
    simp [esc_body, esc_switch, hd, seq_put, SEQMAX, esc_flush, at_state, h4, h64, h6]
  · have h64 : seq0.length < 64 := by simp only [SEQMAX] at hlim; omega
    simp [esc_body, esc_switch, hd, seq_put, SEQMAX, esc_flush, at_state, h4, h64]

/-- A run of hexadecimal digits that stays below the length at which the state
is left is collected in the token buffer; nothing is written to `dst`. -/
theorem run_xdigits (esp : esc_state_) (st : st_t) (lim : Nat)
    (hst : (st = ST_BMP ∧ lim = 6) ∨ (st = ST_UCS ∧ lim = 8) ∨ (st = ST_UNI ∧ lim = SEQMAX))
    (out : List Nat) :
    ∀ (ds seq : List Nat) (v : bsubst_vars), (∀ d ∈ ds, isxdigit d = true) →
      seq.length + ds.length < lim → at_state v st seq out →
      ∃ v1, esc_run esp ds v = some v1 ∧ at_state v1 st (seq ++ ds) out := by
  intro ds
  induction ds with
  | nil => intro seq v _ _ h; exact ⟨v, rfl, by simpa using h⟩
  | cons d ds ih =>
    intro seq v hx hlim h
    simp only [List.length_cons] at hlim
    obtain ⟨v1, hb, h1⟩ := body_xdigit esp v st lim hst seq out d (hx d (by simp)) (by omega) h
    obtain ⟨v2, hr, h2⟩ := ih (seq ++ [d]) v1 (fun x hx1 => hx x (by simp [hx1]))
      (by simp; omega) h1
    refine ⟨v2, ?_, by simpa using h2⟩
    simp only [esc_run, hb, hr]

/-- The octet that completes the digits of a fixed-width escape: the value of
the digits is encoded and the encoding is all that reaches `dst`. -/
theorem body_fixed_last (esp : esc_state_) (v : bsubst_vars) (st : st_t) (lim : Nat)
    (hst : (st = ST_BMP ∧ lim = 6) ∨ (st = ST_UCS ∧ lim = 8))
    (e t : Nat) (ds out bs : List Nat) (d : Nat)
    (hx : ∀ x ∈ ds ++ [d], isxdigit x = true) (hlim : ds.length + 3 = lim)
    (hval : hexval (ds ++ [d]) < 2 ^ 31)
    (henc : u8fc32 (hexval (ds ++ [d]) : Int) = some bs)
    (h : at_state v st (e :: t :: ds) out) :
    ∃ v1, esc_body esp { v with ch := d } = some v1 ∧ at_state v1 ST_OUTSIDE [] (out ++ bs) := by
  obtain ⟨st0, seq0, b1, b2, n1, n2, ch, dst, g⟩ := v
  obtain ⟨h1, h2, h3, h4⟩ := h
  simp only at h1 h2 h3 h4
  subst h1 h2 h3
  have hd : isxdigit d = true := hx d (by simp)
  have hne : ds ++ [d] ≠ [] := by simp
  rcases hst with ⟨rfl, rfl⟩ | ⟨rfl, rfl⟩
  · obtain ⟨v1, hc, c1, c2, c3, c4, c5⟩ := esc_code_some
      { st := ST_CODE, seq := e :: t :: (ds ++ [d]), u8seq1 := b1, u8seq2 := b2, u8nseq1 := n1,
        u8nseq2 := n2, ch := d, dst := dst, g := g } e t (ds ++ [d]) bs rfl hne hx
      (by simp [SEQMAX]; omega) hval henc
    have h64 : ds.length + 1 + 1 < 64 := by omega
    have h6 : ds.length + 1 + 1 + 1 = 6 := by omega
    obtain ⟨st1, seq1, b11, b21, n11, n21, ch1, dst1, g1⟩ := v1
    simp only at c1 c2 c3 c4 c5
    subst c1 c2 c3
    simp [esc_body, esc_switch, hd, seq_put, SEQMAX, h64, h6, hc, esc_flush, at_state, c4, c5, NUL]
  · obtain ⟨v1, hc, c1, c2, c3, c4, c5⟩ := esc_code_some
      { st := ST_CODE, seq := e :: t :: (ds ++ [d]), u8seq1 := b1, u8seq2 := b2, u8nseq1 := n1,
        u8nseq2 := n2, ch := d, dst := dst, g := g } e t (ds ++ [d]) bs rfl hne hx
      (by simp [SEQMAX]; omega) hval henc
    have h64 : ds.length + 1 + 1 < 64 := by omega
    have h6 : ds.length + 1 + 1 + 1 = 8 := by omega
    obtain ⟨st1, seq1, b11, b21, n11, n21, ch1, dst1, g1⟩ := v1
    simp only at c1 c2 c3 c4 c5
    subst c1 c2 c3
    simp [esc_body, esc_switch, hd, seq_put, SEQMAX, h64, h6, hc, esc_flush, at_state, c4, c5, NUL]

/-- The closing brace of the braced escape: the value of the digits collected
is encoded and the encoding is all that reaches `dst`. -/
theorem body_uni_close (esp : esc_state_) (v : bsubst_vars)
    (e t : Nat) (ds out bs : List Nat)
    (hx : ∀ x ∈ ds, isxdigit x = true) (hne : ds ≠ []) (hlim : ds.length + 2 < SEQMAX)
    (hval : hexval ds < 2 ^ 31)
    (henc : u8fc32 (hexval ds : Int) = some bs)
    (h : at_state v ST_UNI (e :: t :: ds) out) :
    ∃ v1, esc_body esp { v with ch := ESC_GRPC } = some v1
      ∧ at_state v1 ST_OUTSIDE [] (out ++ bs) := by
  obtain ⟨st0, seq0, b1, b2, n1, n2, ch, dst, g⟩ := v
  obtain ⟨h1, h2, h3, h4⟩ := h
  simp only at h1 h2 h3 h4
  subst h1 h2 h3
  obtain ⟨v1, hc, c1, c2, c3, c4, c5⟩ := esc_code_some
    { st := ST_CODE, seq := e :: t :: ds, u8seq1 := b1, u8seq2 := b2, u8nseq1 := n1,
      u8nseq2 := n2, ch := ESC_GRPC, dst := dst, g := g } e t ds bs rfl hne hx
    (by simpa using hlim) hval henc
  obtain ⟨st1, seq1, b11, b21, n11, n21, ch1, dst1, g1⟩ := v1
  simp only at c1 c2 c3 c4 c5
  subst c1 c2 c3
  have hg : isxdigit ESC_GRPC = false := by decide
  simp [esc_body, esc_switch, hg, hc, esc_flush, at_state, c4, c5, NUL]

/-- An octet that is no hexadecimal digit and not NUL, met before the digits of
a fixed-width escape are complete: the octets collected so far and the octet
itself are copied to `dst`. -/
theorem body_fixed_nonhex (esp : esc_state_) (v : bsubst_vars) (st : st_t) (lim : Nat)
    (hst : (st = ST_BMP ∧ lim = 6) ∨ (st = ST_UCS ∧ lim = 8))
    (seq out : List Nat) (b : Nat) (hb : isxdigit b = false) (hb0 : b ≠ 0) (hb256 : b < 256)
    (hlim : seq.length < lim) (h : at_state v st seq out) :
    ∃ v1, esc_body esp { v with ch := b } = some v1
      ∧ at_state v1 ST_OUTSIDE [] (out ++ seq ++ [b]) := by
  obtain ⟨st0, seq0, b1, b2, n1, n2, ch, dst, g⟩ := v
  obtain ⟨h1, h2, h3, h4⟩ := h
  simp only at h1 h2 h3 h4
  subst h1 h2 h3
  obtain ⟨p1, p2⟩ := octetbuf_push_back_p dst seq0 h4
  obtain ⟨q1, q2⟩ := octetbuf_push_c_p (octetbuf_push_back dst seq0).1 b p2 hb256
  rcases hst with ⟨rfl, rfl⟩ | ⟨rfl, rfl⟩
  · have h6 : ¬ seq0.length = 6 := by omega
    simp [esc_body, esc_switch, hb, h6, esc_flush, at_state, NUL, hb0, q1, q2, p1]
  · have h6 : ¬ seq0.length = 8 := by omega
    simp [esc_body, esc_switch, hb, h6, esc_flush, at_state, NUL, hb0, q1, q2, p1]

theorem hexdigit_val_lt (d : Nat) (h : isxdigit d = true) : hexdigit_val d < 16 := by
  simp only [isxdigit, isdigit, Bool.or_eq_true, Bool.and_eq_true, decide_eq_true_eq] at h
  unfold hexdigit_val isdigit
  simp only [Bool.and_eq_true, decide_eq_true_eq]
  split
  · omega
  · split <;> omega

theorem hexval_concat (ds : List Nat) (d : Nat) :
    hexval (ds ++ [d]) = hexval ds * 16 + hexdigit_val d := by
  simp [hexval, List.foldl_append]

theorem hexval_lt (ds : List Nat) (hx : ∀ d ∈ ds, isxdigit d = true) :
    hexval ds < 16 ^ ds.length := by
  induction ds using List.reverseRecOn with
  | nil => simp [hexval]
  | append_singleton ds d ih =>
    have h1 := ih (fun x hx1 => hx x (by simp [hx1]))
    have h2 := hexdigit_val_lt d (hx d (by simp))
    rw [hexval_concat, List.length_append, List.length_singleton, Nat.pow_succ]
    omega

/-- What `esc_bsubst` returns when the loop runs through. -/
theorem esc_bsubst_of_run (g : u8_state) (esp : esc_state_) (dst src : octetbuf)
    (v1 : bsubst_vars) (h : esc_run esp src.p (bsubst_vars_init g dst) = some v1) :
    esc_bsubst g esp dst src = some { g := v1.g, dst := v1.dst, src := ⟨[], src.c⟩, ret := 0 } := by
  unfold esc_bsubst
  rw [esc_loop_eq_run, h]
  simp [octetbuf_shift]

theorem at_state_init (g : u8_state) (dst : octetbuf) (hok : octetbuf_ok dst) :
    at_state (bsubst_vars_init g dst) ST_OUTSIDE [] dst.p :=
  ⟨rfl, rfl, rfl, hok⟩

/-- A complete fixed-width escape met in state OUTSIDE: the encoding that
`u8fc32` gives for the value of the digits is all that reaches `dst`. -/
theorem run_fixed (esp : esc_state_) (hesc : esp.escape = ESCAPE) (v : bsubst_vars)
    (out : List Nat) (t : Nat) (st : st_t) (lim : Nat)
    (ht : (t = ESC_BMP ∧ st = ST_BMP ∧ lim = 6) ∨ (t = ESC_UCS ∧ st = ST_UCS ∧ lim = 8))
    (ds bs : List Nat) (hlen : ds.length + 2 = lim) (hx : ∀ d ∈ ds, isxdigit d = true)
    (henc : u8fc32 (hexval ds : Int) = some bs)
    (h : at_state v ST_OUTSIDE [] out) :
    ∃ v1, esc_run esp (ESCAPE :: t :: ds) v = some v1 ∧ at_state v1 ST_OUTSIDE [] (out ++ bs) := by
  have hst : (st = ST_BMP ∧ lim = 6) ∨ (st = ST_UCS ∧ lim = 8) := by
    rcases ht with ⟨_, a, b⟩ | ⟨_, a, b⟩
    · exact Or.inl ⟨a, b⟩
    · exact Or.inr ⟨a, b⟩
  have hst3 : (st = ST_BMP ∧ lim = 6) ∨ (st = ST_UCS ∧ lim = 8) ∨ (st = ST_UNI ∧ lim = SEQMAX) := by
    rcases hst with a | a
    · exact Or.inl a
    · exact Or.inr (Or.inl a)
  have hc : (t = ESC_BMP ∧ st = ST_BMP) ∨ (t = ESC_UCS ∧ st = ST_UCS)
      ∨ (t = ESC_GRPO ∧ st = ST_UNI) ∨ (t = ESC_DGR ∧ st = ST_DGR0) := by
    rcases ht with ⟨a, b, _⟩ | ⟨a, b, _⟩
    · exact Or.inl ⟨a, b⟩
    · exact Or.inr (Or.inl ⟨a, b⟩)
  have hne : ds ≠ [] := by
    intro h0; subst h0; simp at hlen
    rcases hst with ⟨_, a⟩ | ⟨_, a⟩ <;> omega
  have hlim8 : lim ≤ 8 := by rcases hst with ⟨_, a⟩ | ⟨_, a⟩ <;> omega
  obtain ⟨ds0, d, rfl⟩ : ∃ ds0 d, ds = ds0 ++ [d] :=
    ⟨ds.dropLast, ds.getLast hne, (List.dropLast_append_getLast hne).symm⟩
  simp only [List.length_append, List.length_singleton] at hlen
  have hval : hexval (ds0 ++ [d]) < 2 ^ 31 := by
    have h1 := hexval_lt (ds0 ++ [d]) hx
    have h2 : (16 : Nat) ^ (ds0 ++ [d]).length ≤ 16 ^ 6 :=
      Nat.pow_le_pow_right (by omega) (by simp; omega)
    omega
  obtain ⟨v1, e1, s1⟩ := body_outside_escape esp v out hesc h
  obtain ⟨v2, e2, s2⟩ := body_escape_intro esp v1 out t st hc s1
  obtain ⟨v3, e3, s3⟩ := run_xdigits esp st lim hst3 out ds0 [ESCAPE, t] v2
    (fun x hx1 => hx x (by simp [hx1])) (by simp; omega) s2
  obtain ⟨v4, e4, s4⟩ := body_fixed_last esp v3 st lim hst ESCAPE t ds0 out bs d hx
    (by omega) hval henc s3
  refine ⟨v4, ?_, s4⟩
  simp only [esc_run, e1, e2]
  rw [esc_run_append, e3]
  simp only [Option.bind, esc_run, e4]

/-- A braced escape met in state OUTSIDE: an opening brace after the escape
character, the digits `ds`, a closing brace. -/
theorem run_braced (esp : esc_state_) (hesc : esp.escape = ESCAPE) (v : bsubst_vars)
    (out : List Nat) (ds bs : List Nat) (hne : ds ≠ []) (hlen : ds.length + 2 < SEQMAX)
    (hx : ∀ d ∈ ds, isxdigit d = true) (hval : hexval ds < 2 ^ 31)
    (henc : u8fc32 (hexval ds : Int) = some bs)
    (h : at_state v ST_OUTSIDE [] out) :
    ∃ v1, esc_run esp (ESCAPE :: ESC_GRPO :: (ds ++ [ESC_GRPC])) v = some v1
      ∧ at_state v1 ST_OUTSIDE [] (out ++ bs) := by
  obtain ⟨v1, e1, s1⟩ := body_outside_escape esp v out hesc h
  obtain ⟨v2, e2, s2⟩ := body_escape_intro esp v1 out ESC_GRPO ST_UNI
    (Or.inr (Or.inr (Or.inl ⟨rfl, rfl⟩))) s1
  obtain ⟨v3, e3, s3⟩ := run_xdigits esp ST_UNI SEQMAX (Or.inr (Or.inr ⟨rfl, rfl⟩)) out ds
    [ESCAPE, ESC_GRPO] v2 hx (by simp; omega) s2
  obtain ⟨v4, e4, s4⟩ := body_uni_close esp v3 ESCAPE ESC_GRPO ds out bs hx hne hlen hval henc s3
  refine ⟨v4, ?_, s4⟩
  simp only [esc_run, e1, e2]
  rw [esc_run_append, e3]
  simp only [Option.bind, esc_run, e4]



/-- An octet other than the two trigger characters and NUL, met in state
OUTSIDE, is copied to `dst`. -/
theorem body_outside_plain (esp : esc_state_) (v : bsubst_vars) (out : List Nat) (b : Nat)
    (hb0 : b ≠ 0) (hb256 : b < 256)
    (he : ch_eq b esp.escape = false) (hs : ch_eq b esp.subst = false)
    (h : at_state v ST_OUTSIDE [] out) :
    ∃ v1, esc_body esp { v with ch := b } = some v1 ∧ at_state v1 ST_OUTSIDE [] (out ++ [b]) := by
  obtain ⟨st, seq, b1, b2, n1, n2, ch, dst, g⟩ := v
  obtain ⟨h1, h2, h3, h4⟩ := h
  simp only at h1 h2 h3 h4
  subst h1 h2 h3
  obtain ⟨q1, q2⟩ := octetbuf_push_c_p dst b h4 hb256
  simp [esc_body, esc_switch, he, hs, esc_flush, at_state, NUL, hb0, q1, q2]

theorem run_plain (esp : esc_state_) :
    ∀ (s : List Nat) (v : bsubst_vars) (out : List Nat),
      (∀ b ∈ s, b ≠ 0 ∧ b < 256 ∧ ch_eq b esp.escape = false ∧ ch_eq b esp.subst = false) →
      at_state v ST_OUTSIDE [] out →
      ∃ v1, esc_run esp s v = some v1 ∧ at_state v1 ST_OUTSIDE [] (out ++ s) := by
  intro s
  induction s with
  | nil => intro v out _ h; exact ⟨v, rfl, by simpa using h⟩
  | cons b s ih =>
    intro v out hs h
    obtain ⟨h0, h256, he, hsb⟩ := hs b (by simp)
    obtain ⟨v1, e1, s1⟩ := body_outside_plain esp v out b h0 h256 he hsb h
    obtain ⟨v2, e2, s2⟩ := ih v1 (out ++ [b]) (fun x hx => hs x (by simp [hx])) s1
    refine ⟨v2, ?_, by simpa using s2⟩
    simp only [esc_run, e1, e2]

theorem ch_eq_false_of_ne (b e : Nat) (he : e < 256) (hne : b ≠ e) : ch_eq b e = false := by
  unfold ch_eq schar
  have hm : e % 256 = e := Nat.mod_eq_of_lt he
  rw [hm]
  by_cases h : e < 128
  · rw [if_pos h]
    simp only [beq_eq_false_iff_ne, ne_eq]
    omega
  · rw [if_neg h]
    simp only [beq_eq_false_iff_ne, ne_eq]
    omega

/-! ## Lemmas on ucs_tc32.c: decoding what the encoder wrote -/

theorem shl6_or (a y : Nat) (hy : y < 64) : (a <<< 6) ||| y = a * 64 + y := by
  rw [Nat.shiftLeft_eq]
  have := Nat.mul_add_lt_is_or (i := 6) (b := y) (by omega) a
  rw [Nat.mul_comm] at this
  exact this.symm

theorem head1 : ∀ x < 128, U8_LEN x = 1 ∧ U8_HEAD x 1 = x := by decide

theorem head2 : ∀ x < 32, U8_LEN (0xC0 + x) = 2 ∧ U8_HEAD (0xC0 + x) 3 = x := by decide

theorem head3 : ∀ x < 16, U8_LEN (0xE0 + x) = 3 ∧ U8_HEAD (0xE0 + x) 4 = x := by decide

theorem head4 : ∀ x < 8, U8_LEN (0xF0 + x) = 4 ∧ U8_HEAD (0xF0 + x) 5 = x := by decide

theorem tail_octet : ∀ y < 64, U8_TAIL (0x80 + y) = true ∧ (0x80 + y) &&& 0x3F = y := by decide

theorem u8_tails_step (k a y : Nat) (p : List Nat) (hy : y < 64) :
    u8_tails (k + 1) a ((0x80 + y) :: p) = u8_tails k (a * 64 + y) p := by
  have h := tail_octet y hy
  simp only [u8_tails, h.1, h.2, shl6_or a y hy]
  simp

theorem u8_tails_1 (a y : Nat) (p : List Nat) (hy : y < 64) :
    u8_tails 1 a ((0x80 + y) :: p) = some (some (a * 64 + y)) := by
  rw [u8_tails_step 0 a y p hy]; rfl

theorem u8_tails_2 (a y1 y2 : Nat) (p : List Nat) (h1 : y1 < 64) (h2 : y2 < 64) :
    u8_tails 2 a ((0x80 + y1) :: (0x80 + y2) :: p) = some (some ((a * 64 + y1) * 64 + y2)) := by
  rw [u8_tails_step 1 a y1 _ h1, u8_tails_1 _ y2 p h2]

theorem u8_tails_3 (a y1 y2 y3 : Nat) (p : List Nat) (h1 : y1 < 64) (h2 : y2 < 64)
    (h3 : y3 < 64) :
    u8_tails 3 a ((0x80 + y1) :: (0x80 + y2) :: (0x80 + y3) :: p)
      = some (some (((a * 64 + y1) * 64 + y2) * 64 + y3)) := by
  rw [u8_tails_step 2 a y1 _ h1, u8_tails_2 _ y2 y3 p h2 h3]

/-- The decoder on the octets the encoder wrote for a scalar value `v`, with
the static state zero and at least that many octets allowed: the state stays
zero, the value `v` is stored, and the length is returned (0 for NUL). -/
theorem u8tc32_u8fc32 (v : Nat) (hs : is_scalar v) :
    ∃ bs, u8fc32 (v : Int) = some bs ∧ ∀ (rest : List Nat) (n : Nat), bs.length ≤ n →
      u8tc32 u8_state_zero (bs ++ rest) n
        = some (u8_state_zero, if v = 0 then 0 else bs.length, some v) := by
  by_cases h0 : v ≤ 0x7F
  · refine ⟨[v], ?_, ?_⟩
    · unfold u8fc32
      have c1 : ¬ ((0xD800 : Int) ≤ (v : Int) ∧ (v : Int) < 0xE000) := by omega
      have c2 : ¬ ((0x10FFFF : Int) < (v : Int)) := by omega
      have c3 : (v : Int) ≤ 0x007F := by omega
      rw [if_neg c1, if_neg c2, if_pos c3]
      have : ((v : Int) % 256).toNat = v := by omega
      rw [this]
    · intro rest n hn
      have h := head1 v (by omega)
      simp only [List.length_singleton] at hn
      have hn1 : ¬ 1 > n := by omega
      by_cases hv : v = 0
      · subst hv
        simp [u8tc32, h.1, h.2, u8_state_zero, hn1, u8_tails]
      · have hv2 : ¬ (0xD800 ≤ v ∧ v < 0xE000 ∨ 0x10FFFF < v) := by omega
        simp [u8tc32, h.1, h.2, u8_state_zero, hn1, u8_tails, hv, hv2]
  · have ha := u8fc32_arith v (by omega) hs
    have hv : v ≠ 0 := by omega
    have hv2 : ¬ (0xD800 ≤ v ∧ v < 0xE000 ∨ 0x10FFFF < v) := by
      unfold is_scalar at hs; omega
    unfold is_scalar at hs
    by_cases h1 : v ≤ 0x7FF
    · rw [if_pos h1] at ha
      refine ⟨_, ha, ?_⟩
      intro rest n hn
      have h := head2 (v / 64) (by omega)
      simp only [List.length_cons, List.length_nil] at hn
      have hn1 : ¬ 2 > n := by omega
      have e : v / 64 * 64 + v % 64 = v := by omega
      have ht := u8_tails_1 (v / 64) (v % 64) rest (by omega)
      simp only [Nat.reduceAdd] at ht
      simp [u8tc32, h.1, h.2, u8_state_zero, hn1, ht, e, hv, hv2]
    · rw [if_neg h1] at ha
      by_cases h2 : v < 0xFFFF
      · rw [if_pos h2] at ha
        refine ⟨_, ha, ?_⟩
        intro rest n hn
        have h := head3 (v / 4096) (by omega)
        simp only [List.length_cons, List.length_nil] at hn
        have hn1 : ¬ 3 > n := by omega
        have e : (v / 4096 * 64 + v / 64 % 64) * 64 + v % 64 = v := by omega
        have ht := u8_tails_2 (v / 4096) (v / 64 % 64) (v % 64) rest (by omega) (by omega)
        simp only [Nat.reduceAdd] at ht
        simp [u8tc32, h.1, h.2, u8_state_zero, hn1, ht, e, hv, hv2]
      · rw [if_neg h2] at ha
        refine ⟨_, ha, ?_⟩
        intro rest n hn
        have h := head4 (v / 262144) (by omega)
        simp only [List.length_cons, List.length_nil] at hn
        have hn1 : ¬ 4 > n := by omega
        have e : ((v / 262144 * 64 + v / 4096 % 64) * 64 + v / 64 % 64) * 64 + v % 64 = v := by
          omega
        have ht := u8_tails_3 (v / 262144) (v / 4096 % 64) (v / 64 % 64) (v % 64) rest
          (by omega) (by omega) (by omega)
        simp only [Nat.reduceAdd] at ht
        simp [u8tc32, h.1, h.2, u8_state_zero, hn1, ht, e, hv, hv2]


/-! ## Lemmas on the digraph table -/

set_option maxRecDepth 100000 in
theorem u8tc32_high_octet : ∀ b < 256, 128 ≤ b →
    (u8tc32 u8_state_zero [b] 1).map (fun r => r.2.2) = some none := by
  decide

theorem u8fc32_scalar (v : Nat) (bs : List Nat) (h : u8fc32 (v : Int) = some bs) :
    is_scalar v := by
  unfold u8fc32 at h
  unfold is_scalar
  split at h
  · cases h
  · split at h
    · cases h
    · omega

theorem ite_none_some {α : Type} {c : Prop} [Decidable c] {x : Option α} {y : α}
    (h : (if c then none else x) = some y) : ¬ c ∧ x = some y := by
  by_cases hc : c
  · rw [if_pos hc] at h; cases h
  · rw [if_neg hc] at h; exact ⟨hc, h⟩

/-- The checks of `esc_define` behind the decoder call. -/
theorem esc_define_tail (es es1 : esc_state_) (g1 ga : u8_state) (ch0 ch1 : Nat) (cp : Int)
    (u8seq : List Nat) (s32 : Nat) (u32 : Option Nat)
    (h : (if ¬ s32 < 5 then none
      else if u32.map (fun (v : Nat) => (v : Int)) ≠ some cp then none
      else
        let r := octetbuf_push_back es.octs_buf u8seq
        let oi := r.2
        let d : dgr_ := ⟨ch0, if ch1 = SP then NUL else ch1, MKOI oi 1 % 2 ^ 16⟩
        if LEN d.oi ≠ 1 then none
        else if IDX d.oi ≠ oi then none
        else some (ga, { es with octs_buf := r.1, dgrs_buf := es.dgrs_buf ++ [d] }))
      = some (g1, es1)) :
    u32.map (fun (v : Nat) => (v : Int)) = some cp ∧ g1 = ga
    ∧ ∃ oi, es1.octs_buf = (octetbuf_push_back es.octs_buf u8seq).1
      ∧ es1.dgrs_buf = es.dgrs_buf ++ [⟨ch0, if ch1 = SP then NUL else ch1, oi⟩]
      ∧ LEN oi = 1 ∧ IDX oi = es.octs_buf.p.length ∧ es1.escape = es.escape := by
  obtain ⟨_, h⟩ := ite_none_some h
  obtain ⟨hu, h⟩ := ite_none_some h
  simp only at h
  obtain ⟨hL, h⟩ := ite_none_some h
  obtain ⟨hI, h⟩ := ite_none_some h
  simp only [Option.some.injEq, Prod.mk.injEq] at h
  obtain ⟨hg, he⟩ := h
  simp only [ne_eq, not_not] at hu hL hI
  have hidx : (octetbuf_push_back es.octs_buf u8seq).2 = es.octs_buf.p.length := by
    unfold octetbuf_push_back; split <;> rfl
  rw [hidx] at hL hI he
  refine ⟨hu, hg.symm, _, ?_, ?_, hL, hI, ?_⟩
  · rw [← he]
  · rw [← he]
  · rw [← he]

/-- What a call of `esc_define` that returns has done, the static state of
`u8tc32` being zero: the scalar is a scalar value, its encoding is added to
`octs_buf` and one record that points to it is added to `dgrs_buf`. -/
theorem esc_define_spec (es es1 : esc_state_) (g1 : u8_state) (ch0 ch1 : Nat) (cp : Int)
    (h : esc_define u8_state_zero es ch0 ch1 cp = some (g1, es1))
    (hok : octetbuf_ok es.octs_buf) :
    g1 = u8_state_zero ∧ 0 ≤ cp ∧ is_scalar cp.toNat
    ∧ ∃ bs oi, u8fc32 cp = some bs
      ∧ es1.octs_buf.p = es.octs_buf.p ++ bs ∧ octetbuf_ok es1.octs_buf
      ∧ es1.dgrs_buf = es.dgrs_buf ++ [⟨ch0, if ch1 = SP then NUL else ch1, oi⟩]
      ∧ LEN oi = 1 ∧ IDX oi = es.octs_buf.p.length
      ∧ es1.escape = es.escape := by
  unfold esc_define at h
  cases henc : u8fc32 (toInt32 cp) with
  | none => rw [henc] at h; cases h
  | some u8seq =>
    rw [henc] at h
    simp only at h
    obtain ⟨p1, p2⟩ := octetbuf_push_back_p es.octs_buf u8seq hok
    by_cases hc : 0 ≤ toInt32 cp
    · obtain ⟨n, hn⟩ : ∃ n : Nat, toInt32 cp = (n : Int) := ⟨(toInt32 cp).toNat, by omega⟩
      rw [hn] at henc
      have hsc := u8fc32_scalar n u8seq henc
      obtain ⟨bs, hbs, hdec⟩ := u8tc32_u8fc32 n hsc
      rw [henc] at hbs
      cases hbs
      have hd := hdec [] u8seq.length (Nat.le_refl _)
      rw [List.append_nil] at hd
      rw [hd] at h
      obtain ⟨hu, hg, oi, e4, e5, e6, e7, e8⟩ := esc_define_tail es es1 g1 _ ch0 ch1 cp u8seq _ _ h
      simp only [Option.map_some', Option.some.injEq] at hu
      have hcp : cp = (n : Int) := hu.symm
      rw [hcp]
      refine ⟨hg, by omega, by simpa using hsc, u8seq, oi, henc, by rw [e4, p1],
        by rw [e4]; exact p2, e5, e6, e7, e8⟩
    · exfalso
      -- a negative value is stored as one octet, which does not decode to it
      have hneg : toInt32 cp < 0 := by omega
      have hb : u8seq = [(toInt32 cp % 256).toNat] := by
        unfold u8fc32 at henc
        have c1 : ¬ ((0xD800 : Int) ≤ toInt32 cp ∧ toInt32 cp < 0xE000) := by omega
        have c2 : ¬ ((0x10FFFF : Int) < toInt32 cp) := by omega
        have c3 : toInt32 cp ≤ 0x007F := by omega
        rw [if_neg c1, if_neg c2, if_pos c3] at henc
        cases henc; rfl
      subst hb
      generalize hbdef : (toInt32 cp % 256).toNat = b at h
      have hlt : b < 256 := by omega
      simp only [List.length_singleton] at h
      by_cases hhi : 128 ≤ b
      · have hh := u8tc32_high_octet b hlt hhi
        cases hr : u8tc32 u8_state_zero [b] 1 with
        | none => rw [hr] at h; cases h
        | some r =>
          obtain ⟨ga, s32, u32⟩ := r
          rw [hr] at hh h
          simp only [Option.map_some', Option.some.injEq] at hh
          subst hh
          obtain ⟨hu, _⟩ := esc_define_tail es es1 g1 _ ch0 ch1 cp [b] _ _ h
          simp at hu
      · have hsc : is_scalar b := by unfold is_scalar; omega
        obtain ⟨bs, hbs, hdec⟩ := u8tc32_u8fc32 b hsc
        have hb1 : u8fc32 ((b : Nat) : Int) = some [b] := by
          unfold u8fc32
          have c1 : ¬ ((0xD800 : Int) ≤ (b : Int) ∧ (b : Int) < 0xE000) := by omega
          have c2 : ¬ ((0x10FFFF : Int) < (b : Int)) := by omega
          have c3 : (b : Int) ≤ 0x007F := by omega
          rw [if_neg c1, if_neg c2, if_pos c3]
          have : ((b : Int) % 256).toNat = b := by omega
          rw [this]
        rw [hb1] at hbs
        cases hbs
        have hd := hdec [] 1 (by simp)
        rw [List.append_nil] at hd
        rw [hd] at h
        obtain ⟨hu, _⟩ := esc_define_tail es es1 g1 _ ch0 ch1 cp [b] _ _ h
        simp only [Option.map_some', Option.some.injEq] at hu
        have hcp : toInt32 cp = cp := by
          unfold toInt32; omega
        omega


/-- What the loop of `esc_create` has done when it returns: every line has
its record, in the order of the lines, and the encodings are in `octs_buf`. -/
theorem esc_create_loop_spec : ∀ (lines : List (Nat × Nat × Int)) (es es1 : esc_state_)
    (g1 : u8_state), esc_create_loop u8_state_zero es lines = some (g1, es1) →
    octetbuf_ok es.octs_buf →
    g1 = u8_state_zero ∧ es1.escape = es.escape ∧ octetbuf_ok es1.octs_buf
    ∧ ∃ extra news, es1.octs_buf.p = es.octs_buf.p ++ extra
      ∧ es1.dgrs_buf = es.dgrs_buf ++ news
      ∧ List.Forall₂ (dgr_for es1.octs_buf.p) lines news := by
  intro lines
  induction lines with
  | nil =>
    intro es es1 g1 h hok
    simp only [esc_create_loop, Option.some.injEq, Prod.mk.injEq] at h
    obtain ⟨hg, he⟩ := h
    subst he
    exact ⟨hg.symm, rfl, hok, [], [], by simp, by simp, List.Forall₂.nil⟩
  | cons l rest ih =>
    intro es es1 g1 h hok
    obtain ⟨ch0, ch1, cp⟩ := l
    simp only [esc_create_loop] at h
    cases hd : esc_define u8_state_zero es ch0 ch1 cp with
    | none => rw [hd] at h; cases h
    | some r =>
      obtain ⟨ga, esa⟩ := r
      rw [hd] at h
      simp only at h
      obtain ⟨hga, hcp, hsc, bs, oi, henc, hp, hoka, hbuf, hL, hI, hesc⟩ :=
        esc_define_spec es esa ga ch0 ch1 cp hd hok
      subst hga
      obtain ⟨hg1, hesc1, hok1, extra, news, hp1, hb1, hf⟩ := ih esa es1 g1 h hoka
      refine ⟨hg1, by rw [hesc1, hesc], hok1, bs ++ extra,
        ⟨ch0, if ch1 = SP then NUL else ch1, oi⟩ :: news, ?_, ?_, ?_⟩
      · rw [hp1, hp, List.append_assoc]
      · rw [hb1, hbuf, List.append_assoc]; rfl
      · refine List.Forall₂.cons ?_ hf
        refine ⟨rfl, rfl, hL, hcp, hsc, bs, extra, henc, ?_⟩
        simp only
        rw [hI, hp1, hp, List.append_assoc, List.drop_left]

/-- What `esc_create` returns: the static state is zero again, the escape
character is the default, the table is the sorted list of the records of the
lines, and `defs` holds their encodings. -/
theorem esc_create_spec (lines : List (Nat × Nat × Int)) (g : u8_state) (es : esc_state_)
    (h : esc_create u8_state_zero lines = some (g, es)) :
    g = u8_state_zero ∧ es.escape = ESCAPE
    ∧ ∃ news, es.dgrs = qsort news ∧ List.Forall₂ (dgr_for es.defs) lines news := by
  unfold esc_create at h
  cases hl : esc_create_loop u8_state_zero esc_state_init lines with
  | none => rw [hl] at h; cases h
  | some r =>
    obtain ⟨ga, esa⟩ := r
    rw [hl] at h
    simp only [Option.some.injEq, Prod.mk.injEq] at h
    obtain ⟨hg, he⟩ := h
    obtain ⟨hg1, hesc1, _, extra, news, _, hb1, hf⟩ :=
      esc_create_loop_spec lines esc_state_init esa ga hl (by decide)
    subst he
    refine ⟨by rw [← hg, hg1], by simpa [esc_state_init] using hesc1, news, ?_, ?_⟩
    · simp only [hb1, esc_state_init, List.nil_append]
    · simpa [octetbuf_release] using hf


theorem cmpdgr_total (a b : dgr_) : cmpdgr a b ≤ 0 ∨ cmpdgr b a ≤ 0 := by
  unfold cmpdgr
  simp only
  split <;> split <;> omega

theorem cmpdgr_trans (a b c : dgr_) (h1 : cmpdgr a b ≤ 0) (h2 : cmpdgr b c ≤ 0) :
    cmpdgr a c ≤ 0 := by
  unfold cmpdgr at *
  simp only at *
  split at h1 <;> split at h2 <;> split <;> omega

theorem cmpdgr_lt_of_le (k a b : dgr_) (h1 : cmpdgr k a < 0) (h2 : cmpdgr a b ≤ 0) :
    cmpdgr k b < 0 := by
  unfold cmpdgr at *
  simp only at *
  split at h1 <;> split at h2 <;> split <;> omega

theorem cmpdgr_gt_of_le (k a b : dgr_) (h1 : cmpdgr k a > 0) (h2 : cmpdgr b a ≤ 0) :
    cmpdgr k b > 0 := by
  unfold cmpdgr at *
  simp only at *
  split at h1 <;> split at h2 <;> split <;> omega

theorem cmpdgr_eq_zero (a b : dgr_) :
    cmpdgr a b = 0 ↔ (a.ch0 % 256 = b.ch0 % 256 ∧ a.ch1 % 256 = b.ch1 % 256) := by
  unfold cmpdgr schar
  simp only
  constructor
  · intro h
    split at h <;> split at h <;> split at h <;> (try split at h) <;> (try split at h) <;> omega
  · intro ⟨h1, h2⟩
    rw [h1, h2]
    simp

theorem qsort_sorted (l : List dgr_) : (qsort l).Pairwise (fun a b => cmpdgr a b ≤ 0) :=
  @List.sorted_insertionSort dgr_ (fun a b => cmpdgr a b ≤ 0) _ ⟨cmpdgr_total⟩
    ⟨fun a b c => cmpdgr_trans a b c⟩ l

theorem mem_qsort (l : List dgr_) (x : dgr_) : x ∈ qsort l ↔ x ∈ l :=
  List.mem_insertionSort (fun a b => cmpdgr a b ≤ 0)

/-- The binary search on a sorted table: a record it returns is in the table
and compares equal to the key; when it returns NULL no record of the table
compares equal. -/
theorem bsearch_loop_spec (key : dgr_) (base : List dgr_)
    (hs : base.Pairwise (fun a b => cmpdgr a b ≤ 0)) :
    ∀ (fuel l u : Nat), u ≤ base.length → u - l < fuel →
      (∀ (i : Nat) (hi : i < base.length), i < l → cmpdgr key base[i] > 0) →
      (∀ (i : Nat) (hi : i < base.length), u ≤ i → cmpdgr key base[i] < 0) →
      (∀ e, bsearch_loop key base fuel l u = some e → e ∈ base ∧ cmpdgr key e = 0)
      ∧ (bsearch_loop key base fuel l u = none → ∀ e ∈ base, cmpdgr key e ≠ 0) := by
  rw [List.pairwise_iff_getElem] at hs
  intro fuel
  induction fuel with
  | zero => intro l u _ hf; omega
  | succ fuel ih =>
    intro l u hu hf hlo hhi
    unfold bsearch_loop
    by_cases hlu : l < u
    · rw [if_pos hlu]
      have hidx : (l + u) / 2 < base.length := by omega
      have hget : base.get? ((l + u) / 2) = some base[(l + u) / 2] := by
        rw [List.get?_eq_getElem?, List.getElem?_eq_getElem hidx]
      simp only [hget]
      by_cases hc1 : cmpdgr key base[(l + u) / 2] < 0
      · rw [if_pos hc1]
        apply ih l ((l + u) / 2) (by omega) (by omega) hlo
        intro i hi hge
        by_cases he : i = (l + u) / 2
        · subst he; exact hc1
        · exact cmpdgr_lt_of_le key _ _ hc1 (hs ((l + u) / 2) i hidx hi (by omega))
      · rw [if_neg hc1]
        by_cases hc2 : cmpdgr key base[(l + u) / 2] > 0
        · rw [if_pos hc2]
          apply ih ((l + u) / 2 + 1) u hu (by omega) _ hhi
          intro i hi hlt
          by_cases he : i = (l + u) / 2
          · subst he; exact hc2
          · exact cmpdgr_gt_of_le key _ _ hc2 (hs i ((l + u) / 2) hi hidx (by omega))
        · rw [if_neg hc2]
          constructor
          · intro e he
            cases he
            exact ⟨List.getElem_mem _, by omega⟩
          · intro h; cases h
    · rw [if_neg hlu]
      constructor
      · intro e h; cases h
      · intro _ e he
        obtain ⟨i, hi, rfl⟩ := List.getElem_of_mem he
        by_cases h1 : i < l
        · have := hlo i hi h1; omega
        · have := hhi i hi (by omega); omega

theorem bsearch_spec (key : dgr_) (base : List dgr_)
    (hs : base.Pairwise (fun a b => cmpdgr a b ≤ 0)) :
    (∀ e, bsearch key base = some e → e ∈ base ∧ cmpdgr key e = 0)
    ∧ (bsearch key base = none → ∀ e ∈ base, cmpdgr key e ≠ 0) := by
  unfold bsearch
  exact bsearch_loop_spec key base hs (base.length + 1) 0 base.length (Nat.le_refl _) (by omega)
    (fun i _ h => by omega) (fun i hi h => by omega)


theorem forall₂_left {α β : Type} {R : α → β → Prop} {as : List α} {bs : List β}
    (h : List.Forall₂ R as bs) : ∀ a ∈ as, ∃ b ∈ bs, R a b := by
  induction h with
  | nil => intro a ha; cases ha
  | cons hab _ ih =>
    intro a ha
    rcases List.mem_cons.mp ha with rfl | ha
    · exact ⟨_, List.mem_cons_self _ _, hab⟩
    · obtain ⟨b, hb, hr⟩ := ih a ha
      exact ⟨b, List.mem_cons_of_mem _ hb, hr⟩

theorem forall₂_right {α β : Type} {R : α → β → Prop} {as : List α} {bs : List β}
    (h : List.Forall₂ R as bs) : ∀ b ∈ bs, ∃ a ∈ as, R a b := by
  induction h with
  | nil => intro b hb; cases hb
  | cons hab _ ih =>
    intro b hb
    rcases List.mem_cons.mp hb with rfl | hb
    · exact ⟨_, List.mem_cons_self _ _, hab⟩
    · obtain ⟨a, ha, hr⟩ := ih b hb
      exact ⟨a, List.mem_cons_of_mem _ ha, hr⟩

/-- A lookup that finds a record which stands for a line with scalar `U`: the
static state stays zero, and unless `U` is 0 the encoding of `U` is copied
to the front of `buf` and its length is returned. -/
theorem esc_expand_found (es : esc_state_) (buf : List Nat) (ch0 ch1 : Nat) (d : dgr_)
    (l : Nat × Nat × Int) (hb : bsearch ⟨ch0, ch1, 0⟩ es.dgrs = some d)
    (hd : dgr_for es.defs l d) :
    ∃ bs, u8fc32 l.2.2 = some bs
      ∧ esc_expand u8_state_zero es buf ch0 ch1
        = some (u8_state_zero, (if l.2.2 = 0 then buf else bs ++ buf.drop bs.length),
            if l.2.2 = 0 then 0 else bs.length) := by
  obtain ⟨_, _, hL, hU, hsc, bs, rest, henc, hdrop⟩ := hd
  obtain ⟨bs2, henc2, hdec⟩ := u8tc32_u8fc32 l.2.2.toNat hsc
  have hcast : ((l.2.2.toNat : Nat) : Int) = l.2.2 := by omega
  rw [hcast, henc] at henc2
  cases henc2
  have hlen := u8fc32_length _ _ henc
  have h4 := hdec rest 4 (by omega)
  refine ⟨bs, henc, ?_⟩
  unfold esc_expand
  simp only [hb, hL, ne_eq, not_true_eq_false, if_false, hdrop, u8len, U8_LEN_MAX, h4,
    Option.map_some']
  by_cases h0 : l.2.2 = 0
  · have : l.2.2.toNat = 0 := by omega
    simp [h0, this]
  · have : ¬ l.2.2.toNat = 0 := by omega
    have hpos : bs.length > 0 := by omega
    have hnot : ¬ (bs.length > 4 ∨ (bs ++ rest).length < bs.length) := by
      simp only [List.length_append]; omega
    simp only [this, if_false, hpos, if_true, hnot, h0, List.take_left']

/-- On a table that `esc_create` built, every lookup returns, with the static
state zero again. -/
theorem esc_expand_total (es : esc_state_) (lines : List (Nat × Nat × Int))
    (hs : es.dgrs.Pairwise (fun a b => cmpdgr a b ≤ 0))
    (hall : ∀ d ∈ es.dgrs, ∃ l ∈ lines, dgr_for es.defs l d)
    (buf : List Nat) (ch0 ch1 : Nat) :
    ∃ buf1 r, esc_expand u8_state_zero es buf ch0 ch1 = some (u8_state_zero, buf1, r) := by
  cases hb : bsearch ⟨ch0, ch1, 0⟩ es.dgrs with
  | none => exact ⟨buf, SIZE_M1, by simp [esc_expand, hb]⟩
  | some d =>
    obtain ⟨hmem, _⟩ := (bsearch_spec ⟨ch0, ch1, 0⟩ es.dgrs hs).1 d hb
    obtain ⟨l, _, hd⟩ := hall d hmem
    obtain ⟨bs, _, he⟩ := esc_expand_found es buf ch0 ch1 d l hb hd
    exact ⟨_, _, he⟩

theorem IS646INV_lt (c : Nat) (h : IS646INV c = true) : c < 128 := by
  simp only [IS646INV, Bool.and_eq_true, decide_eq_true_eq] at h
  exact h.1.2

set_option maxRecDepth 100000 in
theorem IS646INV_small : ∀ c < 128, IS646INV c = true →
    32 < c ∧ c ≠ 92 ∧ c ≠ 123 := by
  decide

/-- From state ESCAPE, a member of the invariant class other than u, U and
the circumflex leads to state DGR. -/
theorem body_escape_dgr (esp : esc_state_) (v : bsubst_vars) (out : List Nat) (c1 : Nat)
    (hesc : esp.escape = ESCAPE) (hc : IS646INV c1 = true)
    (h1 : c1 ≠ ESC_BMP) (h2 : c1 ≠ ESC_UCS) (h3 : c1 ≠ ESC_DGR)
    (h : at_state v ST_ESCAPE [ESCAPE] out) :
    ∃ v1, esc_body esp { v with ch := c1 } = some v1 ∧ at_state v1 ST_DGR [ESCAPE, c1] out
      ∧ v1.g = v.g ∧ v1.u8seq2 = v.u8seq2 := by
  obtain ⟨st, seq, b1, b2, n1, n2, ch, dst, g⟩ := v
  obtain ⟨e1, e2, e3, e4⟩ := h
  simp only at e1 e2 e3 e4
  subst e1 e2 e3
  have hlt := IS646INV_lt c1 hc
  obtain ⟨f1, f2, f3⟩ := IS646INV_small c1 hlt hc
  have hm : c1 % 256 = c1 := by omega
  have hne0 : c1 ≠ 0 := by omega
  simp only [ESC_BMP, ESC_UCS, ESC_DGR] at h1 h2 h3
  have hce : ch_eq c1 92 = false := by
    simp only [ch_eq, schar]
    simp
    omega
  simp [esc_body, esc_switch, hesc, ESCAPE, ESC_BMP, ESC_UCS, ESC_GRPO, ESC_DGR, h1, h2, h3, f3,
    hce, hc, ISCMARK, strchr_found, CMARKC, hne0, seq_put, SEQMAX, esc_flush, at_state, e4]

theorem body_outside_escape_g (esp : esc_state_) (v : bsubst_vars) (out : List Nat)
    (hesc : esp.escape = ESCAPE) (h : at_state v ST_OUTSIDE [] out) :
    ∃ v1, esc_body esp { v with ch := ESCAPE } = some v1 ∧ at_state v1 ST_ESCAPE [ESCAPE] out
      ∧ v1.g = v.g ∧ v1.u8seq2 = v.u8seq2 := by
  obtain ⟨st, seq, b1, b2, n1, n2, ch, dst, g⟩ := v
  obtain ⟨h1, h2, h3, h4⟩ := h
  simp only at h1 h2 h3 h4
  subst h1 h2 h3
  simp [esc_body, esc_switch, hesc, ch_eq, schar, ESCAPE, seq_put, SEQMAX, esc_flush, at_state, h4]


/-- In state DGR with the first key octet `c1` collected, a second octet `c2`
of the invariant class whose two-character lookup yields the octets `bs`:
`bs` is all that reaches `dst`, and the scanner is in state OUTSIDE again. -/
theorem body_dgr_two (esp : esc_state_) (v : bsubst_vars) (out : List Nat) (c1 c2 : Nat)
    (bs buf1 : List Nat) (r1 : Nat)
    (hc1 : IS646INV c1 = true) (hc2 : IS646INV c2 = true) (h3 : c1 ≠ ESC_DGR)
    (hg : v.g = u8_state_zero)
    (he1 : esc_expand u8_state_zero esp v.u8seq1 c1 NUL = some (u8_state_zero, buf1, r1))
    (he2 : esc_expand u8_state_zero esp v.u8seq2 c1 c2
      = some (u8_state_zero, bs ++ v.u8seq2.drop bs.length, bs.length))
    (hlen : bs.length ≤ 4)
    (h : at_state v ST_DGR [ESCAPE, c1] out) :
    ∃ v1, esc_body esp { v with ch := c2 } = some v1
      ∧ at_state v1 ST_OUTSIDE [] (out ++ bs) := by
  obtain ⟨st, seq, b1, b2, n1, n2, ch, dst, g⟩ := v
  obtain ⟨e1, e2, e3, e4⟩ := h
  simp only at e1 e2 e3 e4 hg he1 he2
  subst e1 e2 e3 hg
  obtain ⟨p1, p2⟩ := octetbuf_push_back_p dst bs e4
  have hmod : bs.length % 2 ^ 32 = bs.length := Nat.mod_eq_of_lt (by omega)
  have hne : ¬ bs.length = UINT_M1 := by simp only [UINT_M1]; omega
  simp only [ESC_DGR] at h3
  have hcond : ¬ ¬ ((2 > 2 ∧ c1 = 94) ∨ (2 > 1 ∧ c1 ≠ 94)) := by
    simp only [not_not]; exact Or.inr ⟨by omega, h3⟩
  simp only [esc_body, esc_switch, esc_case_dgr, List.length_cons, List.length_nil,
    List.getD_cons_succ, List.getD_cons_zero, ESC_DGR, Nat.reduceAdd, hcond, if_false, SEQMAX,
    Nat.reduceLT, not_true_eq_false, Nat.add_one_sub_one, hc1, Bool.true_or, he1, hc2, if_true,
    he2, hmod, ne_eq, hne, not_false_eq_true, List.length_append, List.length_drop,
    List.take_left']
  have hl : ¬ (bs.length + (b2.length - bs.length) < bs.length) := by omega
  simp [hl, esc_flush, at_state, NUL, p1, p2]


/-- Every call of `esc_bsubst` that returns leaves `src` empty and returns 0:
the loop has no exit but `p == end`, so `octetbuf_shift(src, p - begin)`
drops the whole window, whatever state the scanner is in. -/
theorem esc_bsubst_src_empty (g : u8_state) (esp : esc_state_) (dst src : octetbuf)
    (r : bsubst_result) (h : esc_bsubst g esp dst src = some r) :
    r.src.p = [] ∧ r.ret = 0 := by
  unfold esc_bsubst at h
  rw [esc_loop_eq_run] at h
  cases hr : esc_run esp src.p (bsubst_vars_init g dst) with
  | none => rw [hr] at h; simp at h
  | some v1 =>
    rw [hr] at h
    simp [octetbuf_shift] at h
    subst h
    simp

/-! ## Lemmas on the attribute stack of md2doc.c -/

theorem cstr_append_nul (x r : List Nat) : cstr (x ++ 0 :: r) = cstr x := by
  induction x with
  | nil => simp [cstr]
  | cons a t ih =>
    unfold cstr at *
    simp only [List.cons_append, List.takeWhile_cons]
    split
    · rw [ih]
    · rfl

theorem cstr_idem (x : List Nat) : cstr (cstr x) = cstr x := by
  induction x with
  | nil => simp [cstr]
  | cons a t ih =>
    unfold cstr at *
    simp only [List.takeWhile_cons]
    split
    · rename_i h
      simp only [List.takeWhile_cons, h, if_true, ih]
    · rfl

theorem cstr_at_here (A x r : List Nat) :
    cstr_at (A ++ x ++ 0 :: r) A.length = some (cstr x) := by
  unfold cstr_at
  have h : List.drop A.length (A ++ x ++ 0 :: r) = x ++ 0 :: r := by
    rw [List.append_assoc, List.drop_left]
  rw [h, cstr_append_nul]
  simp

theorem cstr_at_lt (A : List Nat) (i : Nat) (v : List Nat) (h : cstr_at A i = some v) :
    i < A.length := by
  unfold cstr_at at h
  by_contra hc
  have : List.drop i A = [] := List.drop_eq_nil_of_le (by omega)
  simp [this] at h

theorem cstr_at_ext (A C : List Nat) (i : Nat) (v : List Nat) (h : cstr_at A i = some v) :
    cstr_at (A ++ C) i = some v := by
  have hi := cstr_at_lt A i v h
  unfold cstr_at at h ⊢
  by_cases hc : (List.drop i A).contains 0 = true
  · rw [if_pos hc] at h
    have hm : (0 : Nat) ∈ List.drop i A := by simpa using hc
    obtain ⟨x, r, hx⟩ := List.append_of_mem hm
    have hd : List.drop i (A ++ C) = x ++ 0 :: (r ++ C) := by
      rw [List.drop_append_of_le_length (by omega), hx]; simp
    rw [hd, cstr_append_nul]
    rw [hx, cstr_append_nul] at h
    simpa using h
  · rw [if_neg hc] at h
    cases h

theorem push_att_spec (s : att_stack) (an av : List Nat) (hok : octetbuf_ok s.attr_buf) :
    (push_att s an av).attr_buf.p = s.attr_buf.p ++ cstr an ++ 0 :: (av ++ [0])
      ∧ octetbuf_ok (push_att s an av).attr_buf
      ∧ (push_att s an av).nameidx_buf = s.nameidx_buf ++ [s.attr_buf.p.length]
      ∧ (push_att s an av).validx_buf
          = s.validx_buf ++ [s.attr_buf.p.length + (cstr an).length + 1] := by
  obtain ⟨p1, k1⟩ := octetbuf_push_back_p s.attr_buf (cstr an) hok
  obtain ⟨p2, k2⟩ := octetbuf_push_c_p _ 0 k1 (by decide)
  obtain ⟨p3, k3⟩ := octetbuf_push_back_p _ av k2
  obtain ⟨p4, k4⟩ := octetbuf_push_c_p _ 0 k3 (by decide)
  unfold push_att octetbuf_push_s NUL
  refine ⟨?_, k4, rfl, ?_⟩
  · simp only [p4, p3, p2, p1]; simp
  · simp only [p2, p1]; simp; omega

theorem get?_append_cons (l : List Nat) (a : Nat) (X : List Nat) :
    (l ++ [a] ++ X).get? l.length = some a := by
  induction l with
  | nil => rfl
  | cons b t ih => simpa using ih

theorem att_ext_refl (s : att_stack) : att_ext s s :=
  ⟨⟨[], by simp⟩, ⟨[], by simp⟩, ⟨[], by simp⟩⟩

theorem att_ext_trans (s t u : att_stack) (h1 : att_ext s t) (h2 : att_ext t u) : att_ext s u := by
  obtain ⟨⟨C, hC⟩, ⟨X, hX⟩, ⟨Y, hY⟩⟩ := h1
  obtain ⟨⟨C2, hC2⟩, ⟨X2, hX2⟩, ⟨Y2, hY2⟩⟩ := h2
  exact ⟨⟨C ++ C2, by rw [hC2, hC, List.append_assoc]⟩,
    ⟨X ++ X2, by rw [hX2, hX, List.append_assoc]⟩, ⟨Y ++ Y2, by rw [hY2, hY, List.append_assoc]⟩⟩

theorem att_ext_push (s : att_stack) (an av : List Nat) (hok : octetbuf_ok s.attr_buf) :
    att_ext s (push_att s an av) := by
  obtain ⟨h1, _, h3, h4⟩ := push_att_spec s an av hok
  exact ⟨⟨_, by rw [h1, List.append_assoc]⟩, ⟨_, h3⟩, ⟨_, h4⟩⟩

theorem att_ext_close (s : att_stack) (nt : Nat) : att_ext s (close_atts s nt) :=
  ⟨⟨[], by simp [close_atts]⟩, ⟨_, rfl⟩, ⟨_, rfl⟩⟩

theorem push_atts_snoc (s : att_stack) (attrs : List (List Nat × List Nat))
    (a : List Nat × List Nat) :
    push_atts s (attrs ++ [a]) = push_att (push_atts s attrs) a.1 a.2 := by
  simp [push_atts, List.foldl_append]

/-- What `push_att` keeps: the text fits its buffer and starts with the NUL,
the two arrays have the same length. -/
theorem push_atts_inv (s0 : att_stack) (hok : octetbuf_ok s0.attr_buf)
    (hhead : s0.attr_buf.p.head? = some 0)
    (hlen : s0.nameidx_buf.length = s0.validx_buf.length)
    (attrs : List (List Nat × List Nat)) :
    octetbuf_ok (push_atts s0 attrs).attr_buf
      ∧ (push_atts s0 attrs).attr_buf.p.head? = some 0
      ∧ (push_atts s0 attrs).nameidx_buf.length = (push_atts s0 attrs).validx_buf.length
      ∧ (push_atts s0 attrs).nameidx_buf.length = s0.nameidx_buf.length + attrs.length
      ∧ att_ext s0 (push_atts s0 attrs) := by
  induction attrs using List.reverseRecOn with
  | nil => exact ⟨hok, hhead, hlen, by simp [push_atts], att_ext_refl _⟩
  | append_singleton l a ih =>
    obtain ⟨i1, i2, i3, i4, i5⟩ := ih
    rw [push_atts_snoc]
    obtain ⟨h1, h2, h3, h4⟩ := push_att_spec (push_atts s0 l) a.1 a.2 i1
    refine ⟨h2, ?_, ?_, ?_, att_ext_trans _ _ _ i5 (att_ext_push _ _ _ i1)⟩
    · rw [h1, List.append_assoc, List.head?_append_of_ne_nil _ (by intro h; rw [h] at i2; cases i2)]
      exact i2
    · rw [h3, h4]; simp [i3]
    · rw [h3]; simp [i4]; omega

theorem head_of_ext (s t : att_stack) (h : att_ext s t) (hhead : s.attr_buf.p.head? = some 0) :
    t.attr_buf.p.head? = some 0 ∧ s.attr_buf.p.length ≤ t.attr_buf.p.length
      ∧ 0 < t.attr_buf.p.length := by
  obtain ⟨⟨C, hC⟩, _, _⟩ := h
  have hne : s.attr_buf.p ≠ [] := by intro h; rw [h] at hhead; cases hhead
  have hpos : 0 < s.attr_buf.p.length := List.length_pos.mpr hne
  rw [hC, List.head?_append_of_ne_nil _ hne]
  refine ⟨hhead, by simp, by simp; omega⟩

theorem cstr_at_zero (A : List Nat) (h : A.head? = some 0) : cstr_at A 0 = some [] := by
  cases A with
  | nil => cases h
  | cons a t =>
    simp only [List.head?_cons, Option.some.injEq] at h
    subst h
    simp [cstr_at, cstr]

/-- One round of the loop of `att_val` at an element that `push_att` wrote. -/
theorem att_val_loop_push (s t : att_stack) (an av name : List Nat) (depth : Nat)
    (hok : octetbuf_ok s.attr_buf) (hhead : s.attr_buf.p.head? = some 0)
    (hlen : s.nameidx_buf.length = s.validx_buf.length)
    (ht : att_ext (push_att s an av) t) :
    att_val_loop t name (s.nameidx_buf.length + 1) depth
      = if cstr an = cstr name then some (some (cstr av))
        else att_val_loop t name s.nameidx_buf.length depth := by
  obtain ⟨h1, h2, h3, h4⟩ := push_att_spec s an av hok
  obtain ⟨⟨C, hC⟩, ⟨X, hX⟩, ⟨Y, hY⟩⟩ := ht
  rw [h1] at hC
  rw [h3] at hX
  rw [h4] at hY
  have hne : s.attr_buf.p ≠ [] := by intro h; rw [h] at hhead; cases hhead
  have hpos : 0 < s.attr_buf.p.length := List.length_pos.mpr hne
  have gN : t.nameidx_buf.get? s.nameidx_buf.length = some s.attr_buf.p.length := by
    rw [hX]; exact get?_append_cons _ _ _
  have gV : t.validx_buf.get? s.nameidx_buf.length
      = some (s.attr_buf.p.length + (cstr an).length + 1) := by
    rw [hY, hlen]; exact get?_append_cons _ _ _
  have hL : t.attr_buf.p.length
      = s.attr_buf.p.length + (cstr an).length + 1 + av.length + 1 + C.length := by
    rw [hC]; simp; omega
  have cN : cstr_at t.attr_buf.p s.attr_buf.p.length = some (cstr an) := by
    rw [hC]
    have e : s.attr_buf.p ++ cstr an ++ 0 :: (av ++ [0]) ++ C
        = s.attr_buf.p ++ cstr an ++ 0 :: (av ++ [0] ++ C) := by simp
    rw [e, cstr_at_here, cstr_idem]
  have cV : cstr_at t.attr_buf.p (s.attr_buf.p.length + (cstr an).length + 1)
      = some (cstr av) := by
    rw [hC]
    have e : s.attr_buf.p ++ cstr an ++ 0 :: (av ++ [0]) ++ C
        = (s.attr_buf.p ++ cstr an ++ [0]) ++ av ++ 0 :: C := by simp
    have e2 : s.attr_buf.p.length + (cstr an).length + 1
        = (s.attr_buf.p ++ cstr an ++ [0]).length := by simp; omega
    rw [e, e2, cstr_at_here]
  rw [att_val_loop]
  simp only [gN, gV, cN, cV]
  have c1 : ¬ ¬ s.attr_buf.p.length < t.attr_buf.p.length := by omega
  have c2 : ¬ (s.attr_buf.p.length = NULLIDX ∧ depth = 0) := by
    unfold NULLIDX; omega
  have c3 : ¬ ¬ s.attr_buf.p.length + (cstr an).length + 1 < t.attr_buf.p.length := by omega
  have c4 : ¬ s.attr_buf.p.length = NULLIDX := by unfold NULLIDX; omega
  simp only [if_neg c1, if_neg c2, if_neg c3, if_neg c4, Option.map_some']

/-- One round of the loop of `att_val` at a sentinel. -/
theorem att_val_loop_sentinel (s t : att_stack) (nt : Nat) (name : List Nat) (depth : Nat)
    (hhead : s.attr_buf.p.head? = some 0)
    (hlen : s.nameidx_buf.length = s.validx_buf.length)
    (hnt : nt < s.attr_buf.p.length) (hname : cstr name ≠ [])
    (ht : att_ext (close_atts s nt) t) :
    att_val_loop t name (s.nameidx_buf.length + 1) depth
      = if depth = 0 then some none
        else att_val_loop t name s.nameidx_buf.length (depth - 1) := by
  obtain ⟨ht1, ht2, ht3⟩ := head_of_ext _ _ ht (by simpa [close_atts] using hhead)
  obtain ⟨⟨C, hC⟩, ⟨X, hX⟩, ⟨Y, hY⟩⟩ := ht
  have gN : t.nameidx_buf.get? s.nameidx_buf.length = some 0 := by
    rw [hX]; exact get?_append_cons _ _ _
  have gV : t.validx_buf.get? s.nameidx_buf.length = some nt := by
    rw [hY, hlen]; exact get?_append_cons _ _ _
  have cN := cstr_at_zero _ ht1
  have hL : nt < t.attr_buf.p.length := by
    simp only [close_atts] at ht2; omega
  rw [att_val_loop]
  simp only [gN, gV, cN]
  have c1 : ¬ ¬ 0 < t.attr_buf.p.length := by omega
  have c3 : ¬ ¬ nt < t.attr_buf.p.length := by omega
  have c5 : ¬ ([] : List Nat) = cstr name := fun h => hname h.symm
  by_cases hd : depth = 0
  · simp [hd, NULLIDX, ht3]
  · have c2 : ¬ (0 = NULLIDX ∧ depth = 0) := by omega
    have c4 : (0 = NULLIDX) := rfl
    simp only [if_neg c1, if_neg c2, if_neg c3, if_pos c4, if_neg c5, if_neg hd]

/-- The loop of `att_val` at the top of a stack between two elements, with
`depth` down to 0: nothing further is looked at. -/
theorem att_val_loop_bottom (s t : att_stack) (name : List Nat)
    (hhead : s.attr_buf.p.head? = some 0)
    (hcl : s.nameidx_buf = [] ∨ s.nameidx_buf.getLast? = some NULLIDX)
    (ht : att_ext s t) :
    att_val_loop t name s.nameidx_buf.length 0 = some none := by
  obtain ⟨_, _, ht3⟩ := head_of_ext _ _ ht hhead
  obtain ⟨_, ⟨X, hX⟩, _⟩ := ht
  rcases hcl with h | h
  · rw [h]; rfl
  · obtain ⟨l, hl⟩ : ∃ l, s.nameidx_buf = l ++ [NULLIDX] := by
      rcases List.eq_nil_or_concat s.nameidx_buf with h0 | ⟨l, b, hb⟩
      · rw [h0] at h; cases h
      · rw [hb] at h
        simp at h
        exact ⟨l, by rw [hb, h]; simp⟩
    have gN : t.nameidx_buf.get? l.length = some 0 := by
      rw [hX, hl]; exact get?_append_cons _ _ _
    rw [hl]
    simp only [List.length_append, List.length_singleton]
    rw [att_val_loop]
    simp only [gN]
    simp [NULLIDX, ht3]

theorem frame_val_snoc (attrs : List (List Nat × List Nat)) (a : List Nat × List Nat)
    (name : List Nat) :
    frame_val (attrs ++ [a]) name
      = if cstr a.1 = cstr name then some (cstr a.2) else frame_val attrs name := by
  unfold frame_val
  rw [List.reverse_append]
  simp only [List.reverse_cons, List.reverse_nil, List.nil_append, List.singleton_append,
    List.find?_cons]
  by_cases h : cstr a.1 = cstr name
  · simp [h]
  · have hb : (cstr a.1 == cstr name) = false := by simpa using h
    simp only [hb, if_neg h]

/-- The loop of `att_val` over the elements of one frame. -/
theorem att_val_loop_frame (s0 : att_stack) (name : List Nat) (hok : octetbuf_ok s0.attr_buf)
    (hhead : s0.attr_buf.p.head? = some 0)
    (hlen : s0.nameidx_buf.length = s0.validx_buf.length)
    (attrs : List (List Nat × List Nat)) :
    ∀ (t : att_stack) (depth : Nat), att_ext (push_atts s0 attrs) t →
      att_val_loop t name (s0.nameidx_buf.length + attrs.length) depth
        = match frame_val attrs name with
          | some v => some (some v)
          | none => att_val_loop t name s0.nameidx_buf.length depth := by
  induction attrs using List.reverseRecOn with
  | nil => intro t depth _; simp [frame_val]
  | append_singleton l a ih =>
    intro t depth ht
    obtain ⟨i1, i2, i3, i4, i5⟩ := push_atts_inv s0 hok hhead hlen l
    rw [push_atts_snoc] at ht
    have e : s0.nameidx_buf.length + (l ++ [a]).length
        = (push_atts s0 l).nameidx_buf.length + 1 := by
      rw [i4]; simp; omega
    rw [e, att_val_loop_push _ t a.1 a.2 name depth i1 i2 i3 ht, frame_val_snoc, i4]
    by_cases h : cstr a.1 = cstr name
    · simp [h]
    · simp only [if_neg h]
      exact ih t depth (att_ext_trans _ _ _ (att_ext_push _ _ _ i1) ht)

theorem att_val_frame (s0 : att_stack) (attrs : List (List Nat × List Nat)) (nt : Nat)
    (name : List Nat) (depth : Nat) (t : att_stack)
    (hok : octetbuf_ok s0.attr_buf) (hhead : s0.attr_buf.p.head? = some 0)
    (hlen : s0.nameidx_buf.length = s0.validx_buf.length)
    (hnt : nt < (push_atts s0 attrs).attr_buf.p.length) (hname : cstr name ≠ [])
    (ht : att_ext (close_atts (push_atts s0 attrs) nt) t) :
    att_val_loop t name (s0.nameidx_buf.length + attrs.length + 1) (depth + 1)
      = match frame_val attrs name with
        | some v => some (some v)
        | none => att_val_loop t name s0.nameidx_buf.length depth := by
  obtain ⟨i1, i2, i3, i4, i5⟩ := push_atts_inv s0 hok hhead hlen attrs
  rw [← i4, att_val_loop_sentinel _ t nt name (depth + 1) i2 i3 hnt hname ht]
  have hd : ¬ depth + 1 = 0 := by omega
  rw [if_neg hd, i4]
  exact att_val_loop_frame s0 name hok hhead hlen attrs t _
    (att_ext_trans _ _ _ (att_ext_close _ nt) ht)

theorem att_val_top (s : att_stack) (nt : Nat) (name : List Nat) (depth : Nat) :
    att_val (close_atts s nt) name (depth + 1)
      = att_val_loop (close_atts s nt) name (s.nameidx_buf.length + 1) (depth + 1) := by
  unfold att_val NATTR
  have e : (close_atts s nt).nameidx_buf.length = s.nameidx_buf.length + 1 := by
    simp [close_atts]
  have g : (close_atts s nt).nameidx_buf.get? (s.nameidx_buf.length + 1 - 1) = some NULLIDX := by
    simp only [Nat.add_sub_cancel]
    simp [close_atts]
  rw [e, g]
  simp

theorem att_val_loop_congr (s t : att_stack) (name : List Nat) (hp : t.attr_buf.p = s.attr_buf.p)
    (hn : t.nameidx_buf = s.nameidx_buf) (hv : t.validx_buf = s.validx_buf) :
    ∀ (idx depth : Nat), att_val_loop t name idx depth = att_val_loop s name idx depth := by
  intro idx
  induction idx with
  | zero => intro depth; rfl
  | succ n ih =>
    intro depth
    rw [att_val_loop, att_val_loop, hp, hn, hv]
    simp only [ih]

theorem att_val_congr (s t : att_stack) (name : List Nat) (depth : Nat)
    (hp : t.attr_buf.p = s.attr_buf.p)
    (hn : t.nameidx_buf = s.nameidx_buf) (hv : t.validx_buf = s.validx_buf) :
    att_val t name depth = att_val s name depth := by
  unfold att_val NATTR
  rw [hn, att_val_loop_congr s t name hp hn hv]

theorem dropLast_append_one (l : List Nat) (a : Nat) : (l ++ [a]).dropLast = l := by
  simp

theorem getLast_sentinel (N : List Nat) (h : N.getLast? = some NULLIDX) :
    N.length > 0 ∧ N.get? (N.length - 1) = some NULLIDX := by
  rcases List.eq_nil_or_concat N with h0 | ⟨l, b, hb⟩
  · rw [h0] at h; cases h
  · rw [hb] at h ⊢
    simp at h
    subst h
    refine ⟨by simp, ?_⟩
    simp only [List.concat_eq_append, List.length_append, List.length_singleton,
      Nat.add_sub_cancel]
    simp

/-- One round of the loop of `pop_atts` at an element whose name offset `n`
lies inside the text. -/
theorem pop_atts_loop_round (fuel : Nat) (p : List Nat) (c : Nat) (N V : List Nat) (n v : Nat)
    (hn : n ≤ p.length) :
    pop_atts_loop (fuel + 1) ⟨⟨p, c⟩, N ++ [n], V ++ [v]⟩ N.length n
      = if N.length > 0 then
          match N.get? (N.length - 1) with
          | none => none
          | some n1 =>
            if n1 ≠ NULLIDX then
              pop_atts_loop fuel ⟨if n ≠ NULLIDX then ⟨p.take n, c⟩ else ⟨p, c⟩, N, V⟩
                (N.length - 1) n1
            else some ⟨if n ≠ NULLIDX then ⟨p.take n, c⟩ else ⟨p, c⟩, N, V⟩
        else some ⟨if n ≠ NULLIDX then ⟨p.take n, c⟩ else ⟨p, c⟩, N, V⟩ := by
  rw [pop_atts_loop]
  have c0 : ¬ ((N ++ [n]).length = 0 ∨ (V ++ [v]).length = 0) := by simp
  have c2 : ¬ (n ≠ NULLIDX ∧ p.length < n) := by omega
  simp only [if_neg c0, dropLast_append_one, NATTR, ne_eq, not_true_eq_false, if_false, if_neg c2]
  by_cases h0 : n = NULLIDX
  · simp only [h0, not_true_eq_false, if_false]
  · simp only [h0, not_false_eq_true, if_true]

/-- The rounds of the loop of `pop_atts` that take the attributes of one frame
away, entered at the attribute pushed last. -/
theorem pop_atts_loop_frame (s0 : att_stack) (hok : octetbuf_ok s0.attr_buf)
    (hhead : s0.attr_buf.p.head? = some 0)
    (hlen : s0.nameidx_buf.length = s0.validx_buf.length)
    (hcl : s0.nameidx_buf = [] ∨ s0.nameidx_buf.getLast? = some NULLIDX)
    (attrs : List (List Nat × List Nat)) :
    ∀ (a : List Nat × List Nat) (fuel : Nat) (c : Nat) (C : List Nat),
      attrs.length + 1 ≤ fuel →
      pop_atts_loop fuel
          ⟨⟨(push_atts s0 (attrs ++ [a])).attr_buf.p ++ C, c⟩,
            (push_atts s0 (attrs ++ [a])).nameidx_buf, (push_atts s0 (attrs ++ [a])).validx_buf⟩
          (s0.nameidx_buf.length + attrs.length) (push_atts s0 attrs).attr_buf.p.length
        = some { attr_buf := ⟨s0.attr_buf.p, c⟩, nameidx_buf := s0.nameidx_buf,
                 validx_buf := s0.validx_buf } := by
  induction attrs using List.reverseRecOn with
  | nil =>
    intro a fuel c C hf
    obtain ⟨fuel, rfl⟩ : ∃ f, fuel = f + 1 := ⟨fuel - 1, by omega⟩
    obtain ⟨h1, h2, h3, h4⟩ := push_att_spec s0 a.1 a.2 hok
    have hne : s0.attr_buf.p ≠ [] := by intro h; rw [h] at hhead; cases hhead
    have hpos : 0 < s0.attr_buf.p.length := List.length_pos.mpr hne
    have c3 : s0.attr_buf.p.length ≠ NULLIDX := by unfold NULLIDX; omega
    simp only [List.nil_append, push_atts, List.foldl_cons, List.foldl_nil, List.length_nil,
      Nat.add_zero]
    rw [h1, h3, h4, pop_atts_loop_round _ _ _ _ _ _ _ (by simp)]
    have tk : List.take s0.attr_buf.p.length (s0.attr_buf.p ++ cstr a.1 ++ 0 :: (a.2 ++ [0]) ++ C)
        = s0.attr_buf.p := by
      rw [List.append_assoc, List.append_assoc, List.take_left']
      rfl
    rw [tk, if_pos c3]
    rcases hcl with h | h
    · have : ¬ s0.nameidx_buf.length > 0 := by rw [h]; simp
      rw [if_neg this]
    · obtain ⟨hp, g⟩ := getLast_sentinel _ h
      rw [if_pos hp, g]
      simp
  | append_singleton l b ih =>
    intro a fuel c C hf
    obtain ⟨fuel, rfl⟩ : ∃ f, fuel = f + 1 := ⟨fuel - 1, by omega⟩
    obtain ⟨i1, i2, i3, i4, i5⟩ := push_atts_inv s0 hok hhead hlen (l ++ [b])
    obtain ⟨j1, j2, j3, j4, j5⟩ := push_atts_inv s0 hok hhead hlen l
    obtain ⟨h1, h2, h3, h4⟩ := push_att_spec (push_atts s0 (l ++ [b])) a.1 a.2 i1
    obtain ⟨k1, k2, k3, k4⟩ := push_att_spec (push_atts s0 l) b.1 b.2 j1
    have hne : (push_atts s0 (l ++ [b])).attr_buf.p ≠ [] := by
      intro h; rw [h] at i2; cases i2
    have hpos : 0 < (push_atts s0 (l ++ [b])).attr_buf.p.length := List.length_pos.mpr hne
    have hne2 : (push_atts s0 l).attr_buf.p ≠ [] := by
      intro h; rw [h] at j2; cases j2
    have hpos2 : 0 < (push_atts s0 l).attr_buf.p.length := List.length_pos.mpr hne2
    have c3 : (push_atts s0 (l ++ [b])).attr_buf.p.length ≠ NULLIDX := by unfold NULLIDX; omega
    have c4 : (push_atts s0 l).attr_buf.p.length ≠ NULLIDX := by unfold NULLIDX; omega
    rw [push_atts_snoc s0 (l ++ [b]) a, h1, h3, h4, ← i4,
      pop_atts_loop_round _ _ _ _ _ _ _ (by simp)]
    have tk : List.take (push_atts s0 (l ++ [b])).attr_buf.p.length
        ((push_atts s0 (l ++ [b])).attr_buf.p ++ cstr a.1 ++ 0 :: (a.2 ++ [0]) ++ C)
        = (push_atts s0 (l ++ [b])).attr_buf.p := by
      rw [List.append_assoc, List.append_assoc, List.take_left']
      rfl
    rw [tk, if_pos c3]
    have hp : (push_atts s0 (l ++ [b])).nameidx_buf.length > 0 := by rw [i4]; simp
    have e : (push_atts s0 (l ++ [b])).nameidx_buf.length - 1 = s0.nameidx_buf.length + l.length := by
      rw [i4]; simp
    have g : (push_atts s0 (l ++ [b])).nameidx_buf.get? (s0.nameidx_buf.length + l.length)
        = some (push_atts s0 l).attr_buf.p.length := by
      rw [push_atts_snoc, k3, ← j4]
      simp
    rw [if_pos hp, e, g]
    simp only [if_pos c4]
    have := ih b fuel c [] (by simp at hf; omega)
    simpa using this

theorem pop_atts_top (p : List Nat) (c : Nat) (N V : List Nat) (nt : Nat) :
    pop_atts ⟨⟨p, c⟩, N ++ [NULLIDX], V ++ [nt]⟩
      = pop_atts_loop (N.length + 1) ⟨⟨p, c⟩, N ++ [NULLIDX], V ++ [nt]⟩ N.length NULLIDX := by
  unfold pop_atts NATTR
  have g : (N ++ [NULLIDX]).get? ((N ++ [NULLIDX]).length - 1) = some NULLIDX := by simp
  have hp : (N ++ [NULLIDX]).length > 0 := by simp
  simp only [g, if_pos hp, ne_eq, not_true_eq_false, if_false]
  simp

/-! ## Lemmas on the rules of md2doc.c -/

theorem att_val_one_frame (s0 : att_stack) (attrs : List (List Nat × List Nat)) (nt : Nat)
    (name : List Nat) (hs : att_stack_closed s0)
    (hnt : nt < (push_atts s0 attrs).attr_buf.p.length) (hname : cstr name ≠ []) :
    att_val (close_atts (push_atts s0 attrs) nt) name 1 = some (frame_val attrs name) := by
  obtain ⟨hok, hhead, hlen, hcl⟩ := hs
  obtain ⟨i1, i2, i3, i4, i5⟩ := push_atts_inv s0 hok hhead hlen attrs
  rw [att_val_top, i4,
    att_val_frame s0 attrs nt name 0 _ hok hhead hlen hnt hname (att_ext_refl _),
    att_val_loop_bottom s0 _ name hhead hcl (att_ext_trans _ _ _ i5 (att_ext_close _ nt))]
  cases frame_val attrs name <;> rfl

theorem cstr_of_cstr_at (text : List Nat) (i : Nat) (v : List Nat) (h : cstr_at text i = some v) :
    cstr v = v := by
  unfold cstr_at at h
  split at h
  · cases h
    exact cstr_idem _
  · cases h

/-- The inner loop of `select_rule` against the predicates of the selector. -/
theorem select_rule_atts_spec (text : List Nat) (s0 : att_stack)
    (attrs : List (List Nat × List Nat)) (nt : Nat) (hs : att_stack_closed s0)
    (hnt : nt < (push_atts s0 attrs).attr_buf.p.length) :
    ∀ (n : Nat) (atts : List Nat) (ps : List (List Nat × Option (List Nat))),
      atts.length ≤ n →
      sel_preds text atts = some ps → ps.all (fun p => p.1 != []) = true →
      select_rule_atts text (close_atts (push_atts s0 attrs) nt) atts
        = some (ps.all (pred_matches attrs)) := by
  intro n
  induction n with
  | zero =>
    intro atts ps hl h _
    have : atts = [] := List.length_eq_zero.mp (by omega)
    subst this
    simp [sel_preds] at h
  | succ n ih =>
    intro atts ps hl h hne
    match atts, h, hl with
    | [], h, _ => simp [sel_preds] at h
    | [ai], h, _ =>
      unfold sel_preds at h
      unfold select_rule_atts
      split at h
      · rename_i h0
        cases h
        simp [h0]
      · cases h
    | ai :: vi :: rest, h, hl =>
      unfold sel_preds at h
      unfold select_rule_atts
      by_cases h0 : ai = NULLIDX
      · rw [if_pos h0] at h
        cases h
        simp [h0]
      · rw [if_neg h0] at h ⊢
        cases hn : cstr_at text ai with
        | none => rw [hn] at h; cases h
        | some name =>
          rw [hn] at h
          simp only at h ⊢
          cases hv : (if vi ≠ NULLIDX then (cstr_at text vi).map some else some none) with
          | none => rw [hv] at h; cases h
          | some val =>
            rw [hv] at h
            simp only at h
            cases hr : sel_preds text rest with
            | none => rw [hr] at h; cases h
            | some ps1 =>
              rw [hr] at h
              simp only [Option.some.injEq] at h
              subst h
              simp only [List.all_cons, Bool.and_eq_true, bne_iff_ne, ne_eq] at hne
              have hc : cstr name ≠ [] := by
                rw [cstr_of_cstr_at text ai name hn]; exact hne.1
              rw [att_val_one_frame s0 attrs nt name hs hnt hc]
              have ih1 := ih rest ps1 (by simp at hl; omega) hr hne.2
              simp only
              rw [ih1]
              cases val with
              | none =>
                cases hf : frame_val attrs name with
                | none => simp [pred_matches, hf]
                | some w => simp [pred_matches, hf]
              | some sv =>
                cases hf : frame_val attrs name with
                | none => simp [pred_matches, hf]
                | some w =>
                  by_cases hw : w = sv
                  · simp [pred_matches, hf, hw]
                  · simp [pred_matches, hf, hw]

/-- The outer loop of `select_rule`: the first rule of the list that matches. -/
theorem select_rule_loop_spec (text : List Nat) (s0 : att_stack)
    (attrs : List (List Nat × List Nat)) (nt : Nat) (hs : att_stack_closed s0)
    (hnt : nt < (push_atts s0 attrs).attr_buf.p.length) :
    ∀ (rules : List repl_), (∀ r ∈ rules, rule_wf text r = true) →
      select_rule_loop text (close_atts (push_atts s0 attrs) nt) rules
        = some (rules.find? (rule_matches text attrs)) := by
  intro rules
  induction rules with
  | nil => intro _; rfl
  | cons r rest ih =>
    intro hwf
    have hr := hwf r (by simp)
    unfold rule_wf at hr
    cases hp : sel_preds text r.taginfo.atts with
    | none => rw [hp] at hr; cases hr
    | some ps =>
      rw [hp] at hr
      simp only at hr
      have h1 := select_rule_atts_spec text s0 attrs nt hs hnt _ r.taginfo.atts ps (le_refl _) hp hr
      unfold select_rule_loop
      rw [h1]
      have hm : rule_matches text attrs r = ps.all (pred_matches attrs) := by
        unfold rule_matches; rw [hp]
      rw [List.find?_cons, hm]
      cases hb : ps.all (pred_matches attrs) with
      | true => rfl
      | false =>
        simp only
        exact ih (fun x hx => hwf x (by simp [hx]))

/-- The function `set_repl` for a selector without predicates: the call
returns and the new record is the head of the list of its node type. -/
theorem set_repl_no_preds (rs : repl_state) (pti : taginfo_) (r0 r1 : Option (List Nat))
    (cd : Bool) (hnt : pti.nt < NODE_NUM) (h0 : pti.atts.head? = some NULLIDX) :
    ∃ rs1, set_repl rs pti r0 r1 cd = some rs1
      ∧ rs1.repl_tab pti.nt = ⟨pti, r0, r1, cd⟩ :: rs.repl_tab pti.nt
      ∧ rs1.text_buf = rs.text_buf := by
  have hl : set_repl_loop rs.text_buf.p rs.notations pti.atts = some rs.notations := by
    match hm : pti.atts, h0 with
    | [], h => simp at h
    | [ai], h =>
      simp only [List.head?_cons, Option.some.injEq] at h
      simp [set_repl_loop, h, NULLIDX]
    | ai :: vi :: rest, h =>
      simp only [List.head?_cons, Option.some.injEq] at h
      simp [set_repl_loop, h, NULLIDX]
  unfold set_repl
  have c : ¬ ¬ pti.nt < NODE_NUM := by omega
  simp only [if_neg c, hl]
  by_cases hm : pti.nt = NODE_MARKUP
  · rw [if_pos hm]
    exact ⟨_, rfl, by simp, rfl⟩
  · rw [if_neg hm]
    exact ⟨_, rfl, by simp, rfl⟩

theorem select_rule_atts_no_preds (text : List Nat) (s : att_stack) (atts : List Nat)
    (h0 : atts.head? = some NULLIDX) : select_rule_atts text s atts = some true := by
  match atts, h0 with
  | [], h => simp at h
  | [ai], h =>
    simp only [List.head?_cons, Option.some.injEq] at h
    simp [select_rule_atts, h]
  | ai :: vi :: rest, h =>
    simp only [List.head?_cons, Option.some.injEq] at h
    simp [select_rule_atts, h]

/-! ## Lemmas on sequences of calls of octetbuf.c -/

theorem octetbuf_push_c_mod (o : octetbuf) (c : Nat) (h : octetbuf_ok o) :
    (octetbuf_push_c o c).1.p = o.p ++ [c % 256] ∧ octetbuf_ok (octetbuf_push_c o c).1 := by
  have h1 := octetbuf_push_c_p o (c % 256) h (Nat.mod_lt _ (by decide))
  have e : octetbuf_push_c o (c % 256) = octetbuf_push_c o c := by
    unfold octetbuf_push_c
    simp
  rw [e] at h1
  exact h1

theorem octetbuf_reserve_p (o : octetbuf) (c : Nat) (h : octetbuf_ok o) :
    (octetbuf_reserve o c).p = o.p ∧ octetbuf_ok (octetbuf_reserve o c) := by
  unfold octetbuf_ok at *
  unfold octetbuf_reserve
  by_cases hc : c > o.c
  · rw [if_pos hc]
    exact ⟨grow_p o c (by omega), by rw [grow_p o c (by omega)]; have := grow_ok o c hc; omega⟩
  · rw [if_neg hc]
    exact ⟨rfl, h⟩

theorem octetbuf_apply_p (o : octetbuf) (op : octetbuf_op) (h : octetbuf_ok o) :
    (∃ t, (octetbuf_apply o op).p = o.p ++ t) ∧ octetbuf_ok (octetbuf_apply o op) := by
  cases op with
  | push_back bs =>
    obtain ⟨h1, h2⟩ := octetbuf_push_back_p o bs h
    exact ⟨⟨bs, h1⟩, h2⟩
  | push_c c =>
    obtain ⟨h1, h2⟩ := octetbuf_push_c_mod o c h
    exact ⟨⟨[c % 256], h1⟩, h2⟩
  | reserve c =>
    obtain ⟨h1, h2⟩ := octetbuf_reserve_p o c h
    exact ⟨⟨[], by simpa using h1⟩, h2⟩

theorem octetbuf_calls_p (ops : List octetbuf_op) :
    ∀ (o : octetbuf), octetbuf_ok o →
      (∃ t, (octetbuf_calls o ops).p = o.p ++ t) ∧ octetbuf_ok (octetbuf_calls o ops) := by
  induction ops with
  | nil => intro o h; exact ⟨⟨[], by simp [octetbuf_calls]⟩, h⟩
  | cons op rest ih =>
    intro o h
    obtain ⟨⟨t1, h1⟩, k1⟩ := octetbuf_apply_p o op h
    obtain ⟨⟨t2, h2⟩, k2⟩ := ih (octetbuf_apply o op) k1
    refine ⟨⟨t1 ++ t2, ?_⟩, k2⟩
    have e : octetbuf_calls o (op :: rest) = octetbuf_calls (octetbuf_apply o op) rest := rfl
    rw [e, h2, h1, List.append_assoc]

/-! ## Lemmas on the output and the parser of md2doc.c -/

theorem at_line_start_snoc (out : List Nat) (b : Nat) :
    at_line_start (out ++ [b]) = (b == EOL) := by
  simp [at_line_start]

/-- The loop of `put_repl` over a text without NUL and without `SO`, up to the
NUL behind it. -/
theorem put_repl_loop_plain (s : att_stack) (junk : List Nat) :
    ∀ (t : List Nat) (fuel : Nat) (o : out_state),
      (∀ b ∈ t, b ≠ NUL ∧ b ≠ SO) → t.length < fuel → o.outbol = at_line_start o.out →
      put_repl_loop s fuel o (t ++ NUL :: junk)
        = some (some ⟨put_repl_spec o.out t, at_line_start (put_repl_spec o.out t)⟩) := by
  intro t
  induction t with
  | nil =>
    intro fuel o _ hf hinv
    obtain ⟨fuel, rfl⟩ : ∃ f, fuel = f + 1 := ⟨fuel - 1, by simp at hf; omega⟩
    simp only [List.nil_append, put_repl_loop, if_true, put_repl_spec]
    rw [← hinv]
  | cons b t ih =>
    intro fuel o ht hf hinv
    obtain ⟨fuel, rfl⟩ : ∃ f, fuel = f + 1 := ⟨fuel - 1, by simp at hf; omega⟩
    obtain ⟨hb0, hbs⟩ := ht b (by simp)
    have ht' : ∀ x ∈ t, x ≠ NUL ∧ x ≠ SO := fun x hx => ht x (by simp [hx])
    have hf' : t.length < fuel := by simp at hf; omega
    simp only [List.cons_append, put_repl_loop, if_neg hb0, if_neg hbs]
    by_cases hv : b = VT
    · simp only [if_pos hv, put_repl_spec]
      rw [hinv]
      cases hl : at_line_start o.out with
      | true =>
        simp only [Bool.not_true, Bool.false_eq_true, if_false, if_true]
        exact ih fuel o ht' hf' (by rw [hinv, hl])
      | false =>
        simp only [Bool.not_false, if_true, Bool.false_eq_true, if_false]
        have := ih fuel (PUTC o EOL) ht' hf' (by simp [PUTC, at_line_start_snoc])
        simpa [PUTC] using this
    · simp only [if_neg hv, put_repl_spec]
      have := ih fuel (PUTC o b) ht' hf' (by simp [PUTC, at_line_start_snoc])
      simpa [PUTC] using this

theorem foldl_PUTC_out (text : List Nat) :
    ∀ o : out_state, (text.foldl PUTC o).out = o.out ++ text := by
  induction text with
  | nil => intro o; simp
  | cons b t ih => intro o; simp [List.foldl_cons, ih, PUTC]

/-- What `repl_Start` leaves when it returns: the stack closed with the node
type, and the flag `is_cdata` as the rule selected and the node type say. -/
theorem repl_Start_spec (rs : repl_state) (st st1 : repl_run) (nt : Nat)
    (h : repl_Start rs st nt = some st1) :
    st1.atts = close_atts st.atts nt
      ∧ (nt = CMARK_NODE_HTML_BLOCK ∨ nt = CMARK_NODE_HTML_INLINE → st1.is_cdata = true)
      ∧ (∀ rp, nt ≠ CMARK_NODE_NONE → select_rule rs (close_atts st.atts nt) nt = some (some rp) →
          rp.is_cdata = true → st1.is_cdata = true) := by
  unfold repl_Start at h
  by_cases h0 : nt ≠ CMARK_NODE_NONE
  · rw [if_pos h0] at h
    by_cases hn : ¬ nt < NODE_NUM
    · rw [if_pos hn] at h; cases h
    · rw [if_neg hn] at h
      cases hsel : select_rule rs (close_atts st.atts nt) nt with
      | none => rw [hsel] at h; cases h
      | some r =>
        rw [hsel] at h
        cases r with
        | none =>
          simp only [Option.some.injEq] at h
          subst h
          refine ⟨rfl, ?_, ?_⟩
          · intro hh; rcases hh with hh | hh <;> simp [hh]
          · intro rp _ hc; cases hc
        | some rp0 =>
          simp only at h
          cases hr : rp0.repl0 with
          | none =>
            rw [hr] at h
            simp only [Option.some.injEq] at h
            subst h
            refine ⟨rfl, ?_, ?_⟩
            · intro hh; rcases hh with hh | hh <;> simp [hh]
            · intro rp _ hc hcd
              simp only [Option.some.injEq] at hc
              subst hc
              simp [hcd]
          | some repl =>
            rw [hr] at h
            simp only at h
            cases hp : put_repl (close_atts st.atts nt) st.o (repl ++ [NUL]) with
            | none => rw [hp] at h; cases h
            | some q =>
              rw [hp] at h
              cases q with
              | none => cases h
              | some o1 =>
                simp only [Option.some.injEq] at h
                subst h
                refine ⟨rfl, ?_, ?_⟩
                · intro hh; rcases hh with hh | hh <;> simp [hh]
                · intro rp _ hc hcd
                  simp only [Option.some.injEq] at hc
                  subst hc
                  simp [hcd]
  · rw [if_neg h0] at h
    simp only [Option.some.injEq] at h
    subst h
    refine ⟨rfl, ?_, ?_⟩
    · intro hh; rcases hh with hh | hh <;> simp [hh]
    · intro rp hne; exact absurd hne h0

/-- Text events on a stack with an open element and `is_cdata` set: the texts
are written as they are, nothing else changes. -/
theorem repl_events_cdata (rs : repl_state) (esc : List Nat → List Nat) :
    ∀ (texts : List (List Nat)) (st : repl_run), st.is_cdata = true → 0 < NATTR st.atts →
      st.atts.nameidx_buf.length = st.atts.validx_buf.length →
      ∃ st2, repl_events rs esc st (texts.map esis_event.cdata) = some st2
        ∧ st2.o.out = st.o.out ++ texts.flatten ∧ st2.is_cdata = true ∧ st2.atts = st.atts := by
  intro texts
  induction texts with
  | nil => intro st hcd _ _; exact ⟨st, rfl, by simp, hcd, rfl⟩
  | cons t rest ih =>
    intro st hcd hn hlen
    have hcur : ∃ v, current_nt st.atts = some v := by
      unfold current_nt
      have h0 : ¬ NATTR st.atts = 0 := by omega
      rw [if_neg h0]
      have hlt : NATTR st.atts - 1 < st.atts.validx_buf.length := by
        unfold NATTR at *; omega
      exact ⟨_, List.get?_eq_get hlt⟩
    obtain ⟨v, hv⟩ := hcur
    have hstep : repl_event rs esc st (esis_event.cdata t)
        = some { st with o := t.foldl PUTC st.o } := by
      simp [repl_event, repl_Cdata, hv, hcd]
    obtain ⟨st2, e2, o2, c2, a2⟩ := ih { st with o := t.foldl PUTC st.o } hcd hn hlen
    refine ⟨st2, ?_, ?_, c2, a2⟩
    · simp only [List.map_cons, repl_events, hstep]
      exact e2
    · rw [o2]
      simp [foldl_PUTC_out]

/-- At the end of the input, with a delimiter that is a character, the loop of
`P_string` never ends: `getc` returns `EOF` again, which is neither the
delimiter nor NUL. -/
theorem P_string_loop_eof (delim : Int) (is_repl : Bool) (hd : delim ≠ EOF) :
    ∀ (fuel : Nat) (buf : octetbuf),
      P_string_loop delim is_repl fuel EOF buf ⟨[], []⟩ = outcome.more := by
  intro fuel
  induction fuel with
  | zero => intro buf; rfl
  | succ n ih =>
    intro buf
    unfold P_string_loop
    have c1 : ¬ ¬ (EOF ≠ delim ∧ EOF % 256 ≠ 0) := by
      simp only [not_not]
      exact ⟨fun h => hd h.symm, by decide⟩
    have c2 : ¬ EOF = MSSCHAR := by decide
    have c3 : ¬ (EOF = 36 ∧ is_repl = true) := by
      intro h; exact absurd h.1 (by decide)
    rw [if_neg c1, if_neg c2, if_neg c3]
    exact ih _

/-- The loop of `P_string` over characters that are neither the delimiter nor
NUL, backslash or dollar, with nothing but the end of the input behind
them. -/
theorem P_string_loop_unclosed (delim : Int) (is_repl : Bool) (hd : delim ≠ EOF) :
    ∀ (t : List Nat) (b : Nat) (fuel : Nat) (buf : octetbuf),
      (∀ x ∈ b :: t, (x : Int) ≠ delim ∧ (x : Int) % 256 ≠ 0 ∧ (x : Int) ≠ MSSCHAR
        ∧ (x : Int) ≠ 36) →
      P_string_loop delim is_repl fuel (b : Int) buf ⟨t, []⟩ = outcome.more := by
  intro t
  induction t with
  | nil =>
    intro b fuel buf h
    cases fuel with
    | zero => rfl
    | succ n =>
      obtain ⟨h1, h2, h3, h4⟩ := h b (by simp)
      unfold P_string_loop
      have c1 : ¬ ¬ ((b : Int) ≠ delim ∧ (b : Int) % 256 ≠ 0) := by
        simp only [not_not]; exact ⟨h1, h2⟩
      have c3 : ¬ ((b : Int) = 36 ∧ is_repl = true) := fun h => h4 h.1
      rw [if_neg c1, if_neg h3, if_neg c3]
      exact P_string_loop_eof delim is_repl hd n _
  | cons a t ih =>
    intro b fuel buf h
    cases fuel with
    | zero => rfl
    | succ n =>
      obtain ⟨h1, h2, h3, h4⟩ := h b (by simp)
      unfold P_string_loop
      have c1 : ¬ ¬ ((b : Int) ≠ delim ∧ (b : Int) % 256 ≠ 0) := by
        simp only [not_not]; exact ⟨h1, h2⟩
      have c3 : ¬ ((b : Int) = 36 ∧ is_repl = true) := fun h => h4 h.1
      rw [if_neg c1, if_neg h3, if_neg c3]
      exact ih a n _ (fun x hx => h x (by simp at hx ⊢; right; exact hx))

/-! ## Lemmas on the offsets of the digraph table -/

theorem MKOI_small (oi : Nat) (h : oi ≤ IDXMAX) :
    LEN (MKOI oi 1 % 2 ^ 16) = 1 ∧ IDX (MKOI oi 1 % 2 ^ 16) = oi := by
  have hm : MKOI oi 1 = 8192 + oi := by
    unfold MKOI IDXMAX
    rw [Nat.and_pow_two_sub_one_eq_mod oi 13, Nat.shiftLeft_eq]
    have := Nat.mul_add_lt_is_or (i := 13) (b := oi % 2 ^ 13) (Nat.mod_lt _ (by norm_num)) 1
    rw [← this]
    simp only [IDXMAX] at h
    omega
  rw [hm]
  unfold LEN IDX IDXMAX
  rw [Nat.shiftRight_eq_div_pow, Nat.and_pow_two_sub_one_eq_mod]
  simp only [IDXMAX] at h
  omega

theorem dgr_blob_cons (l : Nat × Nat × Int) (rest : List (Nat × Nat × Int)) :
    dgr_blob (l :: rest) = (u8fc32 l.2.2).getD [] ++ dgr_blob rest := by
  simp [dgr_blob]

/-- A call of `esc_define` for a scalar value returns when the blob is not
longer than `IDXMAX`. -/
theorem esc_define_ok (es : esc_state_) (ch0 ch1 : Nat) (cp : Int) (h0 : 0 ≤ cp)
    (hs : is_scalar cp.toNat) (hoff : es.octs_buf.p.length ≤ IDXMAX) :
    ∃ es1, esc_define u8_state_zero es ch0 ch1 cp = some (u8_state_zero, es1) := by
  obtain ⟨bs, henc, hdec⟩ := u8tc32_u8fc32 cp.toNat hs
  have hcast : ((cp.toNat : Nat) : Int) = cp := by omega
  have hlt : cp.toNat < 2 ^ 31 := by unfold is_scalar at hs; omega
  have h32 : toInt32 cp = cp := by
    have := toInt32_small cp.toNat hlt
    rw [hcast] at this
    exact this
  rw [hcast] at henc
  have hlen := u8fc32_length _ _ henc
  have hd := hdec [] bs.length (Nat.le_refl _)
  rw [List.append_nil] at hd
  have hidx : (octetbuf_push_back es.octs_buf bs).2 = es.octs_buf.p.length := by
    unfold octetbuf_push_back; split <;> rfl
  obtain ⟨m1, m2⟩ := MKOI_small es.octs_buf.p.length hoff
  have hs5 : (if cp.toNat = 0 then 0 else bs.length) < 5 := by split <;> omega
  unfold esc_define
  simp only [h32, henc, hd, hidx, m1, m2, hs5, Option.map_some', hcast, not_true_eq_false,
    ne_eq, if_false]
  exact ⟨_, rfl⟩

/-- The loop of `esc_create` on lines with scalar values, the blob not longer
than `IDXMAX` before each of them: it returns, the blob is extended by the
encodings and the table by the records of the lines. -/
theorem esc_create_loop_total : ∀ (lines : List (Nat × Nat × Int)) (es : esc_state_),
    octetbuf_ok es.octs_buf →
    (∀ l ∈ lines, 0 ≤ l.2.2 ∧ is_scalar l.2.2.toNat) →
    (∀ k < lines.length, es.octs_buf.p.length + (dgr_blob (lines.take k)).length ≤ IDXMAX) →
    ∃ es1, esc_create_loop u8_state_zero es lines = some (u8_state_zero, es1)
      ∧ es1.octs_buf.p = es.octs_buf.p ++ dgr_blob lines
      ∧ es1.dgrs_buf.map dgr_decoded
          = es.dgrs_buf.map dgr_decoded ++ dgr_entries es.octs_buf.p.length lines := by
  intro lines
  induction lines with
  | nil =>
    intro es _ _ _
    exact ⟨es, rfl, by simp [dgr_blob], by simp [dgr_entries]⟩
  | cons l rest ih =>
    intro es hok hsc hoff
    obtain ⟨ch0, ch1, cp⟩ := l
    obtain ⟨h0, hs⟩ := hsc (ch0, ch1, cp) (List.mem_cons_self _ _)
    have hoff0 := hoff 0 (by simp)
    simp only [List.take_zero, dgr_blob, List.map_nil, List.flatten_nil, List.length_nil,
      Nat.add_zero] at hoff0
    obtain ⟨esa, hd⟩ := esc_define_ok es ch0 ch1 cp h0 hs hoff0
    obtain ⟨_, _, _, bs, oi, henc, hp, hoka, hbuf, hL, hI, _⟩ :=
      esc_define_spec es esa u8_state_zero ch0 ch1 cp hd hok
    have hlen : esa.octs_buf.p.length = es.octs_buf.p.length + bs.length := by
      rw [hp, List.length_append]
    obtain ⟨es1, h1, h2, h3⟩ := ih esa hoka
      (fun l hl => hsc l (List.mem_cons_of_mem _ hl))
      (fun k hk => by
        have := hoff (k + 1) (by simp only [List.length_cons]; omega)
        rw [List.take_succ_cons, dgr_blob_cons] at this
        simp only [henc, Option.getD_some, List.length_append] at this
        omega)
    refine ⟨es1, ?_, ?_, ?_⟩
    · simp only [esc_create_loop, hd, h1]
    · rw [h2, hp, dgr_blob_cons, List.append_assoc]
      simp only [henc, Option.getD_some]
    · rw [h3, hbuf, List.map_append, List.append_assoc]
      simp only [dgr_entries, henc, Option.getD_some, List.map_cons, List.map_nil,
        List.singleton_append, dgr_decoded, hL, hI, hlen]

/-- When the loop of `esc_create` returns, the blob was not longer than
`IDXMAX` before any of the lines. -/
theorem esc_create_loop_offsets : ∀ (lines : List (Nat × Nat × Int)) (es es1 : esc_state_)
    (g1 : u8_state), esc_create_loop u8_state_zero es lines = some (g1, es1) →
    octetbuf_ok es.octs_buf →
    ∀ k < lines.length, es.octs_buf.p.length + (dgr_blob (lines.take k)).length ≤ IDXMAX := by
  intro lines
  induction lines with
  | nil => intro es es1 g1 _ _ k hk; cases hk
  | cons l rest ih =>
    intro es es1 g1 h hok k hk
    obtain ⟨ch0, ch1, cp⟩ := l
    simp only [esc_create_loop] at h
    cases hd : esc_define u8_state_zero es ch0 ch1 cp with
    | none => rw [hd] at h; cases h
    | some r =>
      obtain ⟨ga, esa⟩ := r
      rw [hd] at h
      simp only at h
      obtain ⟨hga, _, _, bs, oi, henc, hp, hoka, _, _, hI, _⟩ :=
        esc_define_spec es esa ga ch0 ch1 cp hd hok
      subst hga
      have hle : es.octs_buf.p.length ≤ IDXMAX := by
        rw [← hI]; unfold IDX; exact Nat.and_le_right
      cases k with
      | zero => simpa [dgr_blob] using hle
      | succ k =>
        have := ih esa es1 g1 h hoka k (by simp only [List.length_cons] at hk; omega)
        rw [hp, List.length_append] at this
        rw [List.take_succ_cons, dgr_blob_cons]
        simp only [henc, Option.getD_some, List.length_append]
        omega

theorem dgr_blob_replicate (n : Nat) : (dgr_blob (List.replicate n (97, 98, 65))).length = n := by
  induction n with
  | zero => rfl
  | succ n ih =>
    rw [List.replicate_succ, dgr_blob_cons, List.length_append, ih]
    have : ((u8fc32 ((97, 98, 65) : Nat × Nat × Int).2.2).getD []).length = 1 := by decide
    rw [this]; omega

/-! ## Lemmas on the open frames of the attribute stack -/

theorem push_frames_snoc (s : att_stack) (frames : List (List (List Nat × List Nat) × Nat))
    (f : List (List Nat × List Nat) × Nat) :
    push_frames s (frames ++ [f]) = close_atts (push_atts (push_frames s frames) f.1) f.2 := by
  simp [push_frames, List.foldl_append]

theorem frames_val_snoc (frames : List (List (List Nat × List Nat) × Nat))
    (f : List (List Nat × List Nat) × Nat) (name : List Nat) :
    frames_val (frames ++ [f]) name
      = match frame_val f.1 name with
        | some v => some v
        | none => frames_val frames name := by
  unfold frames_val
  rw [List.reverse_append]
  simp only [List.reverse_cons, List.reverse_nil, List.nil_append, List.singleton_append,
    List.findSome?_cons]
  cases frame_val f.1 name <;> rfl

theorem close_atts_closed (s : att_stack) (nt : Nat) (hok : octetbuf_ok s.attr_buf)
    (hhead : s.attr_buf.p.head? = some 0)
    (hlen : s.nameidx_buf.length = s.validx_buf.length) :
    att_stack_closed (close_atts s nt) := by
  refine ⟨hok, hhead, ?_, Or.inr ?_⟩
  · simp [close_atts, hlen]
  · simp [close_atts]

/-- What the calls for a sequence of elements keep. -/
theorem push_frames_inv (s0 : att_stack) (hs : att_stack_closed s0)
    (frames : List (List (List Nat × List Nat) × Nat)) :
    att_stack_closed (push_frames s0 frames) ∧ att_ext s0 (push_frames s0 frames)
      ∧ (frames ≠ [] → (push_frames s0 frames).nameidx_buf.getLast? = some NULLIDX) := by
  induction frames using List.reverseRecOn with
  | nil => exact ⟨hs, att_ext_refl _, fun h => absurd rfl h⟩
  | append_singleton l f ih =>
    obtain ⟨⟨hok, hhead, hlen, _⟩, hext, _⟩ := ih
    obtain ⟨i1, i2, i3, i4, i5⟩ := push_atts_inv _ hok hhead hlen f.1
    rw [push_frames_snoc]
    refine ⟨close_atts_closed _ _ i1 i2 i3,
      att_ext_trans _ _ _ hext (att_ext_trans _ _ _ i5 (att_ext_close _ _)), fun _ => ?_⟩
    simp [close_atts]

/-- One round of the loop of `att_val` at a sentinel whose value slot lies
below the size of the text as it is now. -/
theorem att_val_loop_sentinel_now (s t : att_stack) (nt : Nat) (name : List Nat) (depth : Nat)
    (hhead : s.attr_buf.p.head? = some 0)
    (hlen : s.nameidx_buf.length = s.validx_buf.length)
    (hnt : nt < t.attr_buf.p.length) (hname : cstr name ≠ [])
    (ht : att_ext (close_atts s nt) t) :
    att_val_loop t name (s.nameidx_buf.length + 1) depth
      = if depth = 0 then some none
        else att_val_loop t name s.nameidx_buf.length (depth - 1) := by
  obtain ⟨ht1, ht2, ht3⟩ := head_of_ext _ _ ht (by simpa [close_atts] using hhead)
  obtain ⟨⟨C, hC⟩, ⟨X, hX⟩, ⟨Y, hY⟩⟩ := ht
  have gN : t.nameidx_buf.get? s.nameidx_buf.length = some 0 := by
    rw [hX]; exact get?_append_cons _ _ _
  have gV : t.validx_buf.get? s.nameidx_buf.length = some nt := by
    rw [hY, hlen]; exact get?_append_cons _ _ _
  have cN := cstr_at_zero _ ht1
  rw [att_val_loop]
  simp only [gN, gV, cN]
  have c1 : ¬ ¬ 0 < t.attr_buf.p.length := by omega
  have c3 : ¬ ¬ nt < t.attr_buf.p.length := by omega
  have c5 : ¬ ([] : List Nat) = cstr name := fun h => hname h.symm
  by_cases hd : depth = 0
  · simp [hd, NULLIDX, ht3]
  · have c2 : ¬ (0 = NULLIDX ∧ depth = 0) := by omega
    have c4 : (0 = NULLIDX) := rfl
    simp only [if_neg c1, if_neg c2, if_neg c3, if_pos c4, if_neg c5, if_neg hd]

/-- The loop of `att_val` over the open frames from the innermost one outward,
`depth` being at least their number. -/
theorem att_val_loop_frames (s0 : att_stack) (hs : att_stack_closed s0) (name : List Nat)
    (hname : cstr name ≠ []) (frames : List (List (List Nat × List Nat) × Nat)) :
    ∀ (t : att_stack) (depth : Nat), att_ext (push_frames s0 frames) t →
      frames.length ≤ depth → (∀ f ∈ frames, f.2 < t.attr_buf.p.length) →
      att_val_loop t name (push_frames s0 frames).nameidx_buf.length depth
        = match frames_val frames name with
          | some v => some (some v)
          | none => att_val_loop t name s0.nameidx_buf.length (depth - frames.length) := by
  induction frames using List.reverseRecOn with
  | nil => intro t depth _ _ _; simp [frames_val, push_frames]
  | append_singleton l f ih =>
    intro t depth ht hd hnt
    obtain ⟨⟨hok, hhead, hlen, _⟩, _, _⟩ := push_frames_inv s0 hs l
    obtain ⟨i1, i2, i3, i4, i5⟩ := push_atts_inv _ hok hhead hlen f.1
    rw [push_frames_snoc] at ht
    simp only [List.length_append, List.length_singleton] at hd
    have e : (push_frames s0 (l ++ [f])).nameidx_buf.length
        = (push_atts (push_frames s0 l) f.1).nameidx_buf.length + 1 := by
      rw [push_frames_snoc]; simp [close_atts]
    have hd0 : ¬ depth = 0 := by omega
    rw [e, att_val_loop_sentinel_now _ t f.2 name depth i2 i3
      (hnt f (by simp)) hname ht, if_neg hd0, i4,
      att_val_loop_frame _ name hok hhead hlen f.1 t _
        (att_ext_trans _ _ _ (att_ext_close _ f.2) ht), frames_val_snoc]
    cases frame_val f.1 name with
    | some v => rfl
    | none =>
      simp only
      rw [ih t (depth - 1) (att_ext_trans _ _ _ (att_ext_trans _ _ _ i5 (att_ext_close _ f.2)) ht)
        (by omega) (fun g hg => hnt g (by simp [hg]))]
      have e2 : depth - 1 - l.length = depth - (l ++ [f]).length := by
        simp only [List.length_append, List.length_singleton]; omega
      rw [e2]

theorem cstr_no_nul (name rest : List Nat) (h0 : 0 ∉ name) :
    cstr (name ++ 0 :: rest) = name := by
  induction name with
  | nil => simp [cstr]
  | cons a t ih =>
    have ha : a ≠ 0 := fun h => h0 (by simp [h])
    have ht : 0 ∉ t := fun h => h0 (by simp [h])
    have := ih ht
    unfold cstr at this ⊢
    simp [ha, this]

/-! ## Lemmas on well-nested sequences of events -/

theorem repl_events_append (rs : repl_state) (esc : List Nat → List Nat) :
    ∀ (a : List esis_event) (st : repl_run) (b : List esis_event),
      repl_events rs esc st (a ++ b)
        = match repl_events rs esc st a with
          | none => none
          | some s => repl_events rs esc s b := by
  intro a
  induction a with
  | nil => intro st b; rfl
  | cons e rest ih =>
    intro st b
    simp only [List.cons_append, repl_events]
    cases repl_event rs esc st e with
    | none => rfl
    | some s => exact ih s b

theorem repl_events_attrs (rs : repl_state) (esc : List Nat → List Nat) :
    ∀ (attrs : List (List Nat × List Nat)) (st : repl_run),
      repl_events rs esc st (attr_events attrs)
        = some { st with atts := push_atts st.atts attrs } := by
  intro attrs
  induction attrs with
  | nil => intro st; rfl
  | cons a rest ih =>
    intro st
    simp only [attr_events, List.map_cons, repl_events, repl_event]
    exact ih (repl_Attr st a.1 a.2)

theorem select_rule_atts_congr (text : List Nat) (s t : att_stack) (h : att_same s t) :
    ∀ (n : Nat) (atts : List Nat), atts.length ≤ n →
      select_rule_atts text t atts = select_rule_atts text s atts := by
  intro n
  induction n with
  | zero =>
    intro atts hl
    have : atts = [] := List.length_eq_zero.mp (by omega)
    subst this
    rfl
  | succ n ih =>
    intro atts hl
    match atts, hl with
    | [], _ => rfl
    | [ai], _ => rfl
    | ai :: vi :: rest, hl =>
      unfold select_rule_atts
      have hv : ∀ name, att_val t name 1 = att_val s name 1 :=
        fun name => att_val_congr s t name 1 h.1 h.2.1 h.2.2
      have ih1 := ih rest (by simp at hl; omega)
      simp only [hv, ih1]

theorem select_rule_congr (rs : repl_state) (s t : att_stack) (nt : Nat) (h : att_same s t) :
    select_rule rs t nt = select_rule rs s nt := by
  unfold select_rule
  generalize rs.repl_tab nt = rules
  induction rules with
  | nil => rfl
  | cons r rest ih =>
    unfold select_rule_loop
    rw [select_rule_atts_congr rs.text_buf.p s t h _ r.taginfo.atts (le_refl _), ih]

/-- The function `pop_atts` on the frame of one element, whatever the capacity
of the text buffer is: the stack is as before the element. -/
theorem pop_atts_frame (s : att_stack) (attrs : List (List Nat × List Nat)) (nt c : Nat)
    (hs : att_stack_closed s) :
    pop_atts ⟨⟨(push_atts s attrs).attr_buf.p, c⟩, (push_atts s attrs).nameidx_buf ++ [NULLIDX],
        (push_atts s attrs).validx_buf ++ [nt]⟩
      = some ⟨⟨s.attr_buf.p, c⟩, s.nameidx_buf, s.validx_buf⟩ := by
  obtain ⟨hok, hhead, hlen, hcl⟩ := hs
  obtain ⟨i1, i2, i3, i4, ⟨⟨C, hC⟩, _, _⟩⟩ := push_atts_inv s hok hhead hlen attrs
  have hr := pop_atts_loop_round (push_atts s attrs).nameidx_buf.length
    (push_atts s attrs).attr_buf.p c
    (push_atts s attrs).nameidx_buf (push_atts s attrs).validx_buf NULLIDX nt (by simp [NULLIDX])
  rw [pop_atts_top, hr]
  simp only [ne_eq, not_true_eq_false, if_false]
  rcases List.eq_nil_or_concat attrs with h0 | ⟨l, a, ha⟩
  · subst h0
    simp only [push_atts, List.foldl_nil]
    rcases hcl with h | h
    · have : ¬ s.nameidx_buf.length > 0 := by rw [h]; simp
      rw [if_neg this]
    · obtain ⟨hp, g⟩ := getLast_sentinel _ h
      rw [if_pos hp, g]
      simp
  · rw [List.concat_eq_append] at ha
    subst ha
    obtain ⟨j1, j2, j3, j4, j5⟩ := push_atts_inv s hok hhead hlen l
    obtain ⟨k1, k2, k3, k4⟩ := push_att_spec (push_atts s l) a.1 a.2 j1
    have hne2 : (push_atts s l).attr_buf.p ≠ [] := by
      intro h; rw [h] at j2; cases j2
    have hpos2 : 0 < (push_atts s l).attr_buf.p.length := List.length_pos.mpr hne2
    have c4 : (push_atts s l).attr_buf.p.length ≠ NULLIDX := by unfold NULLIDX; omega
    have hp : (push_atts s (l ++ [a])).nameidx_buf.length > 0 := by rw [i4]; simp
    have e : (push_atts s (l ++ [a])).nameidx_buf.length - 1 = s.nameidx_buf.length + l.length := by
      rw [i4]; simp
    have g : (push_atts s (l ++ [a])).nameidx_buf.get? (s.nameidx_buf.length + l.length)
        = some (push_atts s l).attr_buf.p.length := by
      rw [push_atts_snoc, k3, ← j4]
      simp
    rw [if_pos hp, e, g]
    simp only [if_pos c4]
    have := pop_atts_loop_frame s hok hhead hlen hcl l a (s.nameidx_buf.length + (l ++ [a]).length)
      c [] (by simp)
    rw [i4]
    simpa using this

theorem repl_End_atts (rs : repl_state) (st st1 : repl_run) (nt : Nat)
    (h : repl_End rs st nt = some st1) : pop_atts st.atts = some st1.atts := by
  unfold repl_End at h
  split at h
  · cases h
  · simp only at h
    split at h
    · cases h
    · split at h
      · cases h
      · rename_i s2 hp
        simp only [Option.some.injEq] at h
        subst h
        exact hp

/-- A well-nested sequence of events that the callbacks get through leaves
the stack as it was, between two elements again. -/
theorem repl_events_well_nested (rs : repl_state) (esc : List Nat → List Nat)
    (evs : List esis_event) (hw : well_nested evs) :
    ∀ (st st1 : repl_run), att_stack_closed st.atts → repl_events rs esc st evs = some st1 →
      att_same st.atts st1.atts ∧ att_stack_closed st1.atts := by
  induction hw with
  | nil =>
    intro st st1 hs h
    simp only [repl_events, Option.some.injEq] at h
    subst h
    exact ⟨⟨rfl, rfl, rfl⟩, hs⟩
  | cdata text rest _ ih =>
    intro st st1 hs h
    simp only [repl_events, repl_event] at h
    cases hc : repl_Cdata esc st text with
    | none => rw [hc] at h; cases h
    | some sa =>
      rw [hc] at h
      have ha : sa.atts = st.atts := by
        unfold repl_Cdata at hc
        split at hc
        · cases hc
        · simp only [Option.some.injEq] at hc
          subst hc
          rfl
      exact ih sa st1 (by rw [ha]; exact hs) h |>.imp (fun x => by rw [ha] at x; exact x) id
  | elem attrs nt body rest _ _ ihb ihr =>
    intro st st1 hs h
    rw [repl_events_append, repl_events_attrs] at h
    simp only [repl_events, repl_event] at h
    cases h1 : repl_Start rs { st with atts := push_atts st.atts attrs } nt with
    | none => rw [h1] at h; cases h
    | some sa =>
      rw [h1] at h
      simp only at h
      rw [repl_events_append] at h
      cases h2 : repl_events rs esc sa body with
      | none => rw [h2] at h; cases h
      | some sb =>
        rw [h2] at h
        simp only [repl_events, repl_event] at h
        cases h3 : repl_End rs sb nt with
        | none => rw [h3] at h; cases h
        | some sc =>
          rw [h3] at h
          simp only at h
          obtain ⟨hok, hhead, hlen, hcl⟩ := hs
          obtain ⟨i1, i2, i3, i4, ⟨⟨C, hC⟩, _, _⟩⟩ := push_atts_inv st.atts hok hhead hlen attrs
          have ha : sa.atts = close_atts (push_atts st.atts attrs) nt :=
            (repl_Start_spec rs _ sa nt h1).1
          have hca : att_stack_closed sa.atts := by
            rw [ha]; exact close_atts_closed _ nt i1 i2 i3
          obtain ⟨⟨b1, b2, b3⟩, hcb⟩ := ihb sa sb hca h2
          have hpop := repl_End_atts rs sb sc nt h3
          have hsb : sb.atts = ⟨⟨(push_atts st.atts attrs).attr_buf.p, sb.atts.attr_buf.c⟩,
              (push_atts st.atts attrs).nameidx_buf ++ [NULLIDX],
              (push_atts st.atts attrs).validx_buf ++ [nt]⟩ := by
            rw [ha] at b1 b2 b3
            cases hx : sb.atts with
            | mk ab nb vb =>
              cases ab with
              | mk p c =>
                rw [hx] at b1 b2 b3
                simp only [close_atts] at b1 b2 b3
                simp only [b1, b2, b3]
          rw [hsb, pop_atts_frame st.atts attrs nt _ ⟨hok, hhead, hlen, hcl⟩] at hpop
          simp only [Option.some.injEq] at hpop
          have hsame : att_same st.atts sc.atts := by
            rw [← hpop]; exact ⟨rfl, rfl, rfl⟩
          have hcc : att_stack_closed sc.atts := by
            rw [← hpop]
            refine ⟨?_, hhead, hlen, hcl⟩
            have := hcb.1
            rw [hsb] at this
            unfold octetbuf_ok at this ⊢
            simp only at this ⊢
            rw [hC] at this
            simp only [List.length_append] at this
            omega
          obtain ⟨⟨r1, r2, r3⟩, hcr⟩ := ihr sc st1 hcc h
          exact ⟨⟨by rw [r1, hsame.1], by rw [r2, hsame.2.1], by rw [r3, hsame.2.2]⟩, hcr⟩

/-! ## Lemmas on the sizes of octetbuf.c -/

theorem grow_keeps_ok (o : octetbuf) (c : Nat) (h : octetbuf_ok o) : octetbuf_ok (grow o c) := by
  have hr := ROUND_ge c
  unfold octetbuf_ok at *
  unfold grow grow_to
  simp only [OCTETBUF_ASIZE] at *
  split
  · split <;> split <;> simp only [List.length_take] <;> omega
  · split
    · exact h
    · split <;> split <;> simp only [List.length_take] <;> omega

theorem octetbuf_resize_ok (o : octetbuf) (n value : Nat) (h : octetbuf_ok o) :
    octetbuf_ok (octetbuf_resize o n value) := by
  unfold octetbuf_ok at *
  unfold octetbuf_resize
  by_cases hg : n > o.c
  · have h1 := grow_p o n (by omega)
    have h2 := grow_ok o n hg
    simp only [if_pos hg, h1, List.length_append, List.length_replicate, List.length_take]
    omega
  · simp only [if_neg hg, List.length_append, List.length_replicate, List.length_take]
    omega

/-! ## Lemmas on capacities and sizes that are any size_t -/

theorem ROUND_size_t_eq (N : Nat) (h : N + (CHUNK - 1) < 2 ^ 64) : ROUND_size_t N = ROUND N := by
  unfold ROUND_size_t ROUND
  split
  · rw [Nat.mod_eq_of_lt h]
    apply Nat.mod_eq_of_lt
    have : CHUNK * ((N + (CHUNK - 1)) / CHUNK) ≤ N + (CHUNK - 1) := Nat.mul_div_le _ _
    omega
  · rfl

/-- For every `size_t` above `SIZE_MAX - 1023` the sum in `ROUND` wraps and the
macro gives 0. -/
theorem ROUND_size_t_wraps (k : Nat) : ROUND_size_t (2 ^ 64 - 1 - k % 1023) = 0 := by
  have hk : k % 1023 < 1023 := Nat.mod_lt _ (by decide)
  unfold ROUND_size_t CHUNK OCTETBUF_ASIZE
  have h1 : 2 ^ 64 - 1 - k % 1023 > 512 - 28 := by omega
  rw [if_pos h1]
  have h2 : (2 ^ 64 - 1 - k % 1023 + (1024 - 1)) % 2 ^ 64 = 1022 - k % 1023 := by omega
  rw [h2]
  have h3 : (1022 - k % 1023) / 1024 = 0 := Nat.div_eq_of_lt (by omega)
  rw [h3]
  rfl

theorem grow_size_t_eq (o : octetbuf) (c : Nat) (h : c + (CHUNK - 1) < 2 ^ 64) :
    grow_size_t o c = grow o c := by
  unfold grow_size_t grow
  rw [ROUND_size_t_eq c h]

theorem octetbuf_reserve_size_t_eq (o : octetbuf) (c : Nat) (h : c + (CHUNK - 1) < 2 ^ 64) :
    octetbuf_reserve_size_t o c = octetbuf_reserve o c := by
  unfold octetbuf_reserve_size_t octetbuf_reserve
  rw [grow_size_t_eq o c h]

theorem octetbuf_resize_size_t_eq (o : octetbuf) (n value : Nat)
    (h : n + (CHUNK - 1) < 2 ^ 64) :
    octetbuf_resize_size_t o n value = some (octetbuf_resize o n value) := by
  unfold octetbuf_resize_size_t octetbuf_resize
  rw [grow_size_t_eq o n h]
  by_cases hg : n > o.c
  · have h2 := grow_ok o n hg
    have c : ¬ (o.p.length < n ∧ (grow o n).c < n) := by omega
    simp only [if_pos hg, if_neg c]
  · have c : ¬ (o.p.length < n ∧ o.c < n) := by omega
    simp only [if_neg hg, if_neg c]

/-- On a buffer whose size does not exceed its capacity,
`octetbuf_reserve(o, c)` with `c` above the capacity and not above
`SIZE_MAX - 1023` makes the capacity the size of the inline array when `c`
does not exceed that, and otherwise the least multiple of 1024 that is at
least `c`; the octets held, and so the size, stay as they are. -/
theorem octetbuf_reserve_size_t_capacity (o : octetbuf) (c : Nat) (hok : octetbuf_ok o)
    (hc : o.c < c) (hw : c + (CHUNK - 1) < 2 ^ 64) :
    (c ≤ OCTETBUF_ASIZE → (octetbuf_reserve_size_t o c).c = OCTETBUF_ASIZE)
      ∧ (OCTETBUF_ASIZE < c → CHUNK ∣ (octetbuf_reserve_size_t o c).c
          ∧ c ≤ (octetbuf_reserve_size_t o c).c
          ∧ ∀ m, CHUNK ∣ m → c ≤ m → (octetbuf_reserve_size_t o c).c ≤ m)
      ∧ (octetbuf_reserve_size_t o c).p = o.p := by
  rw [octetbuf_reserve_size_t_eq o c hw]
  refine ⟨?_, ?_, (octetbuf_reserve_p o c hok).1⟩
  · intro h
    unfold octetbuf_reserve grow grow_to ROUND
    rw [if_pos hc, if_pos hc]
    have : ¬ c > OCTETBUF_ASIZE := by omega
    rw [if_neg this]
    simp
  · intro h
    have e : (octetbuf_reserve o c).c = CHUNK * ((c + (CHUNK - 1)) / CHUNK) := by
      unfold octetbuf_reserve grow grow_to ROUND
      rw [if_pos hc, if_pos hc, if_pos h]
      have : ¬ CHUNK * ((c + (CHUNK - 1)) / CHUNK) ≤ OCTETBUF_ASIZE := by
        unfold CHUNK OCTETBUF_ASIZE at *
        omega
      rw [if_neg this]
    rw [e]
    refine ⟨Dvd.intro _ rfl, ?_, ?_⟩
    · unfold CHUNK; omega
    · intro m ⟨k, hk⟩ hm
      subst hk
      unfold CHUNK at *
      omega

/-- Where no capacity wraps (see `octetbuf_reserve_size_t_eq`): on a buffer
whose size does not exceed its capacity, `octetbuf_push_back` of the octets
`b` returns the size `i` the buffer had, and after that call and any further
calls of `octetbuf_push_back`, `octetbuf_push_c` and `octetbuf_reserve` the
buffer holds the octets it held before, then `b` from offset `i` on, then
what the further calls added. -/
theorem octetbuf_calls_keep_offsets (o : octetbuf) (b : List Nat) (ops : List octetbuf_op)
    (hok : octetbuf_ok o) :
    (octetbuf_push_back o b).2 = o.p.length
      ∧ ∃ t, (octetbuf_calls (octetbuf_push_back o b).1 ops).p = o.p ++ b ++ t := by
  obtain ⟨h1, h2⟩ := octetbuf_push_back_p o b hok
  obtain ⟨⟨t, ht⟩, _⟩ := octetbuf_calls_p ops _ h2
  refine ⟨?_, ⟨t, by rw [ht, h1]⟩⟩
  unfold octetbuf_push_back
  split <;> rfl

/-- Where no capacity wraps (see `octetbuf_resize_size_t_eq`): every call of
`octetbuf_init`, `octetbuf_reserve`, `octetbuf_resize`,
`octetbuf_shrink_to_fit`, `octetbuf_clear`, `octetbuf_shift`,
`octetbuf_push_back`, `octetbuf_push_c`, `octetbuf_pop_back` (with `n` not
above the size), `octetbuf_extend` and `octetbuf_release` on a buffer whose
size is at most its capacity returns and leaves a buffer whose size is at
most its capacity; the zero-initialised buffer and the buffer after
`octetbuf_init` are such buffers. -/
theorem octetbuf_after_ok (o : octetbuf) (call : octetbuf_call)
    (h : octetbuf_ok o)
    (hpop : ∀ n, call = octetbuf_call.pop_back n → n ≤ o.p.length) :
    (∃ o1, octetbuf_after o call = some o1 ∧ octetbuf_ok o1)
      ∧ octetbuf_ok octetbuf_zero ∧ ∀ c, octetbuf_ok (octetbuf_init c) := by
  have hz : octetbuf_ok octetbuf_zero := by decide
  refine ⟨?_, hz, fun c => grow_keeps_ok _ c hz⟩
  cases call with
  | init c => exact ⟨_, rfl, grow_keeps_ok _ c hz⟩
  | reserve c => exact ⟨_, rfl, (octetbuf_reserve_p o c h).2⟩
  | resize n value => exact ⟨_, rfl, octetbuf_resize_ok o n value h⟩
  | shrink_to_fit =>
    refine ⟨_, rfl, ?_⟩
    unfold octetbuf_shrink_to_fit
    simp only
    split
    · exact grow_keeps_ok o _ h
    · exact h
  | clear => exact ⟨_, rfl, by unfold octetbuf_ok octetbuf_clear; simp⟩
  | shift k =>
    refine ⟨_, rfl, ?_⟩
    unfold octetbuf_ok at *
    unfold octetbuf_shift
    simp only [List.length_drop]
    omega
  | push_back bs => exact ⟨_, rfl, (octetbuf_push_back_p o bs h).2⟩
  | push_c c => exact ⟨_, rfl, (octetbuf_push_c_mod o c h).2⟩
  | pop_back n =>
    have hn := hpop n rfl
    refine ⟨⟨o.p.take (o.p.length - n), o.c⟩, by simp [octetbuf_after, octetbuf_pop_back, hn], ?_⟩
    unfold octetbuf_ok at *
    simp only [List.length_take]
    omega
  | extend d => exact ⟨_, rfl, octetbuf_resize_ok o _ 0 h⟩
  | release => exact ⟨_, rfl, by unfold octetbuf_ok octetbuf_release; simp⟩

/-! ## Lemmas on the sentinels in the loop of att_val -/

/-- The loop of `att_val` fails its assertion `validx < attr_buf.n` at the
sentinel on top when the value in the slot of the sentinel is not below the
size of the text. -/
theorem att_val_sentinel_slot_high (s : att_stack) (v : Nat) (name : List Nat) (depth : Nat)
    (hlen : s.nameidx_buf.length = s.validx_buf.length) (hpos : 0 < s.attr_buf.p.length)
    (hv : s.attr_buf.p.length ≤ v) :
    att_val (close_atts s v) name (depth + 1) = none := by
  rw [att_val_top, att_val_loop]
  have gN : (close_atts s v).nameidx_buf.get? s.nameidx_buf.length = some NULLIDX := by
    simp [close_atts]
  have gV : (close_atts s v).validx_buf.get? s.nameidx_buf.length = some v := by
    rw [hlen]; simp [close_atts]
  have hp : (close_atts s v).attr_buf.p.length = s.attr_buf.p.length := rfl
  have c1 : ¬ ¬ NULLIDX < s.attr_buf.p.length := by unfold NULLIDX; omega
  have c2 : ¬ (NULLIDX = NULLIDX ∧ depth + 1 = 0) := by omega
  have c3 : ¬ v < s.attr_buf.p.length := by omega
  simp only [gN, gV, hp, if_neg c1, if_neg c2, c3, not_false_eq_true, if_true]
  simp

/-- On a stack between two elements, after the `push_att` calls for the
attributes `attrs` and `close_atts`, the value in the slot of the sentinel
below the size of the attribute text: `select_rule(nt)` returns the first
record in the list of `nt`, the one set last coming first, all of whose
predicates match the frame `attrs`, and NULL when none does; a record with a
predicate name=value is not returned when the frame's value for the name is
another string or absent.  The selectors are taken to be readable to their
end and free of empty names. -/
theorem select_rule_first_match (rs : repl_state) (s0 : att_stack)
    (attrs : List (List Nat × List Nat)) (ent nt : Nat) (hs : att_stack_closed s0)
    (hnt : ent < (push_atts s0 attrs).attr_buf.p.length)
    (hwf : ∀ r ∈ rs.repl_tab nt, rule_wf rs.text_buf.p r = true) :
    select_rule rs (close_atts (push_atts s0 attrs) ent) nt
        = some ((rs.repl_tab nt).find? (rule_matches rs.text_buf.p attrs))
      ∧ ∀ (r : repl_) (ps : List (List Nat × Option (List Nat))) (name v : List Nat),
          sel_preds rs.text_buf.p r.taginfo.atts = some ps → (name, some v) ∈ ps →
          frame_val attrs name ≠ some v →
          select_rule rs (close_atts (push_atts s0 attrs) ent) nt ≠ some (some r) := by
  have key := select_rule_loop_spec rs.text_buf.p s0 attrs ent hs hnt (rs.repl_tab nt) hwf
  refine ⟨key, ?_⟩
  intro r ps name v hp hmem hval hsel
  unfold select_rule at hsel
  rw [key] at hsel
  simp only [Option.some.injEq] at hsel
  have hm := List.find?_some hsel
  unfold rule_matches at hm
  rw [hp] at hm
  simp only [List.all_eq_true] at hm
  have := hm _ hmem
  simp only [pred_matches, beq_iff_eq] at this
  exact hval this

/-- On a stack of at least one and fewer than 32 open frames, the values in
the slots of their sentinels below the size of the attribute text:
`put_subst` on the compiled form of a token without prefix (SP for the depth
32, a name that is not empty, NUL, SI) writes the value that the innermost
frame with an attribute of the name has for it and returns the position
behind the SI; it calls `error` when no open frame has an attribute of the
name. -/
theorem put_subst_unprefixed_all_frames (s0 : att_stack)
    (frames : List (List (List Nat × List Nat) × Nat)) (o : out_state)
    (name rest : List Nat)
    (hs : att_stack_closed s0) (hbase : s0.nameidx_buf = [])
    (hne : frames ≠ []) (hlt : frames.length < 32)
    (hnt : ∀ f ∈ frames, f.2 < (push_frames s0 frames).attr_buf.p.length)
    (hname : name ≠ []) (h0 : 0 ∉ name) :
    put_subst (push_frames s0 frames) o (SP :: (name ++ NUL :: SI :: rest))
      = match frames_val frames name with
        | some v => some (some (v.foldl PUTC o, rest))
        | none => some none := by
  have hc : cstr (name ++ NUL :: SI :: rest) = name := cstr_no_nul name _ h0
  have hcn : cstr (name ++ NUL :: SI :: rest) ≠ [] := by rw [hc]; exact hname
  obtain ⟨l, f, rfl⟩ : ∃ l f, frames = l ++ [f] := by
    rcases List.eq_nil_or_concat frames with h | ⟨l, f, h⟩
    · exact absurd h hne
    · exact ⟨l, f, by rw [h]; simp⟩
  have hloop := att_val_loop_frames s0 hs (name ++ NUL :: SI :: rest) hcn (l ++ [f])
    (push_frames s0 (l ++ [f])) 32 (att_ext_refl _) (by omega) hnt
  have hval : att_val (push_frames s0 (l ++ [f])) (name ++ NUL :: SI :: rest) 32
      = some (frames_val (l ++ [f]) (name ++ NUL :: SI :: rest)) := by
    rw [push_frames_snoc, att_val_top _ _ _ 31]
    rw [push_frames_snoc] at hloop
    have e : (close_atts (push_atts (push_frames s0 l) f.1) f.2).nameidx_buf.length
        = (push_atts (push_frames s0 l) f.1).nameidx_buf.length + 1 := by simp [close_atts]
    rw [e] at hloop
    rw [hloop]
    cases frames_val (l ++ [f]) (name ++ NUL :: SI :: rest) with
    | some v => rfl
    | none => simp only [hbase, List.length_nil]; rfl
  have hfv : frames_val (l ++ [f]) (name ++ NUL :: SI :: rest) = frames_val (l ++ [f]) name := by
    unfold frames_val frame_val
    rw [hc]
    have : cstr name = name := by
      have := cstr_no_nul name [] h0
      rw [← this, cstr_idem, this]
    rw [this]
  have hcont : (name ++ NUL :: SI :: rest).contains 0 = true := by simp [NUL]
  have hdrop : (name ++ NUL :: SI :: rest).drop (name.length + 1) = SI :: rest := by
    have : name ++ NUL :: SI :: rest = (name ++ [NUL]) ++ SI :: rest := by simp
    rw [this]
    have hl : name.length + 1 = (name ++ [NUL]).length := by simp
    rw [hl, List.drop_left]
  unfold put_subst
  have h32 : SP &&& 0xFF = 32 := by decide
  simp only [h32, hcont, hc, hdrop, hval, hfv, not_true_eq_false, if_false, ne_eq]
  cases frames_val (l ++ [f]) name <;> rfl

/-! ## The claims -/

/-- C1, the code as it stands.  The token backslash u 0 0 e 9 is fed in two
calls, as `esc_fsubst` does: first backslash u 0 0, then e 9 behind what the
first call left in `src`.  The first call leaves nothing in `src`, so the two
calls write the two octets `e9` (65 39), where one call on the whole token
writes C3 A9. -/
theorem C1_split_token_differs :
    ((esc_feed u8_state_zero esc_state_init octetbuf_zero octetbuf_zero [92, 117, 48, 48]).bind
        (fun r1 => esc_feed r1.g esc_state_init r1.dst r1.src [101, 57])).map
        (fun r => r.dst.p) = some [0x65, 0x39]
    ∧ (esc_feed u8_state_zero esc_state_init octetbuf_zero octetbuf_zero
        [92, 117, 48, 48, 101, 57]).map (fun r => r.dst.p) = some [0xC3, 0xA9] := by
  decide

/-- C2, the code as it stands.  On the window a b backslash u 0 0, which ends
inside an escape, `esc_bsubst` writes a b to `dst`, writes nothing for the
partial token, but leaves `src` empty and returns 0: the four octets of the
partial token are not kept at the front of `src`. -/
theorem C2_partial_token_not_kept :
    (esc_bsubst u8_state_zero esc_state_init octetbuf_zero
        ⟨[97, 98, 92, 117, 48, 48], 484⟩).map (fun r => (r.dst.p, r.src.p, r.ret))
      = some ([97, 98], [], 0) := by
  decide

/-- C3, the code as it stands.  FFFF is a scalar value whose UTF-8 encoding is
EF BF BF, but on backslash u F F F F `esc_bsubst` writes the four octets
F0 8F BF BF: `u8fc32` tests `c32 < 0xFFFF` where the two-octet branch tests
`c32 <= 0x07FF`. -/
theorem C3_uFFFF_four_octets :
    is_scalar 0xFFFF ∧ utf8 0xFFFF = [0xEF, 0xBF, 0xBF]
    ∧ (esc_bsubst u8_state_zero esc_state_init octetbuf_zero
        ⟨[92, 117, 70, 70, 70, 70], 0⟩).map (fun r => r.dst.p)
      = some [0xF0, 0x8F, 0xBF, 0xBF] := by
  decide

/-- Apart from FFFF, a fixed-width escape of a scalar value v (backslash u and
four digits, or backslash U and six digits) met in state OUTSIDE appends the
UTF-8 encoding of v and nothing else, for every escape state with the default
escape character. -/
theorem fixed_escape_utf8 (g : u8_state) (esp : esc_state_) (dst : octetbuf) (c : Nat)
    (t lim : Nat) (ds : List Nat)
    (ht : (t = ESC_BMP ∧ lim = 4) ∨ (t = ESC_UCS ∧ lim = 6))
    (hesc : esp.escape = ESCAPE) (hok : octetbuf_ok dst)
    (hx : ∀ d ∈ ds, isxdigit d = true) (hlen : ds.length = lim)
    (hs : is_scalar (hexval ds)) (hff : hexval ds ≠ 0xFFFF) :
    ∃ r, esc_bsubst g esp dst ⟨ESCAPE :: t :: ds, c⟩ = some r
      ∧ r.dst.p = dst.p ++ utf8 (hexval ds) := by
  have henc := u8fc32_eq_utf8 (hexval ds) hs hff
  obtain ⟨st, lim2, ht2, hl2⟩ : ∃ st lim2,
      ((t = ESC_BMP ∧ st = ST_BMP ∧ lim2 = 6) ∨ (t = ESC_UCS ∧ st = ST_UCS ∧ lim2 = 8))
        ∧ ds.length + 2 = lim2 := by
    rcases ht with ⟨a, b⟩ | ⟨a, b⟩
    · exact ⟨ST_BMP, 6, Or.inl ⟨a, rfl, rfl⟩, by omega⟩
    · exact ⟨ST_UCS, 8, Or.inr ⟨a, rfl, rfl⟩, by omega⟩
  obtain ⟨v1, hr, _, _, hp, _⟩ := run_fixed esp hesc (bsubst_vars_init g dst) dst.p t st lim2 ht2
    ds (utf8 (hexval ds)) hl2 hx henc (at_state_init g dst hok)
  exact ⟨_, esc_bsubst_of_run g esp dst ⟨ESCAPE :: t :: ds, c⟩ v1 hr, hp⟩

/-- C4 as stated fails: on the ten octets backslash U 0 0 0 1 F 6 0 0
`esc_bsubst` decodes the six digits 0001F6 to U+01F6, writes C7 B6 and then
copies the last two digits, so `dst` gets C7 B6 30 30 and not F0 9F 98 80. -/
theorem C4_ten_octets_counterexample :
    (esc_bsubst u8_state_zero esc_state_init octetbuf_zero
        ⟨[92, 85, 48, 48, 48, 49, 70, 54, 48, 48], 0⟩).map (fun r => r.dst.p)
      = some [0xC7, 0xB6, 0x30, 0x30]
    ∧ (esc_bsubst u8_state_zero esc_state_init octetbuf_zero
        ⟨[92, 85, 48, 48, 48, 49, 70, 54, 48, 48], 0⟩).map (fun r => r.dst.p)
      ≠ some [0xF0, 0x9F, 0x98, 0x80] := by
  decide

/-- C4, amended: on the eight octets backslash U 0 1 F 6 0 0 (six digits, as
the state UCS takes exactly six) `esc_bsubst` appends to `dst` exactly the
four octets F0 9F 98 80, the UTF-8 encoding of U+1F600. -/
theorem C4_U01F600 (g : u8_state) (esp : esc_state_) (dst : octetbuf) (c : Nat)
    (hesc : esp.escape = ESCAPE) (hok : octetbuf_ok dst) :
    ∃ r, esc_bsubst g esp dst ⟨[92, 85, 48, 49, 70, 54, 48, 48], c⟩ = some r
      ∧ r.dst.p = dst.p ++ [0xF0, 0x9F, 0x98, 0x80] := by
  have h := fixed_escape_utf8 g esp dst c ESC_UCS 6 [48, 49, 70, 54, 48, 48]
    (Or.inr ⟨rfl, rfl⟩) hesc hok (by decide) rfl (by decide) (by decide)
  have e : utf8 (hexval [48, 49, 70, 54, 48, 48]) = [0xF0, 0x9F, 0x98, 0x80] := by decide
  rw [e] at h
  exact h

/-- Witness of C4_U01F600: the state that `esc_create` makes without a digraph
file and a zeroed destination. -/
theorem C4_U01F600_witness :
    esc_state_init.escape = ESCAPE ∧ octetbuf_ok octetbuf_zero
    ∧ ∃ r, esc_bsubst u8_state_zero esc_state_init octetbuf_zero
        ⟨[92, 85, 48, 49, 70, 54, 48, 48], 0⟩ = some r
      ∧ r.dst.p = octetbuf_zero.p ++ [0xF0, 0x9F, 0x98, 0x80] :=
  ⟨rfl, by decide, C4_U01F600 u8_state_zero esc_state_init octetbuf_zero 0 rfl (by decide)⟩


/-- C5 as stated fails: on backslash circumflex brace 1 F 6 0 0 brace the
circumflex leads to state DGR0, the opening brace is no member of the
invariant class, so the token is invalid and all nine octets are copied to
`dst` unchanged; F0 9F 98 80 is not written. -/
theorem C5_circumflex_counterexample :
    (esc_bsubst u8_state_zero esc_state_init octetbuf_zero
        ⟨[92, 94, 123, 49, 70, 54, 48, 48, 125], 0⟩).map (fun r => r.dst.p)
      = some [92, 94, 123, 49, 70, 54, 48, 48, 125]
    ∧ (esc_bsubst u8_state_zero esc_state_init octetbuf_zero
        ⟨[92, 94, 123, 49, 70, 54, 48, 48, 125], 0⟩).map (fun r => r.dst.p)
      ≠ some [0xF0, 0x9F, 0x98, 0x80] := by
  decide

/-- C5, amended: the braced escape is written backslash, opening brace, digits,
closing brace (without a circumflex).  With 1 to 10 hexadecimal digits whose
value v is a scalar value other than FFFF, `esc_bsubst` appends to `dst`
exactly the UTF-8 encoding of v. -/
theorem C5_braced_escape (g : u8_state) (esp : esc_state_) (dst : octetbuf) (c : Nat)
    (ds : List Nat) (hesc : esp.escape = ESCAPE) (hok : octetbuf_ok dst)
    (hx : ∀ d ∈ ds, isxdigit d = true) (h1 : 1 ≤ ds.length) (h10 : ds.length ≤ 10)
    (hs : is_scalar (hexval ds)) (hff : hexval ds ≠ 0xFFFF) :
    ∃ r, esc_bsubst g esp dst ⟨ESCAPE :: ESC_GRPO :: (ds ++ [ESC_GRPC]), c⟩ = some r
      ∧ r.dst.p = dst.p ++ utf8 (hexval ds) := by
  have henc := u8fc32_eq_utf8 (hexval ds) hs hff
  have hne : ds ≠ [] := by intro h0; subst h0; simp at h1
  have hval : hexval ds < 2 ^ 31 := by unfold is_scalar at hs; omega
  obtain ⟨v1, hr, _, _, hp, _⟩ := run_braced esp hesc (bsubst_vars_init g dst) dst.p ds
    (utf8 (hexval ds)) hne (by simp only [SEQMAX]; omega) hx hval henc (at_state_init g dst hok)
  exact ⟨_, esc_bsubst_of_run g esp dst ⟨ESCAPE :: ESC_GRPO :: (ds ++ [ESC_GRPC]), c⟩ v1 hr, hp⟩

/-- Witness of C5_braced_escape: backslash brace 1 F 6 0 0 brace, whose value
1F600 is encoded as F0 9F 98 80, the octets that backslash U 0 1 F 6 0 0
gives. -/
theorem C5_braced_escape_witness :
    esc_state_init.escape = ESCAPE ∧ octetbuf_ok octetbuf_zero
    ∧ (∀ d ∈ [49, 70, 54, 48, 48], isxdigit d = true)
    ∧ is_scalar (hexval [49, 70, 54, 48, 48]) ∧ hexval [49, 70, 54, 48, 48] ≠ 0xFFFF
    ∧ utf8 (hexval [49, 70, 54, 48, 48]) = [0xF0, 0x9F, 0x98, 0x80]
    ∧ ∃ r, esc_bsubst u8_state_zero esc_state_init octetbuf_zero
        ⟨[92, 123, 49, 70, 54, 48, 48, 125], 0⟩ = some r
      ∧ r.dst.p = octetbuf_zero.p ++ utf8 (hexval [49, 70, 54, 48, 48]) :=
  ⟨rfl, by decide, by decide, by decide, by decide, by decide,
    C5_braced_escape u8_state_zero esc_state_init octetbuf_zero 0 [49, 70, 54, 48, 48] rfl
      (by decide) (by decide) (by decide) (by decide) (by decide) (by decide)⟩

/-- C6 as stated fails: with the key u colon registered for U+00FC, on
backslash u colon the letter u leads to state BMP, the colon is no
hexadecimal digit, and the three octets are copied to `dst` unchanged; the
encoding C3 BC of U+00FC is not written. -/
theorem C6_key_u_counterexample :
    ((esc_create u8_state_zero [(117, 58, 0xFC)]).bind (fun ge =>
        esc_bsubst ge.1 ge.2 octetbuf_zero ⟨[92, 117, 58], 0⟩)).map (fun r => r.dst.p)
      = some [92, 117, 58]
    ∧ utf8 0xFC = [0xC3, 0xBC] := by
  decide

/-- C6, amended.  The digraph table is built by `esc_create` from lines whose
keys are pairwise distinct, every `esc_define` having returned.  A key of two
members c1, c2 of the invariant class is registered with the scalar U, where
c1 is none of u, U and circumflex (after the escape character these start a
hex escape or the digraph with a circumflex in front) and U is neither 0 nor
FFFF.  Then `esc_bsubst` on backslash c1 c2 appends to `dst` exactly the
UTF-8 encoding of U. -/
theorem C6_registered_digraph (lines : List (Nat × Nat × Int)) (c1 c2 : Nat) (U : Int)
    (dst : octetbuf) (c : Nat)
    (hbuilt : (esc_create u8_state_zero lines).isSome = true)
    (hnd : (lines.map dgr_key).Nodup)
    (hmem : (c1, c2, U) ∈ lines)
    (hc1 : IS646INV c1 = true) (hc2 : IS646INV c2 = true)
    (h1 : c1 ≠ ESC_BMP) (h2 : c1 ≠ ESC_UCS) (h3 : c1 ≠ ESC_DGR)
    (hU0 : U ≠ 0) (hUF : U ≠ 0xFFFF) (hok : octetbuf_ok dst) :
    ∃ g es r, esc_create u8_state_zero lines = some (g, es)
      ∧ esc_bsubst g es dst ⟨[ESCAPE, c1, c2], c⟩ = some r
      ∧ r.dst.p = dst.p ++ utf8 U.toNat := by
  obtain ⟨⟨g, es⟩, hcreate⟩ := Option.isSome_iff_exists.mp hbuilt
  obtain ⟨hg, hesc, news, hd, hf⟩ := esc_create_spec lines g es hcreate
  subst hg
  have hs : es.dgrs.Pairwise (fun a b => cmpdgr a b ≤ 0) := by rw [hd]; exact qsort_sorted news
  have hall : ∀ d ∈ es.dgrs, ∃ l ∈ lines, dgr_for es.defs l d := by
    intro d hdm
    rw [hd, mem_qsort] at hdm
    exact forall₂_right hf d hdm
  -- the record of the line (c1, c2, U)
  obtain ⟨d0, hd0m, hd0⟩ := forall₂_left hf (c1, c2, U) hmem
  have hd0m' : d0 ∈ es.dgrs := by rw [hd, mem_qsort]; exact hd0m
  have hlt2 := IS646INV_lt c2 hc2
  obtain ⟨f1, _, _⟩ := IS646INV_small c2 hlt2 hc2
  have hsp : c2 ≠ SP := by simp only [SP]; omega
  have hkey0 : cmpdgr ⟨c1, c2, 0⟩ d0 = 0 := by
    rw [cmpdgr_eq_zero]
    obtain ⟨a, b, _⟩ := hd0
    simp only at a b
    rw [a, b, if_neg hsp]
    exact ⟨rfl, rfl⟩
  -- the two-character lookup finds it
  obtain ⟨bs, henc, he2⟩ : ∃ bs, u8fc32 U = some bs ∧ ∀ buf,
      esc_expand u8_state_zero es buf c1 c2
        = some (u8_state_zero, bs ++ buf.drop bs.length, bs.length) := by
    cases hb : bsearch ⟨c1, c2, 0⟩ es.dgrs with
    | none =>
      exact absurd hkey0 ((bsearch_spec ⟨c1, c2, 0⟩ es.dgrs hs).2 hb d0 hd0m')
    | some e =>
      obtain ⟨hem, hez⟩ := (bsearch_spec ⟨c1, c2, 0⟩ es.dgrs hs).1 e hb
      obtain ⟨l, hl, hdl⟩ := hall e hem
      have hk : dgr_key l = dgr_key (c1, c2, U) := by
        rw [cmpdgr_eq_zero] at hez
        obtain ⟨a, b, _⟩ := hdl
        simp only at hez
        unfold dgr_key
        simp only [if_neg hsp]
        rw [← a, ← b, hez.1, hez.2]
      have hl2 : l = (c1, c2, U) := List.inj_on_of_nodup_map hnd hl hmem hk
      subst hl2
      obtain ⟨bs, henc, _⟩ := esc_expand_found es [] c1 c2 e (c1, c2, U) hb hdl
      refine ⟨bs, henc, ?_⟩
      intro buf
      obtain ⟨bs', henc', he⟩ := esc_expand_found es buf c1 c2 e (c1, c2, U) hb hdl
      simp only at henc henc' he
      rw [henc] at henc'
      cases henc'
      simpa [hU0] using he
  have hU : 0 ≤ U ∧ is_scalar U.toNat := ⟨hd0.2.2.2.1, hd0.2.2.2.2.1⟩
  have hbs : bs = utf8 U.toNat := by
    have := u8fc32_eq_utf8 U.toNat hU.2 (by omega)
    have hcast : ((U.toNat : Nat) : Int) = U := by omega
    rw [hcast, henc] at this
    exact Option.some.inj this
  have hlen := u8fc32_length _ _ henc
  -- the three steps of the scanner
  obtain ⟨v1, b1, s1, g1, _⟩ := body_outside_escape_g es (bsubst_vars_init u8_state_zero dst)
    dst.p hesc (at_state_init u8_state_zero dst hok)
  obtain ⟨v2, b2, s2, g2, _⟩ := body_escape_dgr es v1 dst.p c1 hesc hc1 h1 h2 h3 s1
  obtain ⟨buf1, r1, he1⟩ := esc_expand_total es lines hs hall v2.u8seq1 c1 NUL
  obtain ⟨v3, b3, s3⟩ := body_dgr_two es v2 dst.p c1 c2 bs buf1 r1 hc1 hc2 h3
    (by rw [g2, g1]; rfl) he1 (he2 v2.u8seq2) hlen.2 s2
  have hrun : esc_run es [ESCAPE, c1, c2] (bsubst_vars_init u8_state_zero dst) = some v3 := by
    simp only [esc_run, b1, b2, b3]
  refine ⟨u8_state_zero, es, _, hcreate,
    esc_bsubst_of_run u8_state_zero es dst ⟨[ESCAPE, c1, c2], c⟩ v3 hrun, ?_⟩
  rw [← hbs]
  exact s3.2.2.1

/-- Witness of C6_registered_digraph: a table of three digraphs, the key a
colon registered for U+00E4; backslash a colon gives C3 A4. -/
theorem C6_registered_digraph_witness :
    (esc_create u8_state_zero [(97, 58, 0xE4), (97, 32, 0xE5), (117, 58, 0xFC)]).isSome = true
    ∧ ([(97, 58, 0xE4), (97, 32, 0xE5), (117, 58, 0xFC)].map dgr_key).Nodup
    ∧ ((97, 58, 0xE4) : Nat × Nat × Int) ∈ [(97, 58, 0xE4), (97, 32, 0xE5), (117, 58, 0xFC)]
    ∧ IS646INV 97 = true ∧ IS646INV 58 = true
    ∧ utf8 (Int.toNat 0xE4) = [0xC3, 0xA4]
    ∧ ∃ g es r,
        esc_create u8_state_zero [(97, 58, 0xE4), (97, 32, 0xE5), (117, 58, 0xFC)] = some (g, es)
      ∧ esc_bsubst g es octetbuf_zero ⟨[ESCAPE, 97, 58], 0⟩ = some r
      ∧ r.dst.p = octetbuf_zero.p ++ utf8 (Int.toNat 0xE4) :=
  ⟨by decide, by decide, by decide, by decide, by decide, by decide,
    C6_registered_digraph [(97, 58, 0xE4), (97, 32, 0xE5), (117, 58, 0xFC)] 97 58 0xE4
      octetbuf_zero 0 (by decide) (by decide) (by decide) (by decide) (by decide)
      (by decide) (by decide) (by decide) (by decide) (by decide) (by decide)⟩


/-- C7, the code as it stands.  The key a space is registered for U+00E5 and
stored as the one-character key a.  On backslash a space `esc_bsubst` writes
nothing at all: `u8nseq2` still is 0 from its initialisation, so the test
`u8nseq2 != -1` succeeds, zero octets of `u8seq2` are written and `ch` is
cleared.  The one-character form is written (C3 A5, then the octet x) when
the second octet is a member of the invariant class such as x. -/
theorem C7_one_character_key_lost :
    ((esc_create u8_state_zero [(97, 32, 0xE5)]).bind (fun ge =>
        esc_bsubst ge.1 ge.2 octetbuf_zero ⟨[92, 97, 32], 0⟩)).map (fun r => r.dst.p)
      = some []
    ∧ ((esc_create u8_state_zero [(97, 32, 0xE5)]).bind (fun ge =>
        esc_bsubst ge.1 ge.2 octetbuf_zero ⟨[92, 97, 120], 0⟩)).map (fun r => r.dst.p)
      = some [0xC3, 0xA5, 120]
    ∧ utf8 0xE5 = [0xC3, 0xA5] := by
  decide

/-- C8, the code as it stands.  No digraph is registered.  On backslash a
space `esc_bsubst` writes nothing, so the three octets are dropped; on
backslash a b, where the second octet is in the invariant class, the three
octets are copied unchanged. -/
theorem C8_unregistered_key_dropped :
    (esc_bsubst u8_state_zero esc_state_init octetbuf_zero
        ⟨[92, 97, 32], 0⟩).map (fun r => r.dst.p) = some []
    ∧ (esc_bsubst u8_state_zero esc_state_init octetbuf_zero
        ⟨[92, 97, 98], 0⟩).map (fun r => r.dst.p) = some [92, 97, 98] := by
  decide

/-- C9, the code as it stands.  On backslash u D 8 0 0 (a surrogate)
`esc_bsubst` writes seven octets, the six of the escape and the last digit
once more: the digit is in `seq` already when the code block fails, and `ch`
is not cleared.  The same happens for backslash U 1 1 0 0 0 0.  The braced
form backslash brace D 8 0 0 brace is copied unchanged. -/
theorem C9_last_digit_twice :
    (esc_bsubst u8_state_zero esc_state_init octetbuf_zero
        ⟨[92, 117, 68, 56, 48, 48], 0⟩).map (fun r => r.dst.p)
      = some [92, 117, 68, 56, 48, 48, 48]
    ∧ (esc_bsubst u8_state_zero esc_state_init octetbuf_zero
        ⟨[92, 85, 49, 49, 48, 48, 48, 48], 0⟩).map (fun r => r.dst.p)
      = some [92, 85, 49, 49, 48, 48, 48, 48, 48]
    ∧ (esc_bsubst u8_state_zero esc_state_init octetbuf_zero
        ⟨[92, 123, 68, 56, 48, 48, 125], 0⟩).map (fun r => r.dst.p)
      = some [92, 123, 68, 56, 48, 48, 125] := by
  decide

/-- C10 as stated fails for the octet NUL: on backslash u 1 2 NUL the four
octets read so far are copied to `dst` but the NUL is not, since a `ch` equal
to NUL is never written. -/
theorem C10_nul_counterexample :
    isxdigit 0 = false
    ∧ (esc_bsubst u8_state_zero esc_state_init octetbuf_zero
        ⟨[92, 117, 49, 50, 0], 0⟩).map (fun r => r.dst.p) = some [92, 117, 49, 50]
    ∧ (esc_bsubst u8_state_zero esc_state_init octetbuf_zero
        ⟨[92, 117, 49, 50, 0], 0⟩).map (fun r => r.dst.p) ≠ some [92, 117, 49, 50, 0] := by
  decide

/-- C10, amended: a fixed-width escape (backslash u with fewer than 4 digits,
backslash U with fewer than 6) that is cut short by an octet b which is no
hexadecimal digit and not NUL.  Met in state OUTSIDE anywhere in the window,
it makes `esc_bsubst` append the octets read so far and b, that is the source
octets unchanged, and leaves the scanner in state OUTSIDE with an empty token
buffer. -/
theorem C10_fixed_escape_cut_short (esp : esc_state_) (v : bsubst_vars) (k : Nat)
    (t lim : Nat) (ds : List Nat) (b : Nat)
    (ht : (t = ESC_BMP ∧ lim = 4) ∨ (t = ESC_UCS ∧ lim = 6))
    (hesc : esp.escape = ESCAPE)
    (hst : v.st = ST_OUTSIDE) (hseq : v.seq = []) (hok : octetbuf_ok v.dst)
    (hx : ∀ d ∈ ds, isxdigit d = true) (hlen : ds.length < lim)
    (hb : isxdigit b = false) (hb0 : b ≠ 0) (hb256 : b < 256) :
    ∃ v1, esc_loop esp (ESCAPE :: t :: (ds ++ [b])) v k = some (v1, k + (ds.length + 3))
      ∧ v1.st = ST_OUTSIDE ∧ v1.seq = []
      ∧ v1.dst.p = v.dst.p ++ ESCAPE :: t :: (ds ++ [b]) := by
  obtain ⟨st, lim2, hst2, hc, hl2⟩ : ∃ st lim2,
      ((st = ST_BMP ∧ lim2 = 6) ∨ (st = ST_UCS ∧ lim2 = 8))
        ∧ ((t = ESC_BMP ∧ st = ST_BMP) ∨ (t = ESC_UCS ∧ st = ST_UCS)
          ∨ (t = ESC_GRPO ∧ st = ST_UNI) ∨ (t = ESC_DGR ∧ st = ST_DGR0))
        ∧ ds.length + 2 < lim2 := by
    rcases ht with ⟨a, b⟩ | ⟨a, b⟩
    · exact ⟨ST_BMP, 6, Or.inl ⟨rfl, rfl⟩, Or.inl ⟨a, rfl⟩, by omega⟩
    · exact ⟨ST_UCS, 8, Or.inr ⟨rfl, rfl⟩, Or.inr (Or.inl ⟨a, rfl⟩), by omega⟩
  have hst3 : (st = ST_BMP ∧ lim2 = 6) ∨ (st = ST_UCS ∧ lim2 = 8)
      ∨ (st = ST_UNI ∧ lim2 = SEQMAX) := by
    rcases hst2 with a | a
    · exact Or.inl a
    · exact Or.inr (Or.inl a)
  have h0 : at_state v ST_OUTSIDE [] v.dst.p := ⟨hst, hseq, rfl, hok⟩
  obtain ⟨v1, e1, s1⟩ := body_outside_escape esp v v.dst.p hesc h0
  obtain ⟨v2, e2, s2⟩ := body_escape_intro esp v1 v.dst.p t st hc s1
  obtain ⟨v3, e3, s3⟩ := run_xdigits esp st lim2 hst3 v.dst.p ds [ESCAPE, t] v2 hx
    (by simp; omega) s2
  obtain ⟨v4, e4, s4⟩ := body_fixed_nonhex esp v3 st lim2 hst2 ([ESCAPE, t] ++ ds) v.dst.p b
    hb hb0 hb256 (by simp; omega) s3
  refine ⟨v4, ?_, s4.1, s4.2.1, ?_⟩
  · rw [esc_loop_eq_run]
    simp only [esc_run, e1, e2]
    rw [esc_run_append, e3]
    simp only [Option.bind, esc_run, e4, Option.map, List.length_cons, List.length_append,
      List.length_singleton, List.length_nil]
  · rw [s4.2.2.1]; simp

/-- Witness of C10_fixed_escape_cut_short: backslash u 1 2 x at the start of
`esc_bsubst`. -/
theorem C10_fixed_escape_cut_short_witness :
    ((117 = ESC_BMP ∧ 4 = 4) ∨ (117 = ESC_UCS ∧ 4 = 6))
    ∧ esc_state_init.escape = ESCAPE
    ∧ (bsubst_vars_init u8_state_zero octetbuf_zero).st = ST_OUTSIDE
    ∧ (bsubst_vars_init u8_state_zero octetbuf_zero).seq = []
    ∧ octetbuf_ok (bsubst_vars_init u8_state_zero octetbuf_zero).dst
    ∧ (∀ d ∈ [49, 50], isxdigit d = true) ∧ [49, 50].length < 4
    ∧ isxdigit 120 = false ∧ 120 ≠ 0 ∧ 120 < 256
    ∧ ∃ v1, esc_loop esc_state_init (ESCAPE :: 117 :: ([49, 50] ++ [120]))
          (bsubst_vars_init u8_state_zero octetbuf_zero) 0 = some (v1, 0 + ([49, 50].length + 3))
        ∧ v1.st = ST_OUTSIDE ∧ v1.seq = []
        ∧ v1.dst.p = (bsubst_vars_init u8_state_zero octetbuf_zero).dst.p
            ++ ESCAPE :: 117 :: ([49, 50] ++ [120]) :=
  ⟨Or.inl ⟨rfl, rfl⟩, rfl, rfl, rfl, by decide, by decide, by decide, by decide, by decide,
    by decide,
    C10_fixed_escape_cut_short esc_state_init (bsubst_vars_init u8_state_zero octetbuf_zero) 0
      117 4 [49, 50] 120 (Or.inl ⟨rfl, rfl⟩) rfl rfl rfl (by decide) (by decide) (by decide)
      (by decide) (by decide) (by decide)⟩

/-- C11 as stated fails for a sequence with a NUL octet: a 0 b holds neither
trigger character, but `esc_bsubst` appends only a b. -/
theorem C11_nul_counterexample :
    (92 ∉ [97, 0, 98]) ∧ (36 ∉ [97, 0, 98])
    ∧ (esc_bsubst u8_state_zero esc_state_init octetbuf_zero
        ⟨[97, 0, 98], 0⟩).map (fun r => r.dst.p) = some [97, 98]
    ∧ (esc_bsubst u8_state_zero esc_state_init octetbuf_zero
        ⟨[97, 0, 98], 0⟩).map (fun r => r.dst.p) ≠ some [97, 0, 98] := by
  decide

/-- C11, amended: for every sequence `s` of octets that holds neither the
escape character nor the substitution character nor NUL, `esc_bsubst`
appends exactly `s` to `dst`. -/
theorem C11_trigger_free_text (g : u8_state) (esp : esc_state_) (dst : octetbuf) (c : Nat)
    (s : List Nat) (hok : octetbuf_ok dst)
    (hesc : esp.escape < 256) (hsub : esp.subst < 256)
    (hs : ∀ b ∈ s, b < 256 ∧ b ≠ esp.escape ∧ b ≠ esp.subst ∧ b ≠ 0) :
    ∃ r, esc_bsubst g esp dst ⟨s, c⟩ = some r ∧ r.dst.p = dst.p ++ s := by
  obtain ⟨v1, hr, _, _, hp, _⟩ := run_plain esp s (bsubst_vars_init g dst) dst.p
    (fun b hb => ⟨(hs b hb).2.2.2, (hs b hb).1,
      ch_eq_false_of_ne b _ hesc (hs b hb).2.1, ch_eq_false_of_ne b _ hsub (hs b hb).2.2.1⟩)
    (at_state_init g dst hok)
  exact ⟨_, esc_bsubst_of_run g esp dst ⟨s, c⟩ v1 hr, hp⟩

/-- Witness of C11_trigger_free_text: the text a b c in the default state. -/
theorem C11_trigger_free_text_witness :
    octetbuf_ok octetbuf_zero ∧ esc_state_init.escape < 256 ∧ esc_state_init.subst < 256
    ∧ (∀ b ∈ [97, 98, 99], b < 256 ∧ b ≠ esc_state_init.escape ∧ b ≠ esc_state_init.subst
        ∧ b ≠ 0)
    ∧ ∃ r, esc_bsubst u8_state_zero esc_state_init octetbuf_zero ⟨[97, 98, 99], 0⟩ = some r
      ∧ r.dst.p = octetbuf_zero.p ++ [97, 98, 99] :=
  ⟨by decide, by decide, by decide, by decide,
    C11_trigger_free_text u8_state_zero esc_state_init octetbuf_zero 0 [97, 98, 99]
      (by decide) (by decide) (by decide) (by decide)⟩

/-- C12, the code as it stands.  The resolver returns the text it gets.  For
the name n of one character, on dollar n ( x ) the parenthesis is not
accepted (the test is `nseq > 2`), the token is invalid and the five octets
are copied unchanged; the resolver result n ( x ) is not written.  For the
name n m of two characters the resolver text n m ( x ) is written. -/
theorem C12_one_character_name :
    (esc_bsubst u8_state_zero { esc_state_init with cb := some cb_echo } octetbuf_zero
        ⟨[36, 110, 40, 120, 41], 0⟩).map (fun r => r.dst.p) = some [36, 110, 40, 120, 41]
    ∧ (esc_bsubst u8_state_zero { esc_state_init with cb := some cb_echo } octetbuf_zero
        ⟨[36, 110, 109, 40, 120, 41], 0⟩).map (fun r => r.dst.p)
      = some [110, 109, 40, 120, 41] := by
  decide

/-- C13, the code as it stands.  The resolver returns NULL.  On dollar a b )
the closing parenthesis that ends the plain token is not written: `dst` gets
dollar a b only.  The same happens with a closing brace.  On dollar n { a m e }
both braces are lost.  With a full stop as the terminating octet, and for the
form with an argument, the source octets are copied unchanged. -/
theorem C13_terminating_octet_lost :
    (esc_bsubst u8_state_zero { esc_state_init with cb := some cb_null } octetbuf_zero
        ⟨[36, 97, 98, 41], 0⟩).map (fun r => r.dst.p) = some [36, 97, 98]
    ∧ (esc_bsubst u8_state_zero { esc_state_init with cb := some cb_null } octetbuf_zero
        ⟨[36, 97, 98, 125], 0⟩).map (fun r => r.dst.p) = some [36, 97, 98]
    ∧ (esc_bsubst u8_state_zero { esc_state_init with cb := some cb_null } octetbuf_zero
        ⟨[36, 110, 123, 97, 109, 101, 125], 0⟩).map (fun r => r.dst.p)
      = some [36, 110, 97, 109, 101]
    ∧ (esc_bsubst u8_state_zero { esc_state_init with cb := some cb_null } octetbuf_zero
        ⟨[36, 97, 98, 46], 0⟩).map (fun r => r.dst.p) = some [36, 97, 98, 46]
    ∧ (esc_bsubst u8_state_zero { esc_state_init with cb := some cb_null } octetbuf_zero
        ⟨[36, 97, 98, 40, 120, 41], 0⟩).map (fun r => r.dst.p)
      = some [36, 97, 98, 40, 120, 41] := by
  decide

/-- C14, the code as it stands.  The resolver returns the text it gets.  On
dollar { a b } the opening brace right after the dollar sign is not accepted
(the test is `nseq == 2`), so the token is invalid and the five octets are
copied unchanged; the resolver text a b is not written.  The plain form
dollar a b followed by a space gives a b and the space. -/
theorem C14_brace_form_not_recognised :
    (esc_bsubst u8_state_zero { esc_state_init with cb := some cb_echo } octetbuf_zero
        ⟨[36, 123, 97, 98, 125], 0⟩).map (fun r => r.dst.p) = some [36, 123, 97, 98, 125]
    ∧ (esc_bsubst u8_state_zero { esc_state_init with cb := some cb_echo } octetbuf_zero
        ⟨[36, 97, 98, 32], 0⟩).map (fun r => r.dst.p) = some [97, 98, 32] := by
  decide

/-- C15 as stated fails: on the window a b `esc_bsubst` passes two octets and
returns 0. -/
theorem C15_return_counterexample :
    (esc_bsubst u8_state_zero esc_state_init octetbuf_zero
        ⟨[97, 98], 0⟩).map (fun r => (r.dst.p, r.src.p, r.ret)) = some ([97, 98], [], 0) := by
  decide

/-- C15, amended: `esc_bsubst` returns what `octetbuf_shift` returns, the
number of octets that `src` holds after the call. -/
theorem C15_returns_new_size (g : u8_state) (esp : esc_state_) (dst src : octetbuf)
    (r : bsubst_result) (h : esc_bsubst g esp dst src = some r) :
    r.ret = r.src.p.length := by
  obtain ⟨h1, h2⟩ := esc_bsubst_src_empty g esp dst src r h
  rw [h1, h2]
  rfl

/-- Witness of C15_returns_new_size: the window a b in the default state. -/
theorem C15_returns_new_size_witness :
    esc_bsubst u8_state_zero esc_state_init octetbuf_zero ⟨[97, 98], 0⟩
      = some { g := u8_state_zero, dst := ⟨[97, 98], 484⟩, src := ⟨[], 0⟩, ret := 0 }
    ∧ (0 : Nat) = ([] : List Nat).length :=
  ⟨by decide, C15_returns_new_size u8_state_zero esc_state_init octetbuf_zero ⟨[97, 98], 0⟩
    { g := u8_state_zero, dst := ⟨[97, 98], 484⟩, src := ⟨[], 0⟩, ret := 0 } (by decide)⟩

/-- C16, the code as it stands.  On the stack as `load_repl_defs` sets it up,
an element without attributes is entered with the value 8 stored in the slot
of its sentinel: `att_val("title", 1)` does not return NULL, it fails the
assertion `validx < attr_buf.n`, which the loop makes for the sentinel as for
an attribute although the slot of a sentinel holds no offset into the text
(of size 1 here).  After push_att("title", "Hello") the text has 13 octets:
with 8 in the slot of the sentinel `att_val("title", 1)` is "Hello", but with
any value from 13 on the assertion fails again.  And for the empty name
`att_val` returns the text at the offset that the slot of the sentinel holds,
the octets e l l o. -/
theorem C16_sentinel_slot_fails_assertion :
    (close_atts att_stack_init 8).attr_buf.p = [0]
      ∧ att_val (close_atts att_stack_init 8) s_title 1 = none
      ∧ (push_att att_stack_init s_title s_Hello).attr_buf.p.length = 13
      ∧ att_val (close_atts (push_att att_stack_init s_title s_Hello) 8) s_title 1
          = some (some s_Hello)
      ∧ (∀ v, att_val (close_atts (push_att att_stack_init s_title s_Hello) (13 + v)) s_title 1
          = none)
      ∧ att_val (close_atts (push_att att_stack_init s_title s_Hello) 8) [] 1
          = some (some [101, 108, 108, 111]) :=
  ⟨by decide, by decide, by decide, by decide,
    fun v => att_val_sentinel_slot_high _ (13 + v) s_title 0 (by decide) (by decide)
      (by
        have : (push_att att_stack_init s_title s_Hello).attr_buf.p.length = 13 := by decide
        omega),
    by decide⟩

/-- C17 as stated fails: with title="Parent" on the parent element and
title="Child" on the innermost one, `att_val("title", 2)` returns "Child",
not the value "Parent" of the parent frame.  And the claim amended for that
needs two conditions more.  On two frames without attributes closed with the
values 1 and 2 on the stack as `load_repl_defs` sets it up, whose text has
one octet, `att_val("title", 2)` does not return NULL: it fails the assertion
`validx < attr_buf.n` at the sentinel on top.  And for the empty name
`att_val` returns the text at the offset that the slot of the sentinel on top
holds (the octets i t l e at offset 2), though no attribute has that name. -/
theorem C17_parent_value_counterexample :
    frame_val [(s_title, s_Parent)] s_title = some s_Parent
      ∧ att_val (close_atts (push_att (close_atts (push_att att_stack_init s_title s_Parent) 1)
            s_title s_Child) 2) s_title 2 = some (some s_Child)
      ∧ att_val (close_atts (push_att (close_atts (push_att att_stack_init s_title s_Parent) 1)
            s_title s_Child) 2) s_title 2 ≠ some (some s_Parent)
      ∧ att_val (close_atts (close_atts att_stack_init 1) 2) s_title 2 = none
      ∧ att_val (close_atts (push_att (close_atts (push_att att_stack_init s_title s_Parent) 1)
            s_title s_Child) 2) [] 2 = some (some [105, 116, 108, 101]) :=
  ⟨by decide, by decide, by decide, by decide, by decide⟩

/-- C17, amended: on a stack with two closed frames on top, the values in the
slots of their two sentinels below the size of the attribute text, and for a
name that is not empty, `att_val(name, 2)` returns the innermost frame's
value for `name` when that frame has an attribute of the name, otherwise the
parent frame's value, and NULL when neither frame has one, whatever the stack
held before. -/
theorem C17_att_val_innermost_then_parent (s0 : att_stack)
    (pattrs cattrs : List (List Nat × List Nat)) (pnt cnt : Nat) (name : List Nat)
    (hs : att_stack_closed s0)
    (hp : pnt < (close_atts (push_atts (close_atts (push_atts s0 pattrs) pnt) cattrs)
      cnt).attr_buf.p.length)
    (hc : cnt < (close_atts (push_atts (close_atts (push_atts s0 pattrs) pnt) cattrs)
      cnt).attr_buf.p.length)
    (hname : cstr name ≠ []) :
    att_val (close_atts (push_atts (close_atts (push_atts s0 pattrs) pnt) cattrs) cnt) name 2
      = some (match frame_val cattrs name with
              | some v => some v
              | none => frame_val pattrs name) := by
  have hT : close_atts (push_atts (close_atts (push_atts s0 pattrs) pnt) cattrs) cnt
      = push_frames s0 [(pattrs, pnt), (cattrs, cnt)] := rfl
  rw [hT] at hp hc ⊢
  have hloop := att_val_loop_frames s0 hs name hname [(pattrs, pnt), (cattrs, cnt)]
    (push_frames s0 [(pattrs, pnt), (cattrs, cnt)]) 2 (att_ext_refl _) (by simp)
    (by
      intro f hf
      simp only [List.mem_cons, List.mem_singleton, List.not_mem_nil, or_false] at hf
      rcases hf with rfl | rfl
      · exact hp
      · exact hc)
  obtain ⟨_, hhead, _, hcl⟩ := hs
  obtain ⟨_, hext, _⟩ := push_frames_inv s0 ⟨by assumption, hhead, by assumption, hcl⟩
    [(pattrs, pnt), (cattrs, cnt)]
  have hbot := att_val_loop_bottom s0 (push_frames s0 [(pattrs, pnt), (cattrs, cnt)]) name hhead
    hcl hext
  have hfv : frames_val [(pattrs, pnt), (cattrs, cnt)] name
      = match frame_val cattrs name with
        | some v => some v
        | none => frame_val pattrs name := by
    have := frames_val_snoc [(pattrs, pnt)] (cattrs, cnt) name
    simp only [List.singleton_append] at this
    rw [this]
    cases frame_val cattrs name with
    | some v => rfl
    | none =>
      simp only
      have h1 := frames_val_snoc [] (pattrs, pnt) name
      simp only [List.nil_append] at h1
      rw [h1]
      cases frame_val pattrs name <;> rfl
  have htop : att_val (push_frames s0 [(pattrs, pnt), (cattrs, cnt)]) name 2
      = att_val_loop (push_frames s0 [(pattrs, pnt), (cattrs, cnt)]) name
          (push_frames s0 [(pattrs, pnt), (cattrs, cnt)]).nameidx_buf.length 2 := by
    rw [← hT, att_val_top _ _ _ 1]
    simp [close_atts]
  rw [htop, hloop, hfv]
  cases frame_val cattrs name with
  | some v => rfl
  | none =>
    simp only
    cases hfp : frame_val pattrs name with
    | some w => rfl
    | none =>
      simp only [List.length_cons, List.length_nil, Nat.sub_self]
      exact hbot

/-- Witness of C17_att_val_innermost_then_parent: title="Parent" on the parent
element, no attribute on the innermost one, the slots of the sentinels
holding 1 and 2 and the text 14 octets. -/
theorem C17_att_val_innermost_then_parent_witness :
    att_stack_closed att_stack_init
      ∧ 1 < (close_atts (push_atts (close_atts (push_atts att_stack_init
              [(s_title, s_Parent)]) 1) []) 2).attr_buf.p.length
      ∧ 2 < (close_atts (push_atts (close_atts (push_atts att_stack_init
              [(s_title, s_Parent)]) 1) []) 2).attr_buf.p.length
      ∧ cstr s_title ≠ []
      ∧ att_val (close_atts (close_atts (push_att att_stack_init s_title s_Parent) 1) 2)
          s_title 2 = some (some s_Parent) :=
  ⟨by decide, by decide, by decide, by decide,
    C17_att_val_innermost_then_parent att_stack_init [(s_title, s_Parent)] [] 1 2 s_title
      (by decide) (by decide) (by decide) (by decide)⟩

/-- C18: on a stack `s` between two elements, the `push_att` calls for any
attributes `attrs`, `close_atts` and `pop_atts` end in a stack with the name
offsets, the value offsets and the text of `s` (so also its length); every
`att_val` then returns what it returns on `s`, and the next `push_att` writes
the offsets it writes on `s`. -/
theorem C18_pop_restores (s : att_stack) (attrs : List (List Nat × List Nat)) (nt : Nat)
    (hs : att_stack_closed s) :
    ∃ s1, pop_atts (close_atts (push_atts s attrs) nt) = some s1
      ∧ s1.nameidx_buf = s.nameidx_buf ∧ s1.validx_buf = s.validx_buf
      ∧ s1.attr_buf.p = s.attr_buf.p
      ∧ (∀ name depth, att_val s1 name depth = att_val s name depth)
      ∧ (∀ an av, (push_att s1 an av).nameidx_buf = (push_att s an av).nameidx_buf
          ∧ (push_att s1 an av).validx_buf = (push_att s an av).validx_buf) := by
  obtain ⟨hok, hhead, hlen, hcl⟩ := hs
  obtain ⟨i1, i2, i3, i4, ⟨⟨C, hC⟩, _, _⟩⟩ := push_atts_inv s hok hhead hlen attrs
  have key : pop_atts (close_atts (push_atts s attrs) nt)
      = some ⟨⟨s.attr_buf.p, (push_atts s attrs).attr_buf.c⟩, s.nameidx_buf, s.validx_buf⟩ := by
    have hr := pop_atts_loop_round (push_atts s attrs).nameidx_buf.length
      (push_atts s attrs).attr_buf.p (push_atts s attrs).attr_buf.c
      (push_atts s attrs).nameidx_buf (push_atts s attrs).validx_buf NULLIDX nt (by simp [NULLIDX])
    have hcl2 : close_atts (push_atts s attrs) nt
        = ⟨⟨(push_atts s attrs).attr_buf.p, (push_atts s attrs).attr_buf.c⟩,
            (push_atts s attrs).nameidx_buf ++ [NULLIDX], (push_atts s attrs).validx_buf ++ [nt]⟩ := rfl
    rw [hcl2, pop_atts_top, hr]
    simp only [ne_eq, not_true_eq_false, if_false]
    rcases List.eq_nil_or_concat attrs with h0 | ⟨l, a, ha⟩
    · subst h0
      simp only [push_atts, List.foldl_nil]
      rcases hcl with h | h
      · have : ¬ s.nameidx_buf.length > 0 := by rw [h]; simp
        rw [if_neg this]
      · obtain ⟨hp, g⟩ := getLast_sentinel _ h
        rw [if_pos hp, g]
        simp
    · rw [List.concat_eq_append] at ha
      subst ha
      obtain ⟨j1, j2, j3, j4, j5⟩ := push_atts_inv s hok hhead hlen l
      obtain ⟨k1, k2, k3, k4⟩ := push_att_spec (push_atts s l) a.1 a.2 j1
      have hne2 : (push_atts s l).attr_buf.p ≠ [] := by
        intro h; rw [h] at j2; cases j2
      have hpos2 : 0 < (push_atts s l).attr_buf.p.length := List.length_pos.mpr hne2
      have c4 : (push_atts s l).attr_buf.p.length ≠ NULLIDX := by unfold NULLIDX; omega
      have hp : (push_atts s (l ++ [a])).nameidx_buf.length > 0 := by rw [i4]; simp
      have e : (push_atts s (l ++ [a])).nameidx_buf.length - 1 = s.nameidx_buf.length + l.length := by
        rw [i4]; simp
      have g : (push_atts s (l ++ [a])).nameidx_buf.get? (s.nameidx_buf.length + l.length)
          = some (push_atts s l).attr_buf.p.length := by
        rw [push_atts_snoc, k3, ← j4]
        simp
      rw [if_pos hp, e, g]
      simp only [if_pos c4]
      have := pop_atts_loop_frame s hok hhead hlen hcl l a (s.nameidx_buf.length + (l ++ [a]).length)
        (push_atts s (l ++ [a])).attr_buf.c [] (by simp)
      rw [i4]
      simpa using this
  refine ⟨_, key, rfl, rfl, rfl, fun name depth => att_val_congr _ _ name depth rfl rfl rfl, ?_⟩
  intro an av
  have hok1 : octetbuf_ok (⟨s.attr_buf.p, (push_atts s attrs).attr_buf.c⟩ : octetbuf) := by
    unfold octetbuf_ok at i1 ⊢
    rw [hC] at i1
    simp at i1 ⊢
    omega
  obtain ⟨_, _, a3, a4⟩ := push_att_spec s an av hok
  obtain ⟨_, _, b3, b4⟩ := push_att_spec
    ⟨⟨s.attr_buf.p, (push_atts s attrs).attr_buf.c⟩, s.nameidx_buf, s.validx_buf⟩ an av hok1
  exact ⟨by rw [a3, b3], by rw [a4, b4]⟩

/-- Witness of C18_pop_restores: the attribute title="Hello" pushed, closed
and popped on the initial stack. -/
theorem C18_pop_restores_witness :
    att_stack_closed att_stack_init
      ∧ ∃ s1, pop_atts (close_atts (push_atts att_stack_init [(s_title, s_Hello)]) 8) = some s1
        ∧ s1.nameidx_buf = att_stack_init.nameidx_buf
        ∧ s1.validx_buf = att_stack_init.validx_buf
        ∧ s1.attr_buf.p = att_stack_init.attr_buf.p
        ∧ (∀ name depth, att_val s1 name depth = att_val att_stack_init name depth)
        ∧ (∀ an av, (push_att s1 an av).nameidx_buf = (push_att att_stack_init an av).nameidx_buf
            ∧ (push_att s1 an av).validx_buf = (push_att att_stack_init an av).validx_buf) :=
  ⟨by decide, C18_pop_restores att_stack_init [(s_title, s_Hello)] 8 (by decide)⟩

/-- C19: for every node type below `NODE_NUM`, two `set_repl` calls for that
type with selectors without predicates both return, and `select_rule` for the
type then returns the record that the later call made, for every state of
the element stack. -/
theorem C19_later_rule_selected (rs : repl_state) (pti1 pti2 : taginfo_)
    (a0 a1 b0 b1 : Option (List Nat)) (cd1 cd2 : Bool)
    (hnt : pti1.nt < NODE_NUM) (hsame : pti2.nt = pti1.nt)
    (h1 : pti1.atts.head? = some NULLIDX) (h2 : pti2.atts.head? = some NULLIDX) :
    ∃ rs1 rs2, set_repl rs pti1 a0 a1 cd1 = some rs1 ∧ set_repl rs1 pti2 b0 b1 cd2 = some rs2
      ∧ ∀ s : att_stack, select_rule rs2 s pti1.nt = some (some ⟨pti2, b0, b1, cd2⟩) := by
  obtain ⟨rs1, e1, _, _⟩ := set_repl_no_preds rs pti1 a0 a1 cd1 hnt h1
  obtain ⟨rs2, e2, t2, _⟩ := set_repl_no_preds rs1 pti2 b0 b1 cd2 (by rw [hsame]; exact hnt) h2
  refine ⟨rs1, rs2, e1, e2, fun s => ?_⟩
  unfold select_rule
  rw [← hsame, t2]
  unfold select_rule_loop
  rw [select_rule_atts_no_preds _ s _ h2]

/-- Witness of C19_later_rule_selected: two rules for node type 3 set on the
initial statics. -/
theorem C19_later_rule_selected_witness :
    (3 : Nat) < NODE_NUM ∧ (3 : Nat) = 3
      ∧ ([0] : List Nat).head? = some NULLIDX ∧ ([0] : List Nat).head? = some NULLIDX
      ∧ ∃ rs1 rs2, set_repl repl_state_init ⟨3, [0]⟩ (some [60, 117, 108, 62]) none false
            = some rs1
          ∧ set_repl rs1 ⟨3, [0]⟩ (some [60, 111, 108, 62]) none false = some rs2
          ∧ ∀ s : att_stack, select_rule rs2 s 3
              = some (some ⟨⟨3, [0]⟩, some [60, 111, 108, 62], none, false⟩) :=
  ⟨by decide, rfl, rfl, rfl,
    C19_later_rule_selected repl_state_init ⟨3, [0]⟩ ⟨3, [0]⟩ (some [60, 117, 108, 62]) none
      (some [60, 111, 108, 62]) none false false (by decide) rfl rfl rfl⟩

/-- C20, the code as it stands.  The list of node type 3 holds a rule with the
predicate type=ordered in front of a rule without predicates.  For an
element of type 3 without attributes, entered on the stack as
`load_repl_defs` sets it up with 3 stored in the slot of its sentinel,
`select_rule(3)` does not return the rule without predicates: `att_val`,
called for the predicate, fails the assertion `validx < attr_buf.n` at the
sentinel, whose slot holds no offset into the text (of size 1 here).  With
the attribute type="bullet" the text has 13 octets: with 3 in the slot the
rule without predicates is returned, with any value from 13 on the assertion
fails again. -/
theorem C20_absent_attribute_fails_assertion :
    rs_lists.repl_tab 3 = [rule_ordered, rule_plain]
      ∧ (close_atts att_stack_init 3).attr_buf.p = [0]
      ∧ select_rule rs_lists (close_atts att_stack_init 3) 3 = none
      ∧ (push_atts att_stack_init [(s_type, s_bullet)]).attr_buf.p.length = 13
      ∧ select_rule rs_lists (close_atts (push_atts att_stack_init [(s_type, s_bullet)]) 3) 3
          = some (some rule_plain)
      ∧ ∀ v, select_rule rs_lists
          (close_atts (push_atts att_stack_init [(s_type, s_bullet)]) (13 + v)) 3 = none := by
  refine ⟨by decide, by decide, by decide, by decide, by decide, fun v => ?_⟩
  have hv : att_val (close_atts (push_atts att_stack_init [(s_type, s_bullet)]) (13 + v))
      s_type 1 = none :=
    att_val_sentinel_slot_high _ (13 + v) s_type 0 (by decide) (by decide)
      (by
        have : (push_atts att_stack_init [(s_type, s_bullet)]).attr_buf.p.length = 13 := by
          decide
        omega)
  have ht : cstr_at rs_lists.text_buf.p 1 = some s_type := by decide
  have hr : rs_lists.repl_tab 3 = [rule_ordered, rule_plain] := by decide
  have ha : rule_ordered.taginfo.atts = [1, 6, 0] := rfl
  have h1 : (1 : Nat) ≠ NULLIDX := by decide
  unfold select_rule
  rw [hr]
  unfold select_rule_loop
  rw [ha]
  unfold select_rule_atts
  simp only [if_neg h1, ht, hv]

/-- C21: for every replacement text `t` without attribute substitutions (no
`SO`; its end is the NUL behind it), every element stack and every output
whose flag `outbol` says whether it stands at the start of a line, `put_repl`
returns; it has written the octets of `t` in order, but for every
begin-of-line mark one line break when the output did not stand at the start
of a line and nothing when it did, and `outbol` again says whether the output
stands at the start of a line. -/
theorem C21_put_repl_line_starts (s : att_stack) (o : out_state) (t : List Nat)
    (ht : ∀ b ∈ t, b ≠ NUL ∧ b ≠ SO) (hinv : o.outbol = at_line_start o.out) :
    put_repl s o (t ++ [NUL])
      = some (some ⟨put_repl_spec o.out t, at_line_start (put_repl_spec o.out t)⟩) := by
  unfold put_repl
  have hf : t.length < (t ++ [NUL]).length + 1 := by
    simp only [List.length_append, List.length_singleton]; omega
  exact put_repl_loop_plain s [] t _ o ht hf hinv

/-- Witness of C21_put_repl_line_starts: the text + a + LF + b with marks at
the start, behind the a and behind the line break, on an output with nothing
written. -/
theorem C21_put_repl_line_starts_witness :
    (∀ b ∈ [VT, 97, VT, 10, VT, 98], b ≠ NUL ∧ b ≠ SO)
      ∧ out_state_init.outbol = at_line_start out_state_init.out
      ∧ put_repl att_stack_init out_state_init ([VT, 97, VT, 10, VT, 98] ++ [NUL])
          = some (some ⟨[97, 10, 10, 98], false⟩) :=
  ⟨by decide, by decide,
    C21_put_repl_line_starts att_stack_init out_state_init [VT, 97, VT, 10, VT, 98]
      (by decide) (by decide)⟩

/-- C22 as stated fails: with a CDATA rule for node type 8 and no rule for
node type 17, the enter event of an element 8 sets `is_cdata`, but after a
child 17 has been entered and left the flag is false while 8 is again the
innermost open element, and the text of a text event that follows is written
escaped. -/
theorem C22_after_child_counterexample :
    (repl_events rs_cdata esc_sample repl_run_init [esis_event.start 8]).map
        (fun st => (current_nt st.atts, st.is_cdata)) = some (some 8, true)
      ∧ (repl_events rs_cdata esc_sample repl_run_init
          [esis_event.start 8, esis_event.start 17, esis_event.end_ 17]).map
        (fun st => (current_nt st.atts, st.is_cdata)) = some (some 8, false)
      ∧ (repl_events rs_cdata esc_sample repl_run_init
          [esis_event.start 8, esis_event.start 17, esis_event.end_ 17,
           esis_event.cdata [60]]).map (fun st => st.o.out) = some [38, 108, 116, 59]
      ∧ (repl_events rs_cdata esc_sample repl_run_init
          [esis_event.start 8, esis_event.cdata [60]]).map (fun st => st.o.out)
        = some [60] := by
  decide

/-- C22, amended: when the enter event of an element returns and the element
is an HTML block or HTML inline element, or the rule selected for it carries
the CDATA flag, the text events that follow before another element is
entered or left are all handled with `is_cdata` true: their octets are
written as they are. -/
theorem C22_cdata_before_child (rs : repl_state) (esc : List Nat → List Nat)
    (st st1 : repl_run) (nt : Nat) (texts : List (List Nat))
    (hlen : st.atts.nameidx_buf.length = st.atts.validx_buf.length)
    (h : repl_Start rs st nt = some st1)
    (hcd : nt = CMARK_NODE_HTML_BLOCK ∨ nt = CMARK_NODE_HTML_INLINE
      ∨ (nt ≠ CMARK_NODE_NONE ∧ ∃ rp, select_rule rs (close_atts st.atts nt) nt = some (some rp)
          ∧ rp.is_cdata = true)) :
    st1.is_cdata = true
      ∧ ∃ st2, repl_events rs esc st1 (texts.map esis_event.cdata) = some st2
        ∧ st2.o.out = st1.o.out ++ texts.flatten ∧ st2.is_cdata = true
        ∧ st2.atts = st1.atts := by
  obtain ⟨ha, hb, hc⟩ := repl_Start_spec rs st st1 nt h
  have hflag : st1.is_cdata = true := by
    rcases hcd with h1 | h1 | ⟨h0, rp, hsel, hrp⟩
    · exact hb (Or.inl h1)
    · exact hb (Or.inr h1)
    · exact hc rp h0 hsel hrp
  refine ⟨hflag, repl_events_cdata rs esc texts st1 hflag ?_ ?_⟩
  · rw [ha]; simp [NATTR, close_atts]
  · rw [ha]; simp [close_atts, hlen]

/-- Witness of C22_cdata_before_child: an element 8 entered under the CDATA
rule, then two texts. -/
theorem C22_cdata_before_child_witness :
    repl_run_init.atts.nameidx_buf.length = repl_run_init.atts.validx_buf.length
      ∧ repl_Start rs_cdata repl_run_init 8
          = some ⟨close_atts att_stack_init 8, out_state_init, true⟩
      ∧ ((8 : Nat) = CMARK_NODE_HTML_BLOCK ∨ (8 : Nat) = CMARK_NODE_HTML_INLINE
          ∨ ((8 : Nat) ≠ CMARK_NODE_NONE
            ∧ ∃ rp, select_rule rs_cdata (close_atts repl_run_init.atts 8) 8 = some (some rp)
              ∧ rp.is_cdata = true))
      ∧ (⟨close_atts att_stack_init 8, out_state_init, true⟩ : repl_run).is_cdata = true
      ∧ ∃ st2, repl_events rs_cdata (fun _ => [])
            ⟨close_atts att_stack_init 8, out_state_init, true⟩
            ([[60], [38, 62]].map esis_event.cdata) = some st2
          ∧ st2.o.out = (⟨close_atts att_stack_init 8, out_state_init, true⟩ : repl_run).o.out
              ++ [[60], [38, 62]].flatten
          ∧ st2.is_cdata = true
          ∧ st2.atts = (⟨close_atts att_stack_init 8, out_state_init, true⟩ : repl_run).atts :=
  ⟨by decide, by decide,
    Or.inr (Or.inr ⟨by decide, ⟨⟨8, [0]⟩, none, none, true⟩, by decide, rfl⟩),
    C22_cdata_before_child rs_cdata (fun _ => []) repl_run_init
      ⟨close_atts att_stack_init 8, out_state_init, true⟩ 8 [[60], [38, 62]]
      (by decide) (by decide)
      (Or.inr (Or.inr ⟨by decide, ⟨⟨8, [0]⟩, none, none, true⟩, by decide, rfl⟩))⟩

/-- C23, the code as it stands.  On a dollar, the digit 1 and the name ab
(plain, or in braces) `P_attr_subst` stores SO, SP, the three characters 1 a b,
NUL, SI: a digit passes the test `ISNMSTART`, which comes first, so it is
taken as the first character of the name and the precode is that of a token
without prefix.  The claim has SO, 02, a b, NUL, SI.  The table `out_`, which
the digit does not reach, has the character x for the digit 1. -/
theorem C23_digit_taken_as_name :
    P_attr_subst 8 36 octetbuf_zero 34 ⟨[49, 97, 98, 34], []⟩
        = outcome.ret (34, ⟨[SO, SP, 49, 97, 98, NUL, SI], 484⟩, ⟨[], []⟩)
      ∧ P_attr_subst 8 36 octetbuf_zero 34 ⟨[123, 49, 97, 98, 125, 34], []⟩
        = outcome.ret (34, ⟨[SO, SP, 49, 97, 98, NUL, SI], 484⟩, ⟨[], []⟩)
      ∧ ([SO, SP, 49, 97, 98, NUL, SI] : List Nat) ≠ [SO, 2, 97, 98, NUL, SI]
      ∧ (∀ d ∈ [48, 49, 50, 51, 52, 53, 54, 55, 56, 57], ISNMSTART d = true)
      ∧ out_.getD (in_.indexOf 49) 0 = 120 := by
  decide

/-- C24, the code as it stands.  On a string literal that is opened by a
double quote and holds a b c up to the end of the file, `P_string` does not
return, however many rounds of its loop are run: at the end of the file `getc`
returns `EOF`, which the loop stores as an octet, and reads again. -/
theorem C24_unclosed_string_never_returns (fuel : Nat) (pbuf : octetbuf) (is_repl : Bool) :
    P_string fuel LIT pbuf LIT is_repl ⟨[97, 98, 99], []⟩ = outcome.more := by
  unfold P_string
  have c1 : ¬ ((LIT = LIT ∨ LIT = LITA) ∧ LIT ≠ LIT) := by decide
  have c2 : ¬ (¬ (LIT = LIT ∨ LIT = LITA) ∧ ¬ (LIT = 123 ∧ LIT = 125)) := by decide
  rw [if_neg c1, if_neg c2]
  have e : GETC ⟨[97, 98, 99], []⟩ = (((97 : Nat) : Int), ⟨[98, 99], []⟩) := rfl
  rw [e]
  simp only
  rw [P_string_loop_unclosed LIT is_repl (by decide) [98, 99] 97 fuel pbuf (by decide)]

/-- C25, the code as it stands.  With the one name abc registered,
`is_notation` returns true for the token ab of length 2, which is not a
registered name: `strncmp` compares the first `len` characters only.  And
`register_notation` called with NTS, as `set_repl` calls it, does not get as
far as a registered name: the block for the copy is allocated with the size
NTS + 1, which is 0. -/
theorem C25_prefix_counts_as_name :
    register_notation [] [97, 98, 99] (some 3) = some [[97, 98, 99]]
      ∧ is_notation [[97, 98, 99]] [97, 98] (some 2) = some true
      ∧ [97, 98] ∉ [[97, 98, 99]]
      ∧ is_notation [[97, 98, 99]] [97, 98, 99] (some 3) = some true
      ∧ register_notation [] [97, 98, 99] none = none := by
  decide

/-- C26, the code as it stands.  The three octets a b c are pushed into a
zero-initialised buffer and `octetbuf_push_back` returns 0; the buffer is the
inline array of 484 octets.  Then `octetbuf_reserve(o, SIZE_MAX)`: in
`ROUND` the sum `c + 1023` wraps, the new capacity is 0, `grow` keeps
`min(n, 0)` octets and takes the inline array, so the size is 0 and the
octets at the positions 0 to 2 are not a b c any more. -/
theorem C26_reserve_loses_octets :
    octetbuf_push_back octetbuf_zero [97, 98, 99] = (⟨[97, 98, 99], 484⟩, 0)
      ∧ ROUND_size_t (2 ^ 64 - 1) = 0
      ∧ octetbuf_reserve_size_t ⟨[97, 98, 99], 484⟩ (2 ^ 64 - 1) = ⟨[], 484⟩
      ∧ (octetbuf_reserve_size_t (octetbuf_push_back octetbuf_zero [97, 98, 99]).1
          (2 ^ 64 - 1)).p = [] :=
  ⟨by decide, by decide, by decide, by decide⟩

/-- C27, the code as it stands.  A buffer holds one octet in a heap block of
2048 octets.  After `octetbuf_reserve(o, SIZE_MAX - 1000)` the capacity is
not a multiple of 1024 that is at least the capacity asked for but 484, the
size of the inline array, and the octet is lost: in `ROUND` the sum
`c + 1023` wraps to 22 and the new capacity is 0.  The same for `SIZE_MAX`
and for every capacity above `SIZE_MAX - 1023`. -/
theorem C27_reserve_wraps_to_inline :
    ROUND_size_t (2 ^ 64 - 1 - 1000) = 0
      ∧ octetbuf_reserve_size_t ⟨[7], 2048⟩ (2 ^ 64 - 1 - 1000) = ⟨[], 484⟩
      ∧ octetbuf_reserve_size_t ⟨[7], 2048⟩ (2 ^ 64 - 1) = ⟨[], 484⟩
      ∧ ∀ k, octetbuf_reserve_size_t ⟨[7], 2048⟩ (2 ^ 64 - 1 - k % 1023) = ⟨[], 484⟩ := by
  refine ⟨by decide, by decide, by decide, fun k => ?_⟩
  have hk : k % 1023 < 1023 := Nat.mod_lt _ (by decide)
  have hc : 2 ^ 64 - 1 - k % 1023 > 2048 := by omega
  unfold octetbuf_reserve_size_t grow_size_t
  simp only [hc, if_true, ROUND_size_t_wraps k]
  decide

/-- C28: `u8fc32` fails exactly for a value in the surrogate range D800 to
DFFF or above 10FFFF; for every other value it writes between one and four
octets. -/
theorem C28_u8fc32_fails_iff (c : Int) :
    (u8fc32 c = none ↔ ((0xD800 ≤ c ∧ c ≤ 0xDFFF) ∨ 0x10FFFF < c))
      ∧ ∀ bs, u8fc32 c = some bs → 1 ≤ bs.length ∧ bs.length ≤ 4 := by
  refine ⟨?_, fun bs h => u8fc32_length c bs h⟩
  unfold u8fc32
  by_cases h1 : 0xD800 ≤ c ∧ c < 0xE000
  · rw [if_pos h1]
    simp only [true_iff]
    left; omega
  · rw [if_neg h1]
    by_cases h2 : 0x10FFFF < c
    · rw [if_pos h2]
      simp only [true_iff]
      right; exact h2
    · rw [if_neg h2]
      have hr : ¬ ((0xD800 ≤ c ∧ c ≤ 0xDFFF) ∨ 0x10FFFF < c) := by omega
      simp only [hr, iff_false]
      by_cases h3 : c ≤ 0x007F
      · rw [if_pos h3]; simp
      · rw [if_neg h3]
        have hn : c.toNat < 0x110000 := by omega
        split
        · simp
        · split
          · simp
          · simp [hn]

/-- C29, the code as it stands.  FFFF is a scalar value whose shortest form is
the three octets EF BF BF, but `u8fc32` writes the four octets F0 8F BF BF
for it: the three-octet branch tests `c32 < 0xFFFF`. -/
theorem C29_uFFFF_not_shortest_form :
    is_scalar 0xFFFF ∧ utf8 0xFFFF = [0xEF, 0xBF, 0xBF]
      ∧ u8fc32 0xFFFF = some [0xF0, 0x8F, 0xBF, 0xBF] := by
  decide

/-- C30: for every scalar value `v`, `u8fc32` writes octets which `u8tc32`,
called from its initial state with their number as `n` (as `esc_define`
calls it), decodes to `v`: it stores `v` and returns the number of octets, 0
for `v = 0`, in both cases a value below 5. -/
theorem C30_decode_what_was_encoded (v : Nat) (hs : is_scalar v) :
    ∃ bs, u8fc32 (v : Int) = some bs ∧ ∀ rest : List Nat,
      ∃ ret, u8tc32 u8_state_zero (bs ++ rest) bs.length = some (u8_state_zero, ret, some v)
        ∧ ret = (if v = 0 then 0 else bs.length) ∧ ret < 5 := by
  obtain ⟨bs, h1, h2⟩ := u8tc32_u8fc32 v hs
  obtain ⟨l1, l2⟩ := u8fc32_length _ bs h1
  refine ⟨bs, h1, fun rest => ⟨_, h2 rest bs.length (le_refl _), rfl, ?_⟩⟩
  split <;> omega

/-- Witness of C30_decode_what_was_encoded: the scalar value E9. -/
theorem C30_decode_what_was_encoded_witness :
    is_scalar 0xE9 ∧ ∃ bs, u8fc32 ((0xE9 : Nat) : Int) = some bs ∧ ∀ rest : List Nat,
      ∃ ret, u8tc32 u8_state_zero (bs ++ rest) bs.length = some (u8_state_zero, ret, some 0xE9)
        ∧ ret = (if 0xE9 = 0 then 0 else bs.length) ∧ ret < 5 :=
  ⟨by decide, C30_decode_what_was_encoded 0xE9 (by decide)⟩

/-- C31, the code as it stands.  The two octets C3 A9 encode E9.  Given the
first alone, `u8tc32` returns `(size_t)-2` and keeps 3 as the value so far;
given the second next, it stores C1, not E9: with a value pending, the
first octet of a call adds `U8_TAIL(*p++)`, which is the result 1 of the test
for a tail octet, not the six bits of the octet.  The same happens to the
three octets E2 82 AC of 20AC split behind the first or the second octet. -/
theorem C31_split_sequence_decodes_wrong :
    u8tc32 u8_state_zero [0xC3, 0xA9] 2 = some (u8_state_zero, 2, some 0xE9)
      ∧ u8tc32 u8_state_zero [0xC3] 1 = some (⟨3, 1, 1⟩, SIZE_M2, none)
      ∧ u8tc32 ⟨3, 1, 1⟩ [0xA9] 1 = some (u8_state_zero, 1, some 0xC1)
      ∧ u8tc32 u8_state_zero [0xE2, 0x82, 0xAC] 3 = some (u8_state_zero, 3, some 0x20AC)
      ∧ u8tc32 u8_state_zero [0xE2] 1 = some (⟨2, 1, 2⟩, SIZE_M2, none)
      ∧ u8tc32 ⟨2, 1, 2⟩ [0x82, 0xAC] 2 = some (u8_state_zero, 2, some 0x206C)
      ∧ u8tc32 u8_state_zero [0xE2, 0x82] 2 = some (⟨0x82, 2, 1⟩, SIZE_M2, none)
      ∧ u8tc32 ⟨0x82, 2, 1⟩ [0xAC] 1 = some (u8_state_zero, 1, some 0x2081) :=
  ⟨by decide, by decide, by decide, by decide, by decide, by decide, by decide, by decide⟩

/-- C32 as stated fails for a table whose blob outgrows the 13 bits of the
offset: of 8193 calls of `esc_define`, each for the scalar 41 with an encoding
of one octet, the last one appends at offset 8192, `IDX(dgr.oi)` is 0 and the
assertion `IDX(dgr.oi) == oi` fails. -/
theorem C32_blob_outgrows_offset :
    esc_create_loop u8_state_zero esc_state_init (List.replicate 8193 (97, 98, 65)) = none
      ∧ (dgr_blob (List.replicate 8192 (97, 98, 65))).length = 8192
      ∧ MKOI 8192 1 % 2 ^ 16 = 8192 ∧ IDX 8192 = 0 := by
  refine ⟨?_, dgr_blob_replicate 8192, by decide, by decide⟩
  cases h : esc_create_loop u8_state_zero esc_state_init (List.replicate 8193 (97, 98, 65)) with
  | none => rfl
  | some r =>
    exfalso
    obtain ⟨g1, es1⟩ := r
    have := esc_create_loop_offsets _ _ es1 g1 h (by decide) 8192
      (by rw [List.length_replicate]; omega)
    rw [List.take_replicate, dgr_blob_replicate] at this
    revert this
    decide

/-- C32, amended: for every sequence of calls of `esc_define` with scalar
values in which every entry is appended at a blob offset of at most 8191, all
the calls return (the assertions `LEN(dgr.oi) == 1` and `IDX(dgr.oi) == oi`
hold), the blob is the encodings one behind the other, and each record decodes
to its key, the count 1 and the offset at which the encoding of its line
starts.  On the table that `esc_create` makes of them, a lookup by
`esc_expand` that finds a record reads the encoding of a line with the key of
the record: it returns its length and copies it to the front of `buf`
(nothing, and 0, for the scalar 0). -/
theorem C32_entries_decode_to_offsets (lines : List (Nat × Nat × Int))
    (hsc : ∀ l ∈ lines, 0 ≤ l.2.2 ∧ is_scalar l.2.2.toNat)
    (hoff : ∀ k < lines.length, (dgr_blob (lines.take k)).length ≤ IDXMAX) :
    (∃ es1, esc_create_loop u8_state_zero esc_state_init lines = some (u8_state_zero, es1)
        ∧ es1.octs_buf.p = dgr_blob lines
        ∧ es1.dgrs_buf.map dgr_decoded = dgr_entries 0 lines)
      ∧ ∃ es, esc_create u8_state_zero lines = some (u8_state_zero, es)
        ∧ es.defs = dgr_blob lines
        ∧ ∀ (buf : List Nat) (ch0 ch1 : Nat) (d : dgr_),
            bsearch ⟨ch0, ch1, 0⟩ es.dgrs = some d →
            ∃ l ∈ lines, ∃ bs rest, d.ch0 = l.1 ∧ d.ch1 = (if l.2.1 = SP then NUL else l.2.1)
              ∧ cmpdgr ⟨ch0, ch1, 0⟩ d = 0 ∧ LEN d.oi = 1
              ∧ u8fc32 l.2.2 = some bs ∧ es.defs.drop (IDX d.oi) = bs ++ rest
              ∧ esc_expand u8_state_zero es buf ch0 ch1
                = some (u8_state_zero, (if l.2.2 = 0 then buf else bs ++ buf.drop bs.length),
                    if l.2.2 = 0 then 0 else bs.length) := by
  obtain ⟨es1, h1, h2, h3⟩ := esc_create_loop_total lines esc_state_init (by decide) hsc
    (fun k hk => by
      have := hoff k hk
      simpa [esc_state_init, octetbuf_zero] using this)
  have hp : es1.octs_buf.p = dgr_blob lines := by
    simpa [esc_state_init, octetbuf_zero] using h2
  refine ⟨⟨es1, h1, hp, by simpa [esc_state_init, octetbuf_zero] using h3⟩, ?_⟩
  obtain ⟨es, hcreate, hdefs⟩ : ∃ es, esc_create u8_state_zero lines = some (u8_state_zero, es)
      ∧ es.defs = es1.octs_buf.p := by
    simp only [esc_create, h1]
    exact ⟨_, rfl, rfl⟩
  refine ⟨es, hcreate, by rw [hdefs, hp], ?_⟩
  intro buf ch0 ch1 d hb
  obtain ⟨_, _, news, hd, hf⟩ := esc_create_spec lines _ _ hcreate
  obtain ⟨hmem, hz⟩ := (bsearch_spec ⟨ch0, ch1, 0⟩ _ (by rw [hd]; exact qsort_sorted news)).1 d hb
  rw [hd, mem_qsort] at hmem
  obtain ⟨l, hl, hdl⟩ := forall₂_right hf d hmem
  obtain ⟨bs, henc, he⟩ := esc_expand_found _ buf ch0 ch1 d l hb hdl
  obtain ⟨a, b, hL, _, _, bs2, rest, henc2, hdrop⟩ := hdl
  rw [henc] at henc2
  cases henc2
  exact ⟨l, hl, bs, rest, a, b, hz, hL, henc, hdrop, he⟩

/-- Witness of C32_entries_decode_to_offsets: three lines, whose encodings of
two octets each are appended at the offsets 0, 2 and 4. -/
theorem C32_entries_decode_to_offsets_witness :
    (∀ l ∈ [((97, 58, 0xE4) : Nat × Nat × Int), (97, 32, 0xE5), (117, 58, 0xFC)],
        0 ≤ l.2.2 ∧ is_scalar l.2.2.toNat)
      ∧ (∀ k < [((97, 58, 0xE4) : Nat × Nat × Int), (97, 32, 0xE5), (117, 58, 0xFC)].length,
        (dgr_blob ([((97, 58, 0xE4) : Nat × Nat × Int), (97, 32, 0xE5), (117, 58, 0xFC)].take
          k)).length ≤ IDXMAX)
      ∧ dgr_blob [(97, 58, 0xE4), (97, 32, 0xE5), (117, 58, 0xFC)]
          = [0xC3, 0xA4, 0xC3, 0xA5, 0xC3, 0xBC]
      ∧ dgr_entries 0 [(97, 58, 0xE4), (97, 32, 0xE5), (117, 58, 0xFC)]
          = [(97, 58, 1, 0), (97, 0, 1, 2), (117, 58, 1, 4)]
      ∧ ((∃ es1, esc_create_loop u8_state_zero esc_state_init
            [(97, 58, 0xE4), (97, 32, 0xE5), (117, 58, 0xFC)] = some (u8_state_zero, es1)
          ∧ es1.octs_buf.p = dgr_blob [(97, 58, 0xE4), (97, 32, 0xE5), (117, 58, 0xFC)]
          ∧ es1.dgrs_buf.map dgr_decoded
              = dgr_entries 0 [(97, 58, 0xE4), (97, 32, 0xE5), (117, 58, 0xFC)])
        ∧ ∃ es, esc_create u8_state_zero [(97, 58, 0xE4), (97, 32, 0xE5), (117, 58, 0xFC)]
            = some (u8_state_zero, es)
          ∧ es.defs = dgr_blob [(97, 58, 0xE4), (97, 32, 0xE5), (117, 58, 0xFC)]
          ∧ ∀ (buf : List Nat) (ch0 ch1 : Nat) (d : dgr_),
              bsearch ⟨ch0, ch1, 0⟩ es.dgrs = some d →
              ∃ l ∈ [((97, 58, 0xE4) : Nat × Nat × Int), (97, 32, 0xE5), (117, 58, 0xFC)],
                ∃ bs rest, d.ch0 = l.1 ∧ d.ch1 = (if l.2.1 = SP then NUL else l.2.1)
                ∧ cmpdgr ⟨ch0, ch1, 0⟩ d = 0 ∧ LEN d.oi = 1
                ∧ u8fc32 l.2.2 = some bs ∧ es.defs.drop (IDX d.oi) = bs ++ rest
                ∧ esc_expand u8_state_zero es buf ch0 ch1
                  = some (u8_state_zero,
                      (if l.2.2 = 0 then buf else bs ++ buf.drop bs.length),
                      if l.2.2 = 0 then 0 else bs.length)) :=
  ⟨by decide, by decide, by decide, by decide,
    C32_entries_decode_to_offsets [(97, 58, 0xE4), (97, 32, 0xE5), (117, 58, 0xFC)]
      (by decide) (by decide)⟩

/-- C33, the code as it stands.  In the default state, the three octets
backslash a b (a digraph that is not defined) are scanned to the end in state
OUTSIDE and copied as they are; the three octets backslash a 01 give nothing
in a call of their own, but behind the first three in one window they are
copied too: the variable `u8nseq2`, which the first token left at -1, is
tested again although the second token makes no two-character lookup. -/
theorem C33_earlier_token_changes_later :
    (esc_run esc_state_init [92, 97, 98] (bsubst_vars_init u8_state_zero octetbuf_zero)).map
        (fun v => (v.st, v.seq, v.dst.p)) = some (ST_OUTSIDE, [], [92, 97, 98])
      ∧ (esc_bsubst u8_state_zero esc_state_init octetbuf_zero ⟨[92, 97, 98], 0⟩).map
        (fun r => r.dst.p) = some [92, 97, 98]
      ∧ (esc_bsubst u8_state_zero esc_state_init octetbuf_zero ⟨[92, 97, 1], 0⟩).map
        (fun r => r.dst.p) = some []
      ∧ (esc_bsubst u8_state_zero esc_state_init octetbuf_zero
          ⟨[92, 97, 98] ++ [92, 97, 1], 0⟩).map
        (fun r => r.dst.p) = some ([92, 97, 98] ++ [92, 97, 1]) := by
  decide

set_option maxRecDepth 100000 in
/-- C34, the code as it stands.  After the substitution character and 63
name characters the scanner is in state SUBST with `nseq` at 64; one more
name character is stored to `seq[64]`, behind the array.  After the escape
character, an opening brace and 62 hexadecimal digits `nseq` is 64 as well;
one more digit is stored to `seq[64]`, and so is the NUL of the code block
when a closing brace follows. -/
theorem C34_token_buffer_overrun :
    (esc_run esc_state_init (36 :: List.replicate 63 97)
        (bsubst_vars_init u8_state_zero octetbuf_zero)).map
        (fun v => (v.st, v.seq.length)) = some (ST_SUBST, SEQMAX)
      ∧ esc_bsubst u8_state_zero esc_state_init octetbuf_zero
          ⟨36 :: List.replicate 64 97, 0⟩ = none
      ∧ (esc_run esc_state_init (92 :: 123 :: List.replicate 62 48)
          (bsubst_vars_init u8_state_zero octetbuf_zero)).map
        (fun v => (v.st, v.seq.length)) = some (ST_UNI, SEQMAX)
      ∧ esc_bsubst u8_state_zero esc_state_init octetbuf_zero
          ⟨92 :: 123 :: List.replicate 63 48, 0⟩ = none
      ∧ esc_bsubst u8_state_zero esc_state_init octetbuf_zero
          ⟨92 :: 123 :: (List.replicate 62 48 ++ [125]), 0⟩ = none := by
  decide

/-- C35, the code as it stands.  On backslash, opening brace, closing brace
the scanner reaches the code block with `seq` holding the two octets
backslash and brace only, and `assert(isxdigit(seq[2]))` fails; an octet in
the group that is no hexadecimal digit is passed over, so the group x fails
in the same way and the group 4 x 1 gives the scalar 41; eleven digits are
all taken. -/
theorem C35_empty_group_fails_assertion :
    (esc_run esc_state_init [92, 123] (bsubst_vars_init u8_state_zero octetbuf_zero)).map
        (fun v => (v.st, v.seq)) = some (ST_UNI, [92, 123])
      ∧ esc_bsubst u8_state_zero esc_state_init octetbuf_zero ⟨[92, 123, 125], 0⟩ = none
      ∧ esc_bsubst u8_state_zero esc_state_init octetbuf_zero ⟨[92, 123, 120, 125], 0⟩ = none
      ∧ (esc_bsubst u8_state_zero esc_state_init octetbuf_zero
          ⟨[92, 123, 52, 120, 49, 125], 0⟩).map (fun r => r.dst.p) = some [65]
      ∧ (esc_bsubst u8_state_zero esc_state_init octetbuf_zero
          ⟨[92, 123, 48, 48, 48, 48, 48, 48, 48, 48, 48, 52, 49, 125], 0⟩).map
        (fun r => r.dst.p) = some [65] := by
  decide

/-- C36 as stated fails for an escape character that is one of the letters of
the escape kinds: with the escape character u, the doubled u is the start of
a four-digit escape (the digits 0041 behind it give A), and nothing is
written for it.  And with the substitution character x, which is a name
start character, the doubled x is the start of a name. -/
theorem C36_escape_letter_counterexample :
    (esc_bsubst u8_state_zero { esc_state_init with escape := 117 } octetbuf_zero
        ⟨[117, 117], 0⟩).map (fun r => r.dst.p) = some []
      ∧ (esc_bsubst u8_state_zero { esc_state_init with escape := 117 } octetbuf_zero
        ⟨[117, 117, 48, 48, 52, 49], 0⟩).map (fun r => r.dst.p) = some [65]
      ∧ (esc_bsubst u8_state_zero { esc_state_init with subst := 120 } octetbuf_zero
        ⟨[120, 120, 32], 0⟩).map (fun r => r.dst.p) = some [120, 120, 32] := by
  decide

/-- C36, amended: in every escape state whose escape character is none of the
letters u, U, the opening brace and the circumflex, an escape character met
twice in state OUTSIDE gives one escape character in `dst`; and where the
substitution character is no name start character (and not the escape
character), a substitution character met twice gives one substitution
character.  In both cases the scanner is in state OUTSIDE again with the
token buffer empty, whatever the resolver and the digraph table are, and the
static state of the decoder is as before. -/
theorem C36_doubled_characters (esp : esc_state_) (v : bsubst_vars) (out : List Nat)
    (e s : Nat) (h : at_state v ST_OUTSIDE [] out)
    (he : ch_eq e esp.escape = true) (he0 : e ≠ 0) (he256 : e < 256)
    (hek : e ≠ ESC_BMP ∧ e ≠ ESC_UCS ∧ e ≠ ESC_GRPO ∧ e ≠ ESC_DGR)
    (hs : ch_eq s esp.subst = true) (hse : ch_eq s esp.escape = false)
    (hs0 : s ≠ 0) (hs256 : s < 256) (hsn : ISNMSTRT esp.nmstart s = false) :
    (∃ v1, esc_run esp [e, e] v = some v1 ∧ at_state v1 ST_OUTSIDE [] (out ++ [e]) ∧ v1.g = v.g)
      ∧ (∃ v1, esc_run esp [s, s] v = some v1 ∧ at_state v1 ST_OUTSIDE [] (out ++ [s])
          ∧ v1.g = v.g) := by
  obtain ⟨st, seq, b1, b2, n1, n2, ch, dst, g⟩ := v
  obtain ⟨h1, h2, h3, h4⟩ := h
  simp only at h1 h2 h3 h4
  subst h1 h2 h3
  obtain ⟨hk1, hk2, hk3, hk4⟩ := hek
  obtain ⟨q1, q2⟩ := octetbuf_push_c_p dst e h4 he256
  obtain ⟨r1, r2⟩ := octetbuf_push_c_p dst s h4 hs256
  constructor
  · simp [esc_run, esc_body, esc_switch, he, seq_put, SEQMAX, esc_flush, at_state, hk1, hk2,
      hk3, hk4, NUL, he0, q1, q2]
  · simp [esc_run, esc_body, esc_switch, hs, hse, seq_put, SEQMAX, esc_flush, at_state, hsn,
      NUL, hs0, r1, r2]

/-- Witness of C36_doubled_characters: the default state with backslash and
dollar, at the start of a window. -/
theorem C36_doubled_characters_witness :
    at_state (bsubst_vars_init u8_state_zero octetbuf_zero) ST_OUTSIDE [] []
      ∧ ch_eq 92 esc_state_init.escape = true ∧ (92 : Nat) ≠ 0 ∧ (92 : Nat) < 256
      ∧ ((92 : Nat) ≠ ESC_BMP ∧ (92 : Nat) ≠ ESC_UCS ∧ (92 : Nat) ≠ ESC_GRPO
          ∧ (92 : Nat) ≠ ESC_DGR)
      ∧ ch_eq 36 esc_state_init.subst = true ∧ ch_eq 36 esc_state_init.escape = false
      ∧ (36 : Nat) ≠ 0 ∧ (36 : Nat) < 256 ∧ ISNMSTRT esc_state_init.nmstart 36 = false
      ∧ (∃ v1, esc_run esc_state_init [92, 92] (bsubst_vars_init u8_state_zero octetbuf_zero)
            = some v1 ∧ at_state v1 ST_OUTSIDE [] ([] ++ [92])
          ∧ v1.g = (bsubst_vars_init u8_state_zero octetbuf_zero).g)
      ∧ (∃ v1, esc_run esc_state_init [36, 36] (bsubst_vars_init u8_state_zero octetbuf_zero)
            = some v1 ∧ at_state v1 ST_OUTSIDE [] ([] ++ [36])
          ∧ v1.g = (bsubst_vars_init u8_state_zero octetbuf_zero).g) :=
  ⟨⟨rfl, rfl, rfl, by decide⟩, by decide, by decide, by decide, by decide, by decide,
    by decide, by decide, by decide, by decide,
    C36_doubled_characters esc_state_init (bsubst_vars_init u8_state_zero octetbuf_zero) []
      92 36 ⟨rfl, rfl, rfl, by decide⟩ (by decide) (by decide) (by decide) (by decide) (by decide) (by decide)
      (by decide) (by decide) (by decide)⟩

/-- C37: the callbacks are at a point between two elements; they get through
the attribute events and the enter event of an element and through the
well-nested events of its content.  Then the leave event of the element finds
the stack with the text and the elements that `repl_Start` left, and the rule
that `select_rule` returns in `repl_End` for the node type is the rule it
returned in `repl_Start`, on the stack closed with the node type after the
`push_att` calls for the attributes. -/
theorem C37_leave_rule_is_enter_rule (rs : repl_state) (esc : List Nat → List Nat)
    (st st1 st2 : repl_run) (attrs : List (List Nat × List Nat)) (nt : Nat)
    (body : List esis_event)
    (hs : att_stack_closed st.atts) (hb : well_nested body)
    (h1 : repl_events rs esc st (attr_events attrs ++ [esis_event.start nt]) = some st1)
    (h2 : repl_events rs esc st1 body = some st2) :
    st1.atts = close_atts (push_atts st.atts attrs) nt
      ∧ att_same st1.atts st2.atts
      ∧ select_rule rs st2.atts nt = select_rule rs (close_atts (push_atts st.atts attrs) nt) nt := by
  rw [repl_events_append, repl_events_attrs] at h1
  simp only [repl_events, repl_event] at h1
  cases hstart : repl_Start rs { st with atts := push_atts st.atts attrs } nt with
  | none => rw [hstart] at h1; cases h1
  | some sa =>
    rw [hstart] at h1
    simp only [Option.some.injEq] at h1
    subst h1
    obtain ⟨hok, hhead, hlen, hcl⟩ := hs
    obtain ⟨i1, i2, i3, _, _⟩ := push_atts_inv st.atts hok hhead hlen attrs
    have ha : sa.atts = close_atts (push_atts st.atts attrs) nt :=
      (repl_Start_spec rs _ sa nt hstart).1
    have hca : att_stack_closed sa.atts := by
      rw [ha]; exact close_atts_closed _ nt i1 i2 i3
    obtain ⟨hsame, _⟩ := repl_events_well_nested rs esc body hb sa st2 hca h2
    refine ⟨ha, hsame, ?_⟩
    rw [← ha]
    exact select_rule_congr rs sa.atts st2.atts nt hsame

/-- Witness of C37_leave_rule_is_enter_rule: a list element with type="ordered"
is entered under the rule with the predicate type=ordered; its content is a
text and a child element with an attribute; at its leave event `select_rule`
returns that rule again. -/
theorem C37_leave_rule_is_enter_rule_witness :
    att_stack_closed repl_run_init.atts
      ∧ well_nested [esis_event.cdata [120], esis_event.attr s_title s_Hello,
          esis_event.start 17, esis_event.end_ 17]
      ∧ repl_events rs_lists esc_sample repl_run_init
          (attr_events [(s_type, s_ordered)] ++ [esis_event.start 3])
        = some ⟨close_atts (push_atts att_stack_init [(s_type, s_ordered)]) 3,
            ⟨[60, 111, 108, 62], false⟩, false⟩
      ∧ repl_events rs_lists esc_sample
          ⟨close_atts (push_atts att_stack_init [(s_type, s_ordered)]) 3,
            ⟨[60, 111, 108, 62], false⟩, false⟩
          [esis_event.cdata [120], esis_event.attr s_title s_Hello,
            esis_event.start 17, esis_event.end_ 17]
        = some ⟨close_atts (push_atts att_stack_init [(s_type, s_ordered)]) 3,
            ⟨[60, 111, 108, 62, 120], false⟩, false⟩
      ∧ select_rule rs_lists (close_atts (push_atts att_stack_init [(s_type, s_ordered)]) 3) 3
        = some (some rule_ordered)
      ∧ (⟨close_atts (push_atts att_stack_init [(s_type, s_ordered)]) 3,
            ⟨[60, 111, 108, 62], false⟩, false⟩ : repl_run).atts
          = close_atts (push_atts repl_run_init.atts [(s_type, s_ordered)]) 3
      ∧ att_same (⟨close_atts (push_atts att_stack_init [(s_type, s_ordered)]) 3,
            ⟨[60, 111, 108, 62], false⟩, false⟩ : repl_run).atts
          (⟨close_atts (push_atts att_stack_init [(s_type, s_ordered)]) 3,
            ⟨[60, 111, 108, 62, 120], false⟩, false⟩ : repl_run).atts
      ∧ select_rule rs_lists (⟨close_atts (push_atts att_stack_init [(s_type, s_ordered)]) 3,
            ⟨[60, 111, 108, 62, 120], false⟩, false⟩ : repl_run).atts 3
          = select_rule rs_lists
              (close_atts (push_atts repl_run_init.atts [(s_type, s_ordered)]) 3) 3 :=
  ⟨by decide,
    well_nested.cdata [120] _
      (well_nested.elem [(s_title, s_Hello)] 17 [] [] well_nested.nil well_nested.nil),
    by decide, by decide, by decide,
    C37_leave_rule_is_enter_rule rs_lists esc_sample repl_run_init
      ⟨close_atts (push_atts att_stack_init [(s_type, s_ordered)]) 3,
        ⟨[60, 111, 108, 62], false⟩, false⟩
      ⟨close_atts (push_atts att_stack_init [(s_type, s_ordered)]) 3,
        ⟨[60, 111, 108, 62, 120], false⟩, false⟩
      [(s_type, s_ordered)] 3
      [esis_event.cdata [120], esis_event.attr s_title s_Hello,
        esis_event.start 17, esis_event.end_ 17]
      (by decide)
      (well_nested.cdata [120] _
        (well_nested.elem [(s_title, s_Hello)] 17 [] [] well_nested.nil well_nested.nil))
      (by decide) (by decide)⟩

/-- C38, the code as it stands.  One element is open, entered with the
attribute title="Hello" on the stack as `load_repl_defs` sets it up and with
20 stored in the slot of its sentinel; the text has 13 octets.  On the
compiled form of the token for title, `put_subst` does not write Hello:
`att_val` fails the assertion `validx < attr_buf.n` at the sentinel, whose
slot holds no offset into the text.  So it does for every value from 13 on in
the slot; with 8 there, Hello is written and the position behind the SI is
returned. -/
theorem C38_defined_name_fails_assertion :
    (push_frames att_stack_init [([(s_title, s_Hello)], 20)]).attr_buf.p.length = 13
      ∧ frames_val [([(s_title, s_Hello)], 20)] s_title = some s_Hello
      ∧ put_subst (push_frames att_stack_init [([(s_title, s_Hello)], 20)]) out_state_init
          (SP :: (s_title ++ NUL :: SI :: [33])) = none
      ∧ put_subst (push_frames att_stack_init [([(s_title, s_Hello)], 8)]) out_state_init
          (SP :: (s_title ++ NUL :: SI :: [33])) = some (some (⟨s_Hello, false⟩, [33]))
      ∧ ∀ v, put_subst (push_frames att_stack_init [([(s_title, s_Hello)], 13 + v)])
          out_state_init (SP :: (s_title ++ NUL :: SI :: [33])) = none := by
  refine ⟨by decide, by decide, by decide, by decide, fun v => ?_⟩
  have hf : push_frames att_stack_init [([(s_title, s_Hello)], 13 + v)]
      = close_atts (push_atts att_stack_init [(s_title, s_Hello)]) (13 + v) := rfl
  have hv : att_val (close_atts (push_atts att_stack_init [(s_title, s_Hello)]) (13 + v))
      (s_title ++ NUL :: SI :: [33]) 32 = none :=
    att_val_sentinel_slot_high _ (13 + v) _ 31 (by decide) (by decide)
      (by
        have : (push_atts att_stack_init [(s_title, s_Hello)]).attr_buf.p.length = 13 := by
          decide
        omega)
  have h32 : SP &&& 0xFF = 32 := by decide
  have hcont : (s_title ++ NUL :: SI :: [33]).contains 0 = true := by decide
  have hdrop : (s_title ++ NUL :: SI :: [33]).drop ((cstr (s_title ++ NUL :: SI :: [33])).length + 1)
      = SI :: [33] := by decide
  rw [hf]
  unfold put_subst
  simp only [h32, hcont, hdrop, hv, not_true_eq_false, if_false, ne_eq]

/-- C39, the code as it stands.  On a name of nine characters (here the
letters A to I, a space behind them) the `do` loop stores nine characters, one
more than `NAMELEN`, and leaves `p` at `name + NAMELEN + 1`; the NUL is then
stored to `name[NAMELEN + 1]`, behind the array of `NAMELEN + 1` elements.
The same holds for every longer name, of which nine characters are stored.  A
name of eight characters is stored in full, the NUL in the last element. -/
theorem C39_nul_behind_the_array :
    P_name_do true 20 65 [] ⟨[66, 67, 68, 69, 70, 71, 72, 73, 32], []⟩
        = outcome.ret (32, [65, 66, 67, 68, 69, 70, 71, 72, 73], ⟨[], []⟩)
      ∧ [65, 66, 67, 68, 69, 70, 71, 72, 73].length = NAMELEN + 1
      ∧ P_name 20 65 false true ⟨[66, 67, 68, 69, 70, 71, 72, 73, 32], []⟩ = outcome.abort
      ∧ P_name_do true 20 65 [] ⟨[66, 67, 68, 69, 70, 71, 72, 73, 74, 75, 32], []⟩
        = outcome.ret (74, [65, 66, 67, 68, 69, 70, 71, 72, 73], ⟨[75, 32], []⟩)
      ∧ P_name 20 65 false true ⟨[66, 67, 68, 69, 70, 71, 72, 73, 74, 75, 32], []⟩
        = outcome.abort
      ∧ P_name 20 99 true true ⟨[109, 46, 113, 117, 111, 45, 98, 32], []⟩
        = outcome.ret (32, [67, 77, 46, 81, 85, 79, 45, 66], some 2, false, ⟨[], []⟩) :=
  ⟨by decide, by decide, by decide, by decide, by decide, by decide⟩

/-- C40, the code as it stands.  On a zero-initialised buffer,
`octetbuf_resize(o, SIZE_MAX, 0)`: in `ROUND` the sum `n + 1023` wraps, `grow`
takes the inline array of 484 octets, and the loop stores `p[k]` for `k`
from 0 to `SIZE_MAX - 1`, behind the array from `k` = 484 on; `o->n` is then
set to `SIZE_MAX`, above the capacity 484.  The same on a buffer that holds
three octets, for every size above `SIZE_MAX - 1023`. -/
theorem C40_resize_stores_behind_storage :
    octetbuf_ok octetbuf_zero
      ∧ grow_size_t octetbuf_zero (2 ^ 64 - 1) = ⟨[], 484⟩
      ∧ octetbuf_resize_size_t octetbuf_zero (2 ^ 64 - 1) 0 = none
      ∧ octetbuf_ok ⟨[97, 98, 99], 484⟩
      ∧ grow_size_t ⟨[97, 98, 99], 484⟩ (2 ^ 64 - 1000) = ⟨[], 484⟩
      ∧ octetbuf_resize_size_t ⟨[97, 98, 99], 484⟩ (2 ^ 64 - 1000) 0 = none
      ∧ ∀ k, octetbuf_resize_size_t ⟨[97, 98, 99], 484⟩ (2 ^ 64 - 1 - k % 1023) 0 = none := by
  refine ⟨by decide, by decide, by decide, by decide, by decide, by decide, fun k => ?_⟩
  have hk : k % 1023 < 1023 := Nat.mod_lt _ (by decide)
  have hc : 2 ^ 64 - 1 - k % 1023 > 484 := by omega
  have hg : grow_size_t ⟨[97, 98, 99], 484⟩ (2 ^ 64 - 1 - k % 1023) = ⟨[], 484⟩ := by
    unfold grow_size_t
    simp only [hc, if_true, ROUND_size_t_wraps k]
    decide
  unfold octetbuf_resize_size_t
  simp only [hc, if_true, hg]
  have h3 : (3 : Nat) < 2 ^ 64 - 1 - k % 1023 := by omega
  simp [h3, hc]
  omega

end Md2doc
